import Mathlib

/-!
Shallow embedding of the `redblacktree` package (redblacktree.go) of the
goods library. Pointer-based nodes are modelled by an arena: a total heap
`Nat → node α` together with `Option Nat` standing for `*node` (with `none`
for `nil`). A nil-pointer dereference (which panics in the source language)
is modelled by `Res.crash`; every loop and every recursive fixup carries
explicit fuel, whose exhaustion is `Res.out`. All state updates mirror the
source statements in order.
-/

namespace Goods

/-- Mirror of `type node struct` of redblacktree.go: an element, left/right
child pointers, a parent pointer and a color flag (`red = true` means Red). -/
structure node (α : Type) where
  elem : α
  left : Option Nat
  right : Option Nat
  parent : Option Nat
  red : Bool
deriving DecidableEq

/-- Mirror of `type RedBlackTree struct`: the comparator `less`, the tracked
`size` (a machine integer in the source, here `Int`), and the `root` pointer.
The `heap` is the arena holding every allocated node and `alloc` is the next
fresh address (the source allocates with `&node{...}`). -/
structure RedBlackTree (α : Type) where
  less : α → α → Bool
  size : Int
  root : Option Nat
  heap : Nat → node α
  alloc : Nat

/-- Result of running a piece of the source code: a normal return with the
updated tree state, a nil-pointer dereference (`crash`, a panic in the
source), or fuel exhaustion (`out`). -/
inductive Res (σ : Type) where
  | ok : σ → Res σ
  | crash : Res σ
  | out : Res σ
deriving DecidableEq

/-- Write a whole node record at address `i`. -/
def writeN {α : Type} (st : RedBlackTree α) (i : Nat) (v : node α) : RedBlackTree α :=
  { st with heap := fun j => if j = i then v else st.heap j }

/-- Mirror of the assignment `i.left = v`. -/
def setLeft {α : Type} (st : RedBlackTree α) (i : Nat) (v : Option Nat) : RedBlackTree α :=
  writeN st i { st.heap i with left := v }

/-- Mirror of the assignment `i.right = v`. -/
def setRight {α : Type} (st : RedBlackTree α) (i : Nat) (v : Option Nat) : RedBlackTree α :=
  writeN st i { st.heap i with right := v }

/-- Mirror of the assignment `i.parent = v`. -/
def setParent {α : Type} (st : RedBlackTree α) (i : Nat) (v : Option Nat) : RedBlackTree α :=
  writeN st i { st.heap i with parent := v }

/-- Mirror of the assignment `i.red = v`. -/
def setRed {α : Type} (st : RedBlackTree α) (i : Nat) (v : Bool) : RedBlackTree α :=
  writeN st i { st.heap i with red := v }

/-- Mirror of the assignment `i.elem = v`. -/
def setElem {α : Type} (st : RedBlackTree α) (i : Nat) (v : α) : RedBlackTree α :=
  writeN st i { st.heap i with elem := v }

/-- Mirror of `func New(lf LessFunc) *RedBlackTree`: size 0 and nil root.
The arena starts filled with inert default nodes. -/
def New {α : Type} [Inhabited α] (lf : α → α → Bool) : RedBlackTree α :=
  { less := lf, size := 0, root := none
    heap := fun _ => { elem := default, left := none, right := none, parent := none, red := false }
    alloc := 0 }

/-- Mirror of `func (T *RedBlackTree) Size() int`. -/
def SizeT {α : Type} (st : RedBlackTree α) : Int := st.size

/-- Mirror of `func (T *RedBlackTree) Empty() bool`: `T.root == nil`. -/
def EmptyT {α : Type} (st : RedBlackTree α) : Bool := st.root.isNone

/-- Mirror of `func isRed(n *node) bool`: nil is considered black. -/
def isRed {α : Type} (st : RedBlackTree α) : Option Nat → Bool
  | none => false
  | some i => (st.heap i).red

/-- Mirror of `func (N *node) sibling() *node`: nil when `N` has no parent,
otherwise the parent's other child. -/
def sibling {α : Type} (st : RedBlackTree α) (n : Nat) : Option Nat :=
  match (st.heap n).parent with
  | none => none
  | some p => if (st.heap p).left = some n then (st.heap p).right else (st.heap p).left

/-- Mirror of `func (N *node) uncle() *node`: the parent's sibling. -/
def uncle {α : Type} (st : RedBlackTree α) (n : Nat) : Option Nat :=
  match (st.heap n).parent with
  | none => none
  | some p => sibling st p

/-- Mirror of `func (N *node) grandparent() *node`. -/
def grandparent {α : Type} (st : RedBlackTree α) (n : Nat) : Option Nat :=
  match (st.heap n).parent with
  | none => none
  | some p => (st.heap p).parent

/-- Mirror of `func (N *node) findMax() *node`: walk `right` pointers to
exhaustion, with fuel. -/
def findMaxF {α : Type} : Nat → RedBlackTree α → Nat → Option Nat
  | 0, _, _ => none
  | f+1, st, i =>
    match (st.heap i).right with
    | none => some i
    | some r => findMaxF f st r

/-- Mirror of `func (N *node) findMin() *node`: walk `left` pointers to
exhaustion, with fuel. -/
def findMinF {α : Type} : Nat → RedBlackTree α → Nat → Option Nat
  | 0, _, _ => none
  | f+1, st, i =>
    match (st.heap i).left with
    | none => some i
    | some l => findMinF f st l

/-- Mirror of the loop of `func (T *RedBlackTree) get(E Elem) *node`:
descend comparing with `less` both ways; `some none` means the loop exited
with nil (element absent), `some (some i)` means node `i` compared equal. -/
def getLoop {α : Type} : Nat → RedBlackTree α → α → Option Nat → Option (Option Nat)
  | 0, _, _, _ => none
  | f+1, st, E, r =>
    match r with
    | none => some none
    | some i =>
      if st.less E ((st.heap i).elem) then getLoop f st E ((st.heap i).left)
      else if st.less ((st.heap i).elem) E then getLoop f st E ((st.heap i).right)
      else some (some i)

/-- Mirror of `get`: run the descent from the root. -/
def getF {α : Type} (fuel : Nat) (st : RedBlackTree α) (E : α) : Option (Option Nat) :=
  getLoop fuel st E st.root

/-- Mirror of `func (T *RedBlackTree) replaceNode(oldn, newn *node)`:
re-point `oldn`'s parent (or the tree root) to `newn`, and set `newn`'s
parent back-reference when `newn` is non-nil. -/
def replaceNode {α : Type} (st : RedBlackTree α) (oldn : Nat) (newn : Option Nat) : RedBlackTree α :=
  let st1 :=
    match (st.heap oldn).parent with
    | none => { st with root := newn }
    | some p =>
      if (st.heap p).left = some oldn then setLeft st p newn else setRight st p newn
  match newn with
  | none => st1
  | some nn => setParent st1 nn ((st1.heap oldn).parent)

/-- Mirror of `func (T *RedBlackTree) rotateLeft(n *node)`. The source
dereferences `right` after calling `replaceNode`, so a nil right child
crashes after the replacement. -/
def rotateLeft {α : Type} (st : RedBlackTree α) (n : Nat) : Res (RedBlackTree α) :=
  let right := (st.heap n).right
  let st1 := replaceNode st n right
  match right with
  | none => Res.crash
  | some r =>
    let st2 := setRight st1 n ((st1.heap r).left)
    let st3 :=
      match (st2.heap r).left with
      | none => st2
      | some rl => setParent st2 rl (some n)
    let st4 := setLeft st3 r (some n)
    Res.ok (setParent st4 n (some r))

/-- Mirror of `func (T *RedBlackTree) rotateRight(n *node)`. -/
def rotateRight {α : Type} (st : RedBlackTree α) (n : Nat) : Res (RedBlackTree α) :=
  let left := (st.heap n).left
  let st1 := replaceNode st n left
  match left with
  | none => Res.crash
  | some l =>
    let st2 := setLeft st1 n ((st1.heap l).right)
    let st3 :=
      match (st2.heap l).right with
      | none => st2
      | some lr => setParent st2 lr (some n)
    let st4 := setRight st3 l (some n)
    Res.ok (setParent st4 n (some l))

/-- Mirror of `func (T *RedBlackTree) insertCase5(newn *node)`: recolor the
parent black and the grandparent red, then rotate at the grandparent. Takes
the possibly-nil current pointer (dereferencing nil crashes, as in the
source). -/
def insertCase5 {α : Type} (st : RedBlackTree α) (n : Option Nat) : Res (RedBlackTree α) :=
  match n with
  | none => Res.crash
  | some i =>
    match (st.heap i).parent with
    | none => Res.crash
    | some p =>
      let st1 := setRed st p false
      match grandparent st1 i with
      | none => Res.crash
      | some g =>
        let st2 := setRed st1 g true
        if (st2.heap p).left = some i then rotateRight st2 g else rotateLeft st2 g

/-- Mirror of `func (T *RedBlackTree) insertCase4(newn *node)`: the two
zig-zag rotations, re-pointing the current node into the rotated subtree,
then fall through to case 5. The `&&` short-circuit of the source guards is
preserved. -/
def insertCase4 {α : Type} (st : RedBlackTree α) (n : Nat) : Res (RedBlackTree α) :=
  match (st.heap n).parent with
  | none => Res.crash
  | some p =>
    if (st.heap p).right = some n then
      match grandparent st n with
      | none => Res.crash
      | some g =>
        if (st.heap g).left = some p then
          match rotateLeft st p with
          | Res.ok st1 => insertCase5 st1 ((st1.heap n).left)
          | Res.crash => Res.crash
          | Res.out => Res.out
        else
          if (st.heap p).left = some n then
            if (st.heap g).right = some p then
              match rotateRight st p with
              | Res.ok st1 => insertCase5 st1 ((st1.heap n).right)
              | Res.crash => Res.crash
              | Res.out => Res.out
            else insertCase5 st (some n)
          else insertCase5 st (some n)
    else
      if (st.heap p).left = some n then
        match grandparent st n with
        | none => Res.crash
        | some g =>
          if (st.heap g).right = some p then
            match rotateRight st p with
            | Res.ok st1 => insertCase5 st1 ((st1.heap n).right)
            | Res.crash => Res.crash
            | Res.out => Res.out
          else insertCase5 st (some n)
      else insertCase5 st (some n)

/-- Mirror of `func (T *RedBlackTree) insertCase3(newn *node)`, with the
re-entry into the whole fixup (`T.insertCase1(newn.grandparent())`) passed
as the continuation `k`: if the uncle exists and is red, recolor parent and
uncle black and grandparent red and re-run the fixup at the grandparent;
otherwise continue with case 4. -/
def insertCase3k {α : Type} (k : RedBlackTree α → Option Nat → Res (RedBlackTree α))
    (st : RedBlackTree α) (n : Nat) : Res (RedBlackTree α) :=
  match uncle st n with
  | some u =>
    if (st.heap u).red then
      match (st.heap n).parent with
      | none => Res.crash
      | some p =>
        let st1 := setRed st p false
        match uncle st1 n with
        | none => Res.crash
        | some u1 =>
          let st2 := setRed st1 u1 false
          match grandparent st2 n with
          | none => Res.crash
          | some g =>
            let st3 := setRed st2 g true
            k st3 (grandparent st3 n)
    else insertCase4 st n
  | none => insertCase4 st n

/-- Mirror of `func (T *RedBlackTree) insertCase2(newn *node)`: if the
parent is black the tree is valid and the fixup returns. -/
def insertCase2k {α : Type} (k : RedBlackTree α → Option Nat → Res (RedBlackTree α))
    (st : RedBlackTree α) (n : Nat) : Res (RedBlackTree α) :=
  if isRed st ((st.heap n).parent) = false then Res.ok st
  else insertCase3k k st n

/-- Mirror of `func (T *RedBlackTree) insertCase1(newn *node)`: the root is
forced black, otherwise continue with case 2. The fuel bounds the number of
re-entries of the fixup (the case 3 loop). -/
def insertCase1 {α : Type} : Nat → RedBlackTree α → Option Nat → Res (RedBlackTree α)
  | 0, _, _ => Res.out
  | f+1, st, n =>
    match n with
    | none => Res.crash
    | some i =>
      match (st.heap i).parent with
      | none => Res.ok (setRed st i false)
      | some _ => insertCase2k (insertCase1 f) st i

/-- Mirror of the descent loop of `func (T *RedBlackTree) insert(E Elem)`:
go left or right by `less`; attach the new node at the first nil slot
(result `some n` reports the attach parent `n`), or overwrite the element of
an equal node and stop (result `none`). -/
def insertLoop {α : Type} : Nat → RedBlackTree α → Nat → Nat → Res (RedBlackTree α × Option Nat)
  | 0, _, _, _ => Res.out
  | f+1, st, newn, n =>
    if st.less ((st.heap newn).elem) ((st.heap n).elem) then
      match (st.heap n).left with
      | none => Res.ok (setLeft st n (some newn), some n)
      | some l => insertLoop f st newn l
    else if st.less ((st.heap n).elem) ((st.heap newn).elem) then
      match (st.heap n).right with
      | none => Res.ok (setRight st n (some newn), some n)
      | some r => insertLoop f st newn r
    else
      Res.ok (setElem st n ((st.heap newn).elem), none)

/-- Mirror of the allocation `newn := &node{E, nil, nil, nil, true}` of
`insert`: the fresh node is written at the next free address. -/
def insertAlloc {α : Type} (st : RedBlackTree α) (E : α) : RedBlackTree α :=
  { writeN st st.alloc { elem := E, left := none, right := none, parent := none, red := true }
    with alloc := st.alloc + 1 }

/-- Mirror of `func (T *RedBlackTree) insert(E Elem)`: allocate the new red
node, attach it (or stop on a duplicate), bump the size and run the insert
fixup from the new node. -/
def insertF {α : Type} (fuel : Nat) (st : RedBlackTree α) (E : α) : Res (RedBlackTree α) :=
  let newn := st.alloc
  let st0 := insertAlloc st E
  match st0.root with
  | none =>
    let st1 := { st0 with root := some newn }
    insertCase1 fuel { st1 with size := st1.size + 1 } (some newn)
  | some rt =>
    match insertLoop fuel st0 newn rt with
    | Res.ok (st1, some n) =>
      let st2 := setParent st1 newn (some n)
      insertCase1 fuel { st2 with size := st2.size + 1 } (some newn)
    | Res.ok (st1, none) => Res.ok st1
    | Res.crash => Res.crash
    | Res.out => Res.out

/-- Mirror of `func (T *RedBlackTree) Add(E Elem) error`: run `insert` and
report the duplicate error exactly when the size did not change. The error
is the message string of the source, `none` meaning a nil error. -/
def AddF {α : Type} (fuel : Nat) (st : RedBlackTree α) (E : α) :
    Res (RedBlackTree α × Option String) :=
  match insertF fuel st E with
  | Res.ok st1 =>
    Res.ok (st1, if st.size = st1.size then some "Item already exists in Tree." else none)
  | Res.crash => Res.crash
  | Res.out => Res.out

/-- Mirror of `func (T *RedBlackTree) deleteCase6(dnode *node)`: recolor the
sibling to the parent's color, force the parent black, blacken the far
nephew and rotate at the parent toward the input node's side. The far-nephew
write `dnode.sibling().right.red = false` dereferences the far nephew. -/
def deleteCase6 {α : Type} (st : RedBlackTree α) (d : Nat) : Res (RedBlackTree α) :=
  match sibling st d with
  | none => Res.crash
  | some s =>
    let st1 := setRed st s (isRed st ((st.heap d).parent))
    match (st1.heap d).parent with
    | none => Res.crash
    | some p =>
      let st2 := setRed st1 p false
      if (st2.heap p).left = some d then
        match sibling st2 d with
        | none => Res.crash
        | some s2 =>
          match (st2.heap s2).right with
          | none => Res.crash
          | some sr => rotateLeft (setRed st2 sr false) p
      else
        match sibling st2 d with
        | none => Res.crash
        | some s2 =>
          match (st2.heap s2).left with
          | none => Res.crash
          | some sl => rotateRight (setRed st2 sl false) p

/-- Mirror of `func (T *RedBlackTree) deleteCase5(dnode *node)`: when the
sibling is black with a red near nephew and a black far nephew, recolor and
rotate at the sibling, then always fall through to case 6. The short-circuit
of the source guards (which dereference the sibling) is preserved. -/
def deleteCase5 {α : Type} (st : RedBlackTree α) (d : Nat) : Res (RedBlackTree α) :=
  match (st.heap d).parent with
  | none => Res.crash
  | some p =>
    if (st.heap p).left = some d then
      if isRed st (sibling st d) = false then
        match sibling st d with
        | none => Res.crash
        | some s =>
          if isRed st ((st.heap s).left) = true then
            if isRed st ((st.heap s).right) = false then
              let st1 := setRed st s true
              match (st1.heap s).left with
              | none => Res.crash
              | some sl =>
                match rotateRight (setRed st1 sl false) s with
                | Res.ok st2 => deleteCase6 st2 d
                | Res.crash => Res.crash
                | Res.out => Res.out
            else deleteCase6 st d
          else deleteCase6 st d
      else deleteCase6 st d
    else
      if (st.heap p).right = some d then
        if isRed st (sibling st d) = false then
          match sibling st d with
          | none => Res.crash
          | some s =>
            if isRed st ((st.heap s).right) = true then
              if isRed st ((st.heap s).left) = false then
                let st1 := setRed st s true
                match (st1.heap s).right with
                | none => Res.crash
                | some sr =>
                  match rotateLeft (setRed st1 sr false) s with
                  | Res.ok st2 => deleteCase6 st2 d
                  | Res.crash => Res.crash
                  | Res.out => Res.out
              else deleteCase6 st d
            else deleteCase6 st d
        else deleteCase6 st d
      else deleteCase6 st d

/-- Mirror of `func (T *RedBlackTree) deleteCase4(dnode *node)`: red parent
with black sibling and black nephews is repaired by swapping the colors of
the sibling and the parent; otherwise continue with case 5. -/
def deleteCase4 {α : Type} (st : RedBlackTree α) (d : Nat) : Res (RedBlackTree α) :=
  if isRed st ((st.heap d).parent) then
    if isRed st (sibling st d) = false then
      match sibling st d with
      | none => Res.crash
      | some s =>
        if isRed st ((st.heap s).left) = false then
          if isRed st ((st.heap s).right) = false then
            let st1 := setRed st s true
            match (st1.heap d).parent with
            | none => Res.crash
            | some p => Res.ok (setRed st1 p false)
          else deleteCase5 st d
        else deleteCase5 st d
    else deleteCase5 st d
  else deleteCase5 st d

/-- Mirror of `func (T *RedBlackTree) deleteCase3(dnode *node)`, with the
re-entry `T.deleteCase1(dnode.parent)` passed as the continuation `k`: when
the parent, the sibling and both of the sibling's children are black,
recolor the sibling red and re-run the whole fixup at the parent; otherwise
continue with case 4. -/
def deleteCase3k {α : Type} (k : RedBlackTree α → Option Nat → Res (RedBlackTree α))
    (st : RedBlackTree α) (d : Nat) : Res (RedBlackTree α) :=
  if isRed st ((st.heap d).parent) = false then
    if isRed st (sibling st d) = false then
      match sibling st d with
      | none => Res.crash
      | some s =>
        if isRed st ((st.heap s).left) = false then
          if isRed st ((st.heap s).right) = false then
            k (setRed st s true) ((st.heap d).parent)
          else deleteCase4 st d
        else deleteCase4 st d
    else deleteCase4 st d
  else deleteCase4 st d

/-- Mirror of `func (T *RedBlackTree) deleteCase2(dnode *node)`: a red
sibling is made black by recoloring and a rotation at the parent toward the
input node's side; then always continue with case 3. -/
def deleteCase2k {α : Type} (k : RedBlackTree α → Option Nat → Res (RedBlackTree α))
    (st : RedBlackTree α) (d : Nat) : Res (RedBlackTree α) :=
  if isRed st (sibling st d) then
    match (st.heap d).parent with
    | none => Res.crash
    | some p =>
      let st1 := setRed st p true
      match sibling st1 d with
      | none => Res.crash
      | some s =>
        let st2 := setRed st1 s false
        match (if (st2.heap p).left = some d then rotateLeft st2 p else rotateRight st2 p) with
        | Res.ok st3 => deleteCase3k k st3 d
        | Res.crash => Res.crash
        | Res.out => Res.out
  else deleteCase3k k st d

/-- Mirror of `func (T *RedBlackTree) deleteCase1(dnode *node)`: done at the
root, otherwise continue with case 2. The fuel bounds the number of
re-entries of the fixup (the case 3 loop). -/
def deleteCase1 {α : Type} : Nat → RedBlackTree α → Option Nat → Res (RedBlackTree α)
  | 0, _, _ => Res.out
  | f+1, st, n =>
    match n with
    | none => Res.crash
    | some d =>
      match (st.heap d).parent with
      | none => Res.ok st
      | some _ => deleteCase2k (deleteCase1 f) st d

/-- Mirror of the tail of `func (T *RedBlackTree) delete(E Elem)` from the
statement `var child *node` on: pick the sole child, run the delete fixup
when the node is black (after `dnode.red = isRed(child)`), splice the node
out with `replaceNode`, force a red root black, and decrement the size. -/
def deleteRest {α : Type} (fuel : Nat) (st : RedBlackTree α) (d : Nat) : Res (RedBlackTree α) :=
  let child :=
    match (st.heap d).right with
    | none => (st.heap d).left
    | some _ => (st.heap d).right
  let fixed : Res (RedBlackTree α) :=
    if isRed st (some d) = false then
      deleteCase1 fuel (setRed st d (isRed st child)) (some d)
    else Res.ok st
  match fixed with
  | Res.ok st2 =>
    let st3 := replaceNode st2 d child
    let st4 :=
      if isRed st3 st3.root then
        match st3.root with
        | none => st3
        | some rt => setRed st3 rt false
      else st3
    Res.ok { st4 with size := st4.size - 1 }
  | Res.crash => Res.crash
  | Res.out => Res.out

/-- Mirror of `func (T *RedBlackTree) delete(E Elem)`: locate the node with
`get` and return unchanged when the tree is empty or the element is absent;
reduce a two-children node to its in-order predecessor `findMax(dnode.left)`
by copying the predecessor's element and retargeting the deletion; then run
`deleteRest` (the rest of the source function). -/
def deleteF {α : Type} (fuel : Nat) (st : RedBlackTree α) (E : α) : Res (RedBlackTree α) :=
  match getF fuel st E with
  | none => Res.out
  | some dq =>
    if st.root = none ∨ dq = none then Res.ok st
    else
      match dq with
      | none => Res.ok st
      | some d =>
        if (st.heap d).left ≠ none ∧ (st.heap d).right ≠ none then
          match (st.heap d).left with
          | none => Res.crash
          | some l =>
            match findMaxF fuel st l with
            | none => Res.out
            | some pred => deleteRest fuel (setElem st d ((st.heap pred).elem)) pred
        else deleteRest fuel st d

/-- Mirror of `func (T *RedBlackTree) Remove(E Elem) error`: run `delete`
and report the not-found error exactly when the size did not change. -/
def RemoveF {α : Type} (fuel : Nat) (st : RedBlackTree α) (E : α) :
    Res (RedBlackTree α × Option String) :=
  match deleteF fuel st E with
  | Res.ok st1 =>
    Res.ok (st1, if st.size = st1.size then some "Item not found in Tree." else none)
  | Res.crash => Res.crash
  | Res.out => Res.out

/-- Mirror of `func (T *RedBlackTree) First() Elem`: nil on the empty tree,
otherwise the element of `T.root.findMin()`. The outer `none` is fuel
exhaustion, `some none` the absent answer. -/
def FirstF {α : Type} (fuel : Nat) (st : RedBlackTree α) : Option (Option α) :=
  if EmptyT st then some none
  else
    match st.root with
    | none => some none
    | some rt =>
      match findMinF fuel st rt with
      | none => none
      | some m => some (some ((st.heap m).elem))

/-- Mirror of `func (T *RedBlackTree) Last() Elem`: nil on the empty tree,
otherwise the element of `T.root.findMax()`. -/
def LastF {α : Type} (fuel : Nat) (st : RedBlackTree α) : Option (Option α) :=
  if EmptyT st then some none
  else
    match st.root with
    | none => some none
    | some rt =>
      match findMaxF fuel st rt with
      | none => none
      | some m => some (some ((st.heap m).elem))

/-- Mirror of the loop of `func (T *RedBlackTree) InOrder() chan Elem`: an
explicit stack of node addresses (the source `stack` package pushes and pops
at the front of a linked list), descending left and emitting on pop. A send
on the channel is an append to the output list. -/
def inOrderLoop {α : Type} : Nat → RedBlackTree α → List Nat → Option Nat → List α → Option (List α)
  | 0, _, _, _, _ => none
  | f+1, st, nodes, cur, acc =>
    match cur with
    | some c => inOrderLoop f st (c :: nodes) ((st.heap c).left) acc
    | none =>
      match nodes with
      | n :: rest => inOrderLoop f st rest ((st.heap n).right) (acc ++ [(st.heap n).elem])
      | [] => some acc

/-- Mirror of `InOrder`: run the loop from the root with an empty stack. -/
def InOrderF {α : Type} (fuel : Nat) (st : RedBlackTree α) : Option (List α) :=
  inOrderLoop fuel st [] st.root []

/-- Mirror of the loop of `func (T *RedBlackTree) PreOrder() chan Elem`:
pop, emit, push the right then the left child. -/
def preOrderLoop {α : Type} : Nat → RedBlackTree α → List Nat → List α → Option (List α)
  | 0, _, _, _ => none
  | f+1, st, nodes, acc =>
    match nodes with
    | [] => some acc
    | c :: rest =>
      let acc1 := acc ++ [(st.heap c).elem]
      let s1 := match (st.heap c).right with
                | none => rest
                | some r => r :: rest
      let s2 := match (st.heap c).left with
                | none => s1
                | some l => l :: s1
      preOrderLoop f st s2 acc1

/-- Mirror of `PreOrder`: empty tree yields the empty sequence, otherwise
run the loop from a stack holding the root. -/
def PreOrderF {α : Type} (fuel : Nat) (st : RedBlackTree α) : Option (List α) :=
  match st.root with
  | none => some []
  | some rt => preOrderLoop fuel st [rt] []

/-- Mirror of the loop of `func (T *RedBlackTree) PostOrder() chan Elem`:
peek at the stack top, track the previously visited node, descend first,
come back up through the left child and emit on the way out. Pointer
comparisons of the source become address comparisons. -/
def postOrderLoop {α : Type} :
    Nat → RedBlackTree α → List Nat → Option Nat → List α → Option (List α)
  | 0, _, _, _, _ => none
  | f+1, st, nodes, prev, acc =>
    match nodes with
    | [] => some acc
    | current :: rest =>
      let down : Bool :=
        match prev with
        | none => true
        | some p => decide ((st.heap p).left = some current) ||
                    decide ((st.heap p).right = some current)
      if down then
        match (st.heap current).left with
        | some l => postOrderLoop f st (l :: (current :: rest)) (some current) acc
        | none =>
          match (st.heap current).right with
          | some r => postOrderLoop f st (r :: (current :: rest)) (some current) acc
          | none => postOrderLoop f st (current :: rest) (some current) acc
      else if (st.heap current).left = prev then
        match (st.heap current).right with
        | some r => postOrderLoop f st (r :: (current :: rest)) (some current) acc
        | none => postOrderLoop f st (current :: rest) (some current) acc
      else
        postOrderLoop f st rest (some current) (acc ++ [(st.heap current).elem])

/-- Mirror of `PostOrder`: empty tree yields the empty sequence, otherwise
run the loop from a stack holding the root and no previous node. -/
def PostOrderF {α : Type} (fuel : Nat) (st : RedBlackTree α) : Option (List α) :=
  match st.root with
  | none => some []
  | some rt => postOrderLoop fuel st [rt] none []

/-- Modelled from the spec: the `queue` package used by `LevelOrder` is not
among the given sources; per the spec (§4.5) level-order uses an auxiliary
FIFO queue, `Offer` enqueuing at the back and `Poll` dequeuing at the front.
The queue is embedded as a Lean list with those operations. This is the loop
of `func (T *RedBlackTree) LevelOrder() chan Elem`: poll, emit, offer the
left then the right child. -/
def levelOrderLoop {α : Type} : Nat → RedBlackTree α → List Nat → List α → Option (List α)
  | 0, _, _, _ => none
  | f+1, st, q, acc =>
    match q with
    | [] => some acc
    | c :: rest =>
      let acc1 := acc ++ [(st.heap c).elem]
      let q1 := match (st.heap c).left with
                | none => rest
                | some l => rest ++ [l]
      let q2 := match (st.heap c).right with
                | none => q1
                | some r => q1 ++ [r]
      levelOrderLoop f st q2 acc1

/-- Mirror of `LevelOrder`: empty tree yields the empty sequence, otherwise
run the loop from a queue holding the root. -/
def LevelOrderF {α : Type} (fuel : Nat) (st : RedBlackTree α) : Option (List α) :=
  match st.root with
  | none => some []
  | some rt => levelOrderLoop fuel st [rt] []

/-- Integer comparator used by the concrete scenarios of the spec. -/
def natLess (a b : Nat) : Bool := decide (a < b)

/-- Comparator on pairs ordered by the first component only: two pairs with
equal first components compare equal while carrying distinct data. -/
def pairLess (a b : Nat × Nat) : Bool := decide (a.1 < b.1)

/-- Extract the state of a normal result, with a fallback for the other
outcomes (used only to name concrete states in closed statements). -/
def okOr {α : Type} (r : Res (RedBlackTree α)) (d : RedBlackTree α) : RedBlackTree α :=
  match r with
  | Res.ok st => st
  | _ => d

/-- The tree over pair elements holding the single element `(1, 0)`. -/
def cexT1 : RedBlackTree (Nat × Nat) := okOr (insertF 10 (New pairLess) (1, 0)) (New pairLess)

/-- The state after `Add (1, 99)` on `cexT1`, whose stored pair compares
equal to the present one (same first component). -/
def cexT2 : RedBlackTree (Nat × Nat) :=
  match AddF 10 cexT1 (1, 99) with
  | Res.ok (st, _) => st
  | _ => cexT1


/-- The single-element tree holding 7, used as a witness state. -/
def w3T : RedBlackTree Nat := okOr (insertF 10 (New natLess) 7) (New natLess)

/-- The state after deleting 7 from `w3T`. -/
def w3T2 : RedBlackTree Nat := okOr (deleteF 10 w3T 7) w3T

/-- The tree built by inserting 10, 5, 15 into an empty integer tree. -/
def w4T : RedBlackTree Nat :=
  okOr (insertF 10 (okOr (insertF 10 (okOr (insertF 10 (New natLess) 10)
    (New natLess)) 5) (New natLess)) 15) (New natLess)


/-- A four-node red-black state: black 10 at the root with red children 5
and 15, and a freshly inserted red 3 under 5 (the configuration reached
inside `insert(3)` on the 10/5/15 tree, just before its fixup). -/
def w6T : RedBlackTree Nat :=
  { less := natLess, size := 4, root := some 0
    heap := fun j =>
      if j = 0 then { elem := 10, left := some 1, right := some 2, parent := none, red := false }
      else if j = 1 then { elem := 5, left := some 3, right := none, parent := some 0, red := true }
      else if j = 2 then { elem := 15, left := none, right := none, parent := some 0, red := true }
      else if j = 3 then { elem := 3, left := none, right := none, parent := some 1, red := true }
      else { elem := 0, left := none, right := none, parent := none, red := false }
    alloc := 4 }


/-- The list of node addresses of the subtree at `x`, collected in in-order,
with fuel; `none` when the fuel does not cover the depth. -/
def reachL {α : Type} : Nat → RedBlackTree α → Option Nat → Option (List Nat)
  | _, _, none => some []
  | 0, _, some _ => none
  | f+1, st, some i =>
    match reachL f st ((st.heap i).left), reachL f st ((st.heap i).right) with
    | some L, some R => some (L ++ i :: R)
    | _, _ => none

/-- A three-node tree used as a rotation witness: 10 at the root (node 0)
with left child 5 (node 1) and right child 15 (node 2). -/
def w5T : RedBlackTree Nat :=
  { less := natLess, size := 3, root := some 0
    heap := fun j =>
      if j = 0 then { elem := 10, left := some 1, right := some 2, parent := none, red := false }
      else if j = 1 then { elem := 5, left := none, right := none, parent := some 0, red := true }
      else if j = 2 then { elem := 15, left := none, right := none, parent := some 0, red := true }
      else { elem := 0, left := none, right := none, parent := none, red := false }
    alloc := 3 }

/-- A four-node balanced tree used as a delete-fixup witness: black 10 at
the root (node 0) with black children 5 (node 1) and 15 (node 2), and a red
3 (node 3) as 5's left child. -/
def w7T : RedBlackTree Nat :=
  { less := natLess, size := 4, root := some 0
    heap := fun j =>
      if j = 0 then { elem := 10, left := some 1, right := some 2, parent := none, red := false }
      else if j = 1 then { elem := 5, left := some 3, right := none, parent := some 0, red := false }
      else if j = 2 then { elem := 15, left := none, right := none, parent := some 0, red := false }
      else if j = 3 then { elem := 3, left := none, right := none, parent := some 1, red := true }
      else { elem := 0, left := none, right := none, parent := none, red := false }
    alloc := 4 }

/-- The stored elements read off a list of node addresses (for a reach list,
the in-order sequence of stored elements). -/
def elemsOf {α : Type} (st : RedBlackTree α) (l : List Nat) : List α :=
  l.map (fun i => (st.heap i).elem)

/-- Structural well-formedness of a state: the tree under the root is a
finite tree of pairwise distinct nodes (`reachL` succeeds with a
duplicate-free list), every child's parent back-reference names its owner,
every parent pointer of a reachable node names a node owning it as left or
right child, and the root has no parent. -/
structure Wf {α : Type} (st : RedBlackTree α) (f : Nat) (l : List Nat) : Prop where
  reach : reachL f st st.root = some l
  nodup : l.Nodup
  childParent : ∀ i ∈ l,
    (match (st.heap i).left with
     | none => True
     | some c => (st.heap c).parent = some i) ∧
    (match (st.heap i).right with
     | none => True
     | some c => (st.heap c).parent = some i)
  parentChild : ∀ i ∈ l,
    match (st.heap i).parent with
    | none => True
    | some q => (st.heap q).left = some i ∨ (st.heap q).right = some i
  rootParent : match st.root with
    | none => True
    | some rt => (st.heap rt).parent = none


/-- Black count of every path from a position to a leaf, with fuel: `some h`
when all root-to-leaf paths of the subtree carry exactly `h` black nodes
(a nil position counts as one black leaf), `none` when the counts disagree
or the fuel runs out. This is red-black invariant 5 in computable form. -/
def bhAll {α : Type} : Nat → RedBlackTree α → Option Nat → Option Nat
  | _, _, none => some 1
  | 0, _, some _ => none
  | f+1, st, some i =>
    match bhAll f st ((st.heap i).left), bhAll f st ((st.heap i).right) with
    | some a, some b =>
      if a = b then some (a + (if (st.heap i).red then 0 else 1)) else none
    | _, _ => none

/-- Red-black invariant 4 over a node list: no red node has a red child
(absent children count as black). -/
def NoRedRed {α : Type} (st : RedBlackTree α) (l : List Nat) : Prop :=
  ∀ i ∈ l, (st.heap i).red = true →
    isRed st ((st.heap i).left) = false ∧ isRed st ((st.heap i).right) = false

/-- The sibling of `d` exists and its subtree is internally balanced with
black count at least two. -/
def sibOK {α : Type} (st : RedBlackTree α) (d : Nat) : Prop :=
  ∃ s g h, sibling st d = some s ∧ bhAll g st (some s) = some h ∧ 2 ≤ h

/-- `sibOK` along the whole parent chain of `d` (with fuel `c` bounding the
chain length): the precondition under which the delete fixup never
dereferences an absent sibling. -/
def chainOK {α : Type} : Nat → RedBlackTree α → Nat → Prop
  | 0, _, _ => False
  | c+1, st, d =>
    match (st.heap d).parent with
    | none => True
    | some p => sibOK st d ∧ chainOK c st p

/-!  Basic projection lemmas for the state writes. -/

@[simp] theorem writeN_size {α : Type} (st : RedBlackTree α) (i : Nat) (v : node α) :
    (writeN st i v).size = st.size := rfl

@[simp] theorem writeN_root {α : Type} (st : RedBlackTree α) (i : Nat) (v : node α) :
    (writeN st i v).root = st.root := rfl

@[simp] theorem writeN_less {α : Type} (st : RedBlackTree α) (i : Nat) (v : node α) :
    (writeN st i v).less = st.less := rfl

@[simp] theorem writeN_alloc {α : Type} (st : RedBlackTree α) (i : Nat) (v : node α) :
    (writeN st i v).alloc = st.alloc := rfl

theorem writeN_heap {α : Type} (st : RedBlackTree α) (i : Nat) (v : node α) (j : Nat) :
    (writeN st i v).heap j = if j = i then v else st.heap j := rfl

@[simp] theorem setLeft_size {α : Type} (st : RedBlackTree α) (i : Nat) (v : Option Nat) :
    (setLeft st i v).size = st.size := rfl
@[simp] theorem setRight_size {α : Type} (st : RedBlackTree α) (i : Nat) (v : Option Nat) :
    (setRight st i v).size = st.size := rfl
@[simp] theorem setParent_size {α : Type} (st : RedBlackTree α) (i : Nat) (v : Option Nat) :
    (setParent st i v).size = st.size := rfl
@[simp] theorem setRed_size {α : Type} (st : RedBlackTree α) (i : Nat) (v : Bool) :
    (setRed st i v).size = st.size := rfl
@[simp] theorem setElem_size {α : Type} (st : RedBlackTree α) (i : Nat) (v : α) :
    (setElem st i v).size = st.size := rfl

@[simp] theorem setLeft_root {α : Type} (st : RedBlackTree α) (i : Nat) (v : Option Nat) :
    (setLeft st i v).root = st.root := rfl
@[simp] theorem setRight_root {α : Type} (st : RedBlackTree α) (i : Nat) (v : Option Nat) :
    (setRight st i v).root = st.root := rfl
@[simp] theorem setParent_root {α : Type} (st : RedBlackTree α) (i : Nat) (v : Option Nat) :
    (setParent st i v).root = st.root := rfl
@[simp] theorem setRed_root {α : Type} (st : RedBlackTree α) (i : Nat) (v : Bool) :
    (setRed st i v).root = st.root := rfl
@[simp] theorem setElem_root {α : Type} (st : RedBlackTree α) (i : Nat) (v : α) :
    (setElem st i v).root = st.root := rfl

@[simp] theorem setLeft_less {α : Type} (st : RedBlackTree α) (i : Nat) (v : Option Nat) :
    (setLeft st i v).less = st.less := rfl
@[simp] theorem setRight_less {α : Type} (st : RedBlackTree α) (i : Nat) (v : Option Nat) :
    (setRight st i v).less = st.less := rfl
@[simp] theorem setParent_less {α : Type} (st : RedBlackTree α) (i : Nat) (v : Option Nat) :
    (setParent st i v).less = st.less := rfl
@[simp] theorem setRed_less {α : Type} (st : RedBlackTree α) (i : Nat) (v : Bool) :
    (setRed st i v).less = st.less := rfl
@[simp] theorem setElem_less {α : Type} (st : RedBlackTree α) (i : Nat) (v : α) :
    (setElem st i v).less = st.less := rfl

@[simp] theorem setLeft_alloc {α : Type} (st : RedBlackTree α) (i : Nat) (v : Option Nat) :
    (setLeft st i v).alloc = st.alloc := rfl
@[simp] theorem setRight_alloc {α : Type} (st : RedBlackTree α) (i : Nat) (v : Option Nat) :
    (setRight st i v).alloc = st.alloc := rfl
@[simp] theorem setParent_alloc {α : Type} (st : RedBlackTree α) (i : Nat) (v : Option Nat) :
    (setParent st i v).alloc = st.alloc := rfl
@[simp] theorem setRed_alloc {α : Type} (st : RedBlackTree α) (i : Nat) (v : Bool) :
    (setRed st i v).alloc = st.alloc := rfl
@[simp] theorem setElem_alloc {α : Type} (st : RedBlackTree α) (i : Nat) (v : α) :
    (setElem st i v).alloc = st.alloc := rfl

theorem setLeft_heap {α : Type} (st : RedBlackTree α) (i : Nat) (v : Option Nat) (j : Nat) :
    (setLeft st i v).heap j = if j = i then { st.heap i with left := v } else st.heap j := rfl
theorem setRight_heap {α : Type} (st : RedBlackTree α) (i : Nat) (v : Option Nat) (j : Nat) :
    (setRight st i v).heap j = if j = i then { st.heap i with right := v } else st.heap j := rfl
theorem setParent_heap {α : Type} (st : RedBlackTree α) (i : Nat) (v : Option Nat) (j : Nat) :
    (setParent st i v).heap j = if j = i then { st.heap i with parent := v } else st.heap j := rfl
theorem setRed_heap {α : Type} (st : RedBlackTree α) (i : Nat) (v : Bool) (j : Nat) :
    (setRed st i v).heap j = if j = i then { st.heap i with red := v } else st.heap j := rfl
theorem setElem_heap {α : Type} (st : RedBlackTree α) (i : Nat) (v : α) (j : Nat) :
    (setElem st i v).heap j = if j = i then { st.heap i with elem := v } else st.heap j := rfl

@[simp] theorem insertAlloc_root {α : Type} (st : RedBlackTree α) (E : α) :
    (insertAlloc st E).root = st.root := rfl
@[simp] theorem insertAlloc_size {α : Type} (st : RedBlackTree α) (E : α) :
    (insertAlloc st E).size = st.size := rfl
@[simp] theorem insertAlloc_less {α : Type} (st : RedBlackTree α) (E : α) :
    (insertAlloc st E).less = st.less := rfl
@[simp] theorem insertAlloc_alloc {α : Type} (st : RedBlackTree α) (E : α) :
    (insertAlloc st E).alloc = st.alloc + 1 := rfl
theorem insertAlloc_heap {α : Type} (st : RedBlackTree α) (E : α) (j : Nat) :
    (insertAlloc st E).heap j =
      if j = st.alloc then { elem := E, left := none, right := none, parent := none, red := true }
      else st.heap j := rfl

/-!  The state size is preserved by every pointer operation, and in
particular by the whole insert and delete fixups. -/

@[simp] theorem replaceNode_size {α : Type} (st : RedBlackTree α) (oldn : Nat) (newn : Option Nat) :
    (replaceNode st oldn newn).size = st.size := by
  unfold replaceNode
  cases newn <;> cases (st.heap oldn).parent <;> simp <;> split <;> simp

theorem rotateLeft_size {α : Type} (st : RedBlackTree α) (n : Nat) (st' : RedBlackTree α)
    (h : rotateLeft st n = Res.ok st') : st'.size = st.size := by
  unfold rotateLeft at h
  cases hr : (st.heap n).right with
  | none => simp [hr] at h
  | some r =>
    simp only [hr] at h
    split at h <;> (cases h; simp)

theorem rotateRight_size {α : Type} (st : RedBlackTree α) (n : Nat) (st' : RedBlackTree α)
    (h : rotateRight st n = Res.ok st') : st'.size = st.size := by
  unfold rotateRight at h
  cases hl : (st.heap n).left with
  | none => simp [hl] at h
  | some l =>
    simp only [hl] at h
    split at h <;> (cases h; simp)

theorem insertCase5_size {α : Type} (st : RedBlackTree α) (n : Option Nat) (st' : RedBlackTree α)
    (h : insertCase5 st n = Res.ok st') : st'.size = st.size := by
  unfold insertCase5 at h
  cases n with
  | none => cases h
  | some i =>
    cases hp : (st.heap i).parent with
    | none => simp [hp] at h
    | some p =>
      simp only [hp] at h
      cases hg : grandparent (setRed st p false) i with
      | none => simp [hg] at h
      | some g =>
        simp only [hg] at h
        split at h
        · have := rotateRight_size _ _ _ h; simpa using this
        · have := rotateLeft_size _ _ _ h; simpa using this

theorem insertCase4_size {α : Type} (st : RedBlackTree α) (n : Nat) (st' : RedBlackTree α)
    (h : insertCase4 st n = Res.ok st') : st'.size = st.size := by
  unfold insertCase4 at h
  cases hp : (st.heap n).parent with
  | none => simp [hp] at h
  | some p =>
    simp only [hp] at h
    split at h
    · cases hg : grandparent st n with
      | none => simp [hg] at h
      | some g =>
        simp only [hg] at h
        split at h
        · cases hrot : rotateLeft st p with
          | ok st1 =>
            simp only [hrot] at h
            have h1 := insertCase5_size _ _ _ h
            have h2 := rotateLeft_size _ _ _ hrot
            omega
          | crash => simp [hrot] at h
          | out => simp [hrot] at h
        · split at h
          · split at h
            · cases hrot : rotateRight st p with
              | ok st1 =>
                simp only [hrot] at h
                have h1 := insertCase5_size _ _ _ h
                have h2 := rotateRight_size _ _ _ hrot
                omega
              | crash => simp [hrot] at h
              | out => simp [hrot] at h
            · exact insertCase5_size _ _ _ h
          · exact insertCase5_size _ _ _ h
    · split at h
      · cases hg : grandparent st n with
        | none => simp [hg] at h
        | some g =>
          simp only [hg] at h
          split at h
          · cases hrot : rotateRight st p with
            | ok st1 =>
              simp only [hrot] at h
              have h1 := insertCase5_size _ _ _ h
              have h2 := rotateRight_size _ _ _ hrot
              omega
            | crash => simp [hrot] at h
            | out => simp [hrot] at h
          · exact insertCase5_size _ _ _ h
      · exact insertCase5_size _ _ _ h

theorem insertCase3k_size {α : Type} (k : RedBlackTree α → Option Nat → Res (RedBlackTree α))
    (hk : ∀ s m s', k s m = Res.ok s' → s'.size = s.size)
    (st : RedBlackTree α) (n : Nat) (st' : RedBlackTree α)
    (h : insertCase3k k st n = Res.ok st') : st'.size = st.size := by
  unfold insertCase3k at h
  cases hu : uncle st n with
  | none => simp only [hu] at h; exact insertCase4_size _ _ _ h
  | some u =>
    simp only [hu] at h
    split at h
    · cases hp : (st.heap n).parent with
      | none => simp [hp] at h
      | some p =>
        simp only [hp] at h
        cases hu1 : uncle (setRed st p false) n with
        | none => simp [hu1] at h
        | some u1 =>
          simp only [hu1] at h
          cases hg : grandparent (setRed (setRed st p false) u1 false) n with
          | none => simp [hg] at h
          | some g =>
            simp only [hg] at h
            have := hk _ _ _ h
            simpa using this
    · exact insertCase4_size _ _ _ h

theorem insertCase2k_size {α : Type} (k : RedBlackTree α → Option Nat → Res (RedBlackTree α))
    (hk : ∀ s m s', k s m = Res.ok s' → s'.size = s.size)
    (st : RedBlackTree α) (n : Nat) (st' : RedBlackTree α)
    (h : insertCase2k k st n = Res.ok st') : st'.size = st.size := by
  unfold insertCase2k at h
  split at h
  · cases h; rfl
  · exact insertCase3k_size k hk _ _ _ h

theorem insertCase1_size {α : Type} :
    ∀ (f : Nat) (st : RedBlackTree α) (n : Option Nat) (st' : RedBlackTree α),
      insertCase1 f st n = Res.ok st' → st'.size = st.size := by
  intro f
  induction f with
  | zero => intro st n st' h; cases h
  | succ f ih =>
    intro st n st' h
    unfold insertCase1 at h
    cases n with
    | none => cases h
    | some i =>
      cases hp : (st.heap i).parent with
      | none => simp only [hp] at h; cases h; simp
      | some p =>
        simp only [hp] at h
        exact insertCase2k_size _ (fun s m s' hh => ih s m s' hh) _ _ _ h

/-- The insert-descent returning the duplicate signal leaves everything
unchanged but the element of the node that compared equal. -/
theorem insertLoop_dup {α : Type} :
    ∀ (f : Nat) (st : RedBlackTree α) (newn n : Nat) (st1 : RedBlackTree α),
      insertLoop f st newn n = Res.ok (st1, none) →
      ∃ d, st1 = setElem st d ((st.heap newn).elem) := by
  intro f
  induction f with
  | zero => intro st newn n st1 h; cases h
  | succ f ih =>
    intro st newn n st1 h
    unfold insertLoop at h
    split at h
    · cases hl : (st.heap n).left with
      | none => simp [hl] at h
      | some l => simp only [hl] at h; exact ih st newn l st1 h
    · split at h
      · cases hr : (st.heap n).right with
        | none => simp [hr] at h
        | some r => simp only [hr] at h; exact ih st newn r st1 h
      · rw [Res.ok.injEq, Prod.mk.injEq] at h
        exact ⟨n, h.1.symm⟩

theorem insertLoop_size {α : Type} :
    ∀ (f : Nat) (st : RedBlackTree α) (newn n : Nat) (st1 : RedBlackTree α) (r : Option Nat),
      insertLoop f st newn n = Res.ok (st1, r) → st1.size = st.size := by
  intro f
  induction f with
  | zero => intro st newn n st1 r h; cases h
  | succ f ih =>
    intro st newn n st1 r h
    unfold insertLoop at h
    split at h
    · cases hl : (st.heap n).left with
      | none => simp only [hl] at h; rw [Res.ok.injEq, Prod.mk.injEq] at h; rw [← h.1]; simp
      | some l => simp only [hl] at h; exact ih st newn l st1 r h
    · split at h
      · cases hr : (st.heap n).right with
        | none => simp only [hr] at h; rw [Res.ok.injEq, Prod.mk.injEq] at h; rw [← h.1]; simp
        | some rr => simp only [hr] at h; exact ih st newn rr st1 r h
      · rw [Res.ok.injEq, Prod.mk.injEq] at h; rw [← h.1]; simp

/-!  Claim theorems. -/

/-- C8: after inserting 10, then 5, then 15 into an empty tree with integer
less-than, the four traversals produce exactly: in-order `[5, 10, 15]`,
pre-order `[10, 5, 15]`, post-order `[5, 15, 10]`, level-order
`[10, 5, 15]`. -/
theorem c8_scenarioA_traversals :
    ∃ t1 t2 t3 : RedBlackTree Nat,
      insertF 10 (New natLess) 10 = Res.ok t1 ∧
      insertF 10 t1 5 = Res.ok t2 ∧
      insertF 10 t2 15 = Res.ok t3 ∧
      InOrderF 20 t3 = some [5, 10, 15] ∧
      PreOrderF 20 t3 = some [10, 5, 15] ∧
      PostOrderF 20 t3 = some [5, 15, 10] ∧
      LevelOrderF 20 t3 = some [10, 5, 15] := by
  refine ⟨_, _, _, rfl, rfl, rfl, ?_, ?_, ?_, ?_⟩ <;> decide

/-- C2 counterexample: on a tree storing the pair `(1, 0)` under a
comparator that orders pairs by their first component, `Add (1, 99)` does
return the duplicate error and leaves the count and shape unchanged, but the
stored element is replaced by the new element `(1, 99)`: the claim that the
previously stored element is left unmodified is false. -/
theorem c2_counterexample :
    ∃ t1 : RedBlackTree (Nat × Nat),
      insertF 10 (New pairLess) (1, 0) = Res.ok t1 ∧
      (∃ rt, t1.root = some rt ∧ (t1.heap rt).elem = (1, 0)) ∧
      ∃ t2 err, AddF 10 t1 (1, 99) = Res.ok (t2, err) ∧ err ≠ none ∧
        t2.size = t1.size ∧ t2.root = t1.root ∧
        ∃ rt, t2.root = some rt ∧ (t2.heap rt).elem = (1, 99) ∧ ¬ (t2.heap rt).elem = (1, 0) := by
  refine ⟨_, rfl, ?_, _, _, rfl, ?_, ?_, ?_, ?_⟩ <;> decide

/-- C2 (amended): whenever `Add` returns the duplicate error, the count, the
root, the comparator and the entire node structure (children, parent, color
of every previously allocated node) are unchanged, but the element of the
node that compared equal is overwritten with the argument `E`. -/
theorem c2_add_duplicate_overwrites {α : Type} (f : Nat) (st : RedBlackTree α) (E : α)
    (st1 : RedBlackTree α) (msg : String)
    (h : AddF f st E = Res.ok (st1, some msg)) :
    st1.size = st.size ∧ st1.root = st.root ∧ st1.less = st.less ∧
    ∃ d, (st1.heap d).elem = E ∧
      ∀ i, i ≠ st.alloc →
        (st1.heap i).left = (st.heap i).left ∧
        (st1.heap i).right = (st.heap i).right ∧
        (st1.heap i).parent = (st.heap i).parent ∧
        (st1.heap i).red = (st.heap i).red ∧
        (i ≠ d → (st1.heap i).elem = (st.heap i).elem) := by
  unfold AddF at h
  cases hins : insertF f st E with
  | crash => simp [hins] at h
  | out => simp [hins] at h
  | ok st2 =>
    simp only [hins] at h
    have hsize : st.size = st2.size := by
      by_contra hne
      simp [hne] at h
    rw [if_pos hsize, Res.ok.injEq, Prod.mk.injEq] at h
    obtain ⟨hst, -⟩ := h
    rw [← hst]
    clear hst
    unfold insertF at hins
    simp only [insertAlloc_root] at hins
    cases hrt : st.root with
    | none =>
      simp only [hrt] at hins
      have h2 : st2.size = st.size + 1 := insertCase1_size _ _ _ _ hins
      omega
    | some rt =>
      simp only [hrt] at hins
      cases hloop : insertLoop f (insertAlloc st E) st.alloc rt with
      | crash => rw [hloop] at hins; cases hins
      | out => rw [hloop] at hins; cases hins
      | ok pr =>
        rw [hloop] at hins
        obtain ⟨stx, att⟩ := pr
        cases att with
        | some n =>
          simp only at hins
          have h2 : st2.size = stx.size + 1 := insertCase1_size _ _ _ _ hins
          have h3 : stx.size = (insertAlloc st E).size := insertLoop_size _ _ _ _ _ _ hloop
          rw [insertAlloc_size] at h3
          omega
        | none =>
          simp only at hins
          cases hins
          obtain ⟨d, hd⟩ := insertLoop_dup f (insertAlloc st E) st.alloc rt _ hloop
          subst hd
          refine ⟨by simp, by simp [hrt], by simp, d, ?_, ?_⟩
          · have he : ((insertAlloc st E).heap st.alloc).elem = E := by
              simp [insertAlloc_heap]
            simp [setElem_heap, he]
          · intro i hi
            have h0 : (insertAlloc st E).heap i = st.heap i := by
              simp [insertAlloc_heap, hi]
            by_cases hid : i = d
            · subst hid
              simp [setElem_heap, h0]
            · simp [setElem_heap, hid, h0]

/-- C2 witness: the amended theorem applied to the concrete pair tree. -/
theorem c2_add_duplicate_overwrites_witness :
    cexT2.size = cexT1.size ∧ cexT2.root = cexT1.root ∧ cexT2.less = cexT1.less ∧
    ∃ d, (cexT2.heap d).elem = (1, 99) ∧
      ∀ i, i ≠ cexT1.alloc →
        (cexT2.heap i).left = (cexT1.heap i).left ∧
        (cexT2.heap i).right = (cexT1.heap i).right ∧
        (cexT2.heap i).parent = (cexT1.heap i).parent ∧
        (cexT2.heap i).red = (cexT1.heap i).red ∧
        (i ≠ d → (cexT2.heap i).elem = (cexT1.heap i).elem) :=
  c2_add_duplicate_overwrites 10 cexT1 (1, 99) cexT2 "Item already exists in Tree." rfl

theorem deleteCase6_size {α : Type} (st : RedBlackTree α) (d : Nat) (st' : RedBlackTree α)
    (h : deleteCase6 st d = Res.ok st') : st'.size = st.size := by
  unfold deleteCase6 at h
  cases hs : sibling st d with
  | none => simp [hs] at h
  | some s =>
    simp only [hs] at h
    cases hp : ((setRed st s (isRed st ((st.heap d).parent))).heap d).parent with
    | none => simp [hp] at h
    | some p =>
      simp only [hp] at h
      split at h
      · cases hs2 : sibling (setRed (setRed st s (isRed st ((st.heap d).parent))) p false) d with
        | none => simp [hs2] at h
        | some s2 =>
          simp only [hs2] at h
          cases hsr : ((setRed (setRed st s (isRed st ((st.heap d).parent))) p false).heap s2).right with
          | none => simp [hsr] at h
          | some sr =>
            simp only [hsr] at h
            have := rotateLeft_size _ _ _ h
            simpa using this
      · cases hs2 : sibling (setRed (setRed st s (isRed st ((st.heap d).parent))) p false) d with
        | none => simp [hs2] at h
        | some s2 =>
          simp only [hs2] at h
          cases hsl : ((setRed (setRed st s (isRed st ((st.heap d).parent))) p false).heap s2).left with
          | none => simp [hsl] at h
          | some sl =>
            simp only [hsl] at h
            have := rotateRight_size _ _ _ h
            simpa using this

theorem deleteCase5_size {α : Type} (st : RedBlackTree α) (d : Nat) (st' : RedBlackTree α)
    (h : deleteCase5 st d = Res.ok st') : st'.size = st.size := by
  unfold deleteCase5 at h
  cases hp : (st.heap d).parent with
  | none => simp [hp] at h
  | some p =>
    simp only [hp] at h
    split at h
    · split at h
      · cases hs : sibling st d with
        | none => simp [hs] at h
        | some s =>
          simp only [hs] at h
          split at h
          · split at h
            · cases hsl : ((setRed st s true).heap s).left with
              | none => simp [hsl] at h
              | some sl =>
                simp only [hsl] at h
                cases hrot : rotateRight (setRed (setRed st s true) sl false) s with
                | ok st2 =>
                  simp only [hrot] at h
                  have h1 := deleteCase6_size _ _ _ h
                  have h2 := rotateRight_size _ _ _ hrot
                  simp at h2
                  omega
                | crash => simp [hrot] at h
                | out => simp [hrot] at h
            · exact deleteCase6_size _ _ _ h
          · exact deleteCase6_size _ _ _ h
      · exact deleteCase6_size _ _ _ h
    · split at h
      · split at h
        · cases hs : sibling st d with
          | none => simp [hs] at h
          | some s =>
            simp only [hs] at h
            split at h
            · split at h
              · cases hsr : ((setRed st s true).heap s).right with
                | none => simp [hsr] at h
                | some sr =>
                  simp only [hsr] at h
                  cases hrot : rotateLeft (setRed (setRed st s true) sr false) s with
                  | ok st2 =>
                    simp only [hrot] at h
                    have h1 := deleteCase6_size _ _ _ h
                    have h2 := rotateLeft_size _ _ _ hrot
                    simp at h2
                    omega
                  | crash => simp [hrot] at h
                  | out => simp [hrot] at h
              · exact deleteCase6_size _ _ _ h
            · exact deleteCase6_size _ _ _ h
        · exact deleteCase6_size _ _ _ h
      · exact deleteCase6_size _ _ _ h

theorem deleteCase4_size {α : Type} (st : RedBlackTree α) (d : Nat) (st' : RedBlackTree α)
    (h : deleteCase4 st d = Res.ok st') : st'.size = st.size := by
  unfold deleteCase4 at h
  split at h
  · split at h
    · cases hs : sibling st d with
      | none => simp [hs] at h
      | some s =>
        simp only [hs] at h
        split at h
        · split at h
          · cases hp : ((setRed st s true).heap d).parent with
            | none => simp [hp] at h
            | some p =>
              simp only [hp] at h
              cases h
              simp
          · exact deleteCase5_size _ _ _ h
        · exact deleteCase5_size _ _ _ h
    · exact deleteCase5_size _ _ _ h
  · exact deleteCase5_size _ _ _ h

theorem deleteCase3k_size {α : Type} (k : RedBlackTree α → Option Nat → Res (RedBlackTree α))
    (hk : ∀ s m s', k s m = Res.ok s' → s'.size = s.size)
    (st : RedBlackTree α) (d : Nat) (st' : RedBlackTree α)
    (h : deleteCase3k k st d = Res.ok st') : st'.size = st.size := by
  unfold deleteCase3k at h
  split at h
  · split at h
    · cases hs : sibling st d with
      | none => simp [hs] at h
      | some s =>
        simp only [hs] at h
        split at h
        · split at h
          · have := hk _ _ _ h
            simpa using this
          · exact deleteCase4_size _ _ _ h
        · exact deleteCase4_size _ _ _ h
    · exact deleteCase4_size _ _ _ h
  · exact deleteCase4_size _ _ _ h

theorem deleteCase2k_size {α : Type} (k : RedBlackTree α → Option Nat → Res (RedBlackTree α))
    (hk : ∀ s m s', k s m = Res.ok s' → s'.size = s.size)
    (st : RedBlackTree α) (d : Nat) (st' : RedBlackTree α)
    (h : deleteCase2k k st d = Res.ok st') : st'.size = st.size := by
  unfold deleteCase2k at h
  split at h
  · cases hp : (st.heap d).parent with
    | none => simp [hp] at h
    | some p =>
      simp only [hp] at h
      cases hs : sibling (setRed st p true) d with
      | none => simp [hs] at h
      | some s =>
        simp only [hs] at h
        by_cases hdir : ((setRed (setRed st p true) s false).heap p).left = some d
        · rw [if_pos hdir] at h
          cases hrot : rotateLeft (setRed (setRed st p true) s false) p with
          | ok st3 =>
            rw [hrot] at h
            have h1 := deleteCase3k_size k hk _ _ _ h
            have h2 := rotateLeft_size _ _ _ hrot
            simp at h2
            omega
          | crash => rw [hrot] at h; cases h
          | out => rw [hrot] at h; cases h
        · rw [if_neg hdir] at h
          cases hrot : rotateRight (setRed (setRed st p true) s false) p with
          | ok st3 =>
            rw [hrot] at h
            have h1 := deleteCase3k_size k hk _ _ _ h
            have h2 := rotateRight_size _ _ _ hrot
            simp at h2
            omega
          | crash => rw [hrot] at h; cases h
          | out => rw [hrot] at h; cases h
  · exact deleteCase3k_size k hk _ _ _ h

theorem deleteCase1_size {α : Type} :
    ∀ (f : Nat) (st : RedBlackTree α) (n : Option Nat) (st' : RedBlackTree α),
      deleteCase1 f st n = Res.ok st' → st'.size = st.size := by
  intro f
  induction f with
  | zero => intro st n st' h; cases h
  | succ f ih =>
    intro st n st' h
    unfold deleteCase1 at h
    cases n with
    | none => cases h
    | some d =>
      cases hp : (st.heap d).parent with
      | none => simp only [hp] at h; cases h; rfl
      | some p =>
        simp only [hp] at h
        exact deleteCase2k_size _ (fun s m s' hh => ih s m s' hh) _ _ _ h

theorem deleteRest_size {α : Type} (f : Nat) (st : RedBlackTree α) (d : Nat)
    (st' : RedBlackTree α) (h : deleteRest f st d = Res.ok st') : st'.size = st.size - 1 := by
  unfold deleteRest at h
  generalize hc : (match (st.heap d).right with
    | none => (st.heap d).left
    | some _ => (st.heap d).right) = child at h
  simp only [] at h
  by_cases hb : isRed st (some d) = false
  · rw [if_pos hb] at h
    cases hfix : deleteCase1 f (setRed st d (isRed st child)) (some d) with
    | ok st2 =>
      rw [hfix] at h
      have h1 : st2.size = st.size := by
        have := deleteCase1_size _ _ _ _ hfix
        simpa using this
      simp only [Res.ok.injEq] at h
      rw [← h]
      split
      · split <;> simp [h1]
      · simp [h1]
    | crash => rw [hfix] at h; cases h
    | out => rw [hfix] at h; cases h
  · rw [if_neg hb] at h
    simp only [Res.ok.injEq] at h
    rw [← h]
    split
    · split <;> simp
    · simp

/-- C3: when `get` reports the element absent (in particular on the empty
tree), `Remove` returns the not-found error and the state — count, shape and
all — is entirely unchanged; when `get` finds a node comparing equal and the
deletion completes, `Remove` returns no error and the count drops by exactly
one. -/
theorem c3_remove_absent_and_found {α : Type} (f : Nat) (st : RedBlackTree α) (E : α) :
    (getF f st E = some none →
      RemoveF f st E = Res.ok (st, some "Item not found in Tree.")) ∧
    (∀ d st', getF f st E = some (some d) → deleteF f st E = Res.ok st' →
      st'.size = st.size - 1 ∧ RemoveF f st E = Res.ok (st', none)) := by
  constructor
  · intro hget
    unfold RemoveF deleteF
    rw [hget]
    simp
  · intro d st' hget hdel
    have hroot : ¬ st.root = none := by
      intro hr
      unfold getF at hget
      rw [hr] at hget
      cases f with
      | zero => cases hget
      | succ f => cases hget
    have hsz : st'.size = st.size - 1 := by
      unfold deleteF at hdel
      rw [hget] at hdel
      simp only [] at hdel
      rw [if_neg (by simp [hroot])] at hdel
      split at hdel
      · cases hl : (st.heap d).left with
        | none => rw [hl] at hdel; cases hdel
        | some l =>
          rw [hl] at hdel
          simp only [] at hdel
          cases hm : findMaxF f st l with
          | none => rw [hm] at hdel; cases hdel
          | some pred =>
            rw [hm] at hdel
            have := deleteRest_size _ _ _ _ hdel
            simpa using this
      · exact deleteRest_size _ _ _ _ hdel
    refine ⟨hsz, ?_⟩
    unfold RemoveF
    rw [hdel]
    have : ¬ st.size = st'.size := by omega
    simp [this]

/-- C3 witness: removing 5 from the empty integer tree returns the not-found
error and leaves the state unchanged; removing 7 from the one-element tree
succeeds and drops the count from 1 to 0. -/
theorem c3_remove_absent_and_found_witness :
    RemoveF 10 (New natLess) 5 = Res.ok (New natLess, some "Item not found in Tree.") ∧
    (w3T2.size = w3T.size - 1 ∧ RemoveF 10 w3T 7 = Res.ok (w3T2, none)) :=
  ⟨(c3_remove_absent_and_found 10 (New natLess) 5).1 (by decide),
   (c3_remove_absent_and_found 10 w3T 7).2 0 w3T2 (by decide) rfl⟩

/-- The node returned by `findMax` has no right child. -/
theorem findMaxF_right_none {α : Type} :
    ∀ (g : Nat) (st : RedBlackTree α) (i m : Nat),
      findMaxF g st i = some m → (st.heap m).right = none := by
  intro g
  induction g with
  | zero => intro st i m h; cases h
  | succ g ih =>
    intro st i m h
    unfold findMaxF at h
    cases hr : (st.heap i).right with
    | none => rw [hr] at h; cases h; exact hr
    | some r => rw [hr] at h; exact ih st r m h

/-- C4: `findMax` always lands on a node with no right child; when the node
`d` found for deletion has two children, `delete` copies the element of
`pred = findMax(d.left)` into `d` and retargets the deletion onto `pred`,
which at that moment has at most one child; when `d` has at most one child
the deletion proceeds on `d` itself; so the node handed to the splice always
has at most one child. -/
theorem c4_delete_reduces_to_one_child {α : Type} (f : Nat) (st : RedBlackTree α) (E : α) :
    (∀ (g i m : Nat), findMaxF g st i = some m → (st.heap m).right = none) ∧
    (∀ d, getF f st E = some (some d) → ¬ st.root = none →
      ((st.heap d).left ≠ none ∧ (st.heap d).right ≠ none →
        ∀ l, (st.heap d).left = some l →
          ∀ pred, findMaxF f st l = some pred →
            deleteF f st E = deleteRest f (setElem st d ((st.heap pred).elem)) pred ∧
            ((setElem st d ((st.heap pred).elem)).heap pred).right = none) ∧
      (¬ ((st.heap d).left ≠ none ∧ (st.heap d).right ≠ none) →
        deleteF f st E = deleteRest f st d ∧
        ((st.heap d).left = none ∨ (st.heap d).right = none))) := by
  constructor
  · exact fun g i m h => findMaxF_right_none g st i m h
  · intro d hget hroot
    constructor
    · intro h2 l hl pred hm
      have hpr : (st.heap pred).right = none := findMaxF_right_none f st l pred hm
      constructor
      · unfold deleteF
        rw [hget]
        simp only []
        rw [if_neg (by simp [hroot]), if_pos h2, hl]
        simp only []
        rw [hm]
      · rw [setElem_heap]
        split
        · rename_i hpd
          rw [hpd] at hpr
          simpa using hpr
        · exact hpr
    · intro h2
      constructor
      · unfold deleteF
        rw [hget]
        simp only []
        rw [if_neg (by simp [hroot]), if_neg h2]
      · by_cases hl : (st.heap d).left = none
        · exact Or.inl hl
        · right
          by_contra hr
          exact h2 ⟨hl, hr⟩

/-- C4 witness: in the tree built from 10, 5, 15, deleting the two-children
root 10 retargets onto the predecessor node holding 5, which has no right
child. -/
theorem c4_delete_reduces_to_one_child_witness :
    (w4T.heap 1).right = none ∧
    deleteF 10 w4T 10 = deleteRest 10 (setElem w4T 0 ((w4T.heap 1).elem)) 1 ∧
    ((setElem w4T 0 ((w4T.heap 1).elem)).heap 1).right = none := by
  refine ⟨(c4_delete_reduces_to_one_child 10 w4T 10).1 10 1 1 (by decide), ?_⟩
  have h := ((c4_delete_reduces_to_one_child 10 w4T 10).2 0 (by decide) (by decide)).1
    (by decide) 1 (by decide) 1 (by decide)
  exact h

/-!  Recoloring a node does not move any pointer. -/

@[simp] theorem setRed_heap_parent {α : Type} (st : RedBlackTree α) (x : Nat) (b : Bool) (j : Nat) :
    ((setRed st x b).heap j).parent = (st.heap j).parent := by
  rw [setRed_heap]
  split
  · rename_i h; subst h; rfl
  · rfl

@[simp] theorem setRed_heap_left {α : Type} (st : RedBlackTree α) (x : Nat) (b : Bool) (j : Nat) :
    ((setRed st x b).heap j).left = (st.heap j).left := by
  rw [setRed_heap]
  split
  · rename_i h; subst h; rfl
  · rfl

@[simp] theorem setRed_heap_right {α : Type} (st : RedBlackTree α) (x : Nat) (b : Bool) (j : Nat) :
    ((setRed st x b).heap j).right = (st.heap j).right := by
  rw [setRed_heap]
  split
  · rename_i h; subst h; rfl
  · rfl

@[simp] theorem setRed_heap_elem {α : Type} (st : RedBlackTree α) (x : Nat) (b : Bool) (j : Nat) :
    ((setRed st x b).heap j).elem = (st.heap j).elem := by
  rw [setRed_heap]
  split
  · rename_i h; subst h; rfl
  · rfl

theorem sibling_setRed {α : Type} (st : RedBlackTree α) (x : Nat) (b : Bool) (n : Nat) :
    sibling (setRed st x b) n = sibling st n := by
  unfold sibling
  simp

theorem uncle_setRed {α : Type} (st : RedBlackTree α) (x : Nat) (b : Bool) (n : Nat) :
    uncle (setRed st x b) n = uncle st n := by
  unfold uncle
  simp [sibling_setRed]

theorem grandparent_setRed {α : Type} (st : RedBlackTree α) (x : Nat) (b : Bool) (n : Nat) :
    grandparent (setRed st x b) n = grandparent st n := by
  unfold grandparent
  simp

/-- C6: the insert fixup on the root forces it black and stops; when the
parent is black the fixup stops leaving the state unchanged; when the parent
and the uncle are both red (a nil uncle counts as black), case 3 recolors
the parent and the uncle black and the grandparent red and re-enters the
whole fixup with the grandparent as the current node; in every other case
case 3 hands over to `insertCase4`, which performs no re-entry of the fixup,
so the red-uncle case is the only one that moves the current node upward and
loops. -/
theorem c6_insert_fixup_cases {α : Type} (f : Nat) (st : RedBlackTree α) (n : Nat) :
    (∀ i, (st.heap i).parent = none →
      insertCase1 (f+1) st (some i) = Res.ok (setRed st i false)) ∧
    (isRed st ((st.heap n).parent) = false →
      insertCase2k (insertCase1 f) st n = Res.ok st) ∧
    (∀ u p g, uncle st n = some u → (st.heap u).red = true →
      (st.heap n).parent = some p → grandparent st n = some g →
      insertCase3k (insertCase1 f) st n =
        insertCase1 f (setRed (setRed (setRed st p false) u false) g true) (some g)) ∧
    (uncle st n = none → insertCase3k (insertCase1 f) st n = insertCase4 st n) ∧
    (∀ u, uncle st n = some u → (st.heap u).red = false →
      insertCase3k (insertCase1 f) st n = insertCase4 st n) := by
  refine ⟨?_, ?_, ?_, ?_, ?_⟩
  · intro i hp
    unfold insertCase1
    simp only [hp]
  · intro hblack
    unfold insertCase2k
    rw [if_pos (by rw [hblack])]
  · intro u p g hu hured hp hg
    unfold insertCase3k
    simp only [hu, hured, hp, uncle_setRed, grandparent_setRed, hg, if_true]
  · intro hu
    unfold insertCase3k
    simp only [hu]
  · intro u hu hured
    unfold insertCase3k
    simp only [hu, hured, Bool.false_eq_true, if_false]

/-- C6 witness: in the concrete 10/5/15-plus-new-3 state, the red-uncle case
recolors 5 and 15 black and 10 red and re-runs the fixup at 10; the fixup at
the root 10 forces it black and stops; a current node with no grandparent
(nil uncle) goes to case 4 without looping. -/
theorem c6_insert_fixup_cases_witness :
    insertCase1 6 w6T (some 0) = Res.ok (setRed w6T 0 false) ∧
    insertCase3k (insertCase1 5) w6T 3 =
      insertCase1 5 (setRed (setRed (setRed w6T 1 false) 2 false) 0 true) (some 0) ∧
    insertCase3k (insertCase1 5) w6T 1 = insertCase4 w6T 1 :=
  ⟨(c6_insert_fixup_cases 5 w6T 3).1 0 (by decide),
   ((c6_insert_fixup_cases 5 w6T 3).2.2.1 2 1 0 (by decide) (by decide) (by decide) (by decide)),
   ((c6_insert_fixup_cases 5 w6T 1).2.2.2.1 (by decide))⟩

theorem setLeft_heap_self {α : Type} (st : RedBlackTree α) (i : Nat) (v : Option Nat) :
    (setLeft st i v).heap i = { st.heap i with left := v } := by
  rw [setLeft_heap]; simp
theorem setLeft_heap_ne {α : Type} (st : RedBlackTree α) (i : Nat) (v : Option Nat) (j : Nat)
    (h : j ≠ i) : (setLeft st i v).heap j = st.heap j := by
  rw [setLeft_heap, if_neg h]
theorem setRight_heap_self {α : Type} (st : RedBlackTree α) (i : Nat) (v : Option Nat) :
    (setRight st i v).heap i = { st.heap i with right := v } := by
  rw [setRight_heap]; simp
theorem setRight_heap_ne {α : Type} (st : RedBlackTree α) (i : Nat) (v : Option Nat) (j : Nat)
    (h : j ≠ i) : (setRight st i v).heap j = st.heap j := by
  rw [setRight_heap, if_neg h]
theorem setParent_heap_self {α : Type} (st : RedBlackTree α) (i : Nat) (v : Option Nat) :
    (setParent st i v).heap i = { st.heap i with parent := v } := by
  rw [setParent_heap]; simp
theorem setParent_heap_ne {α : Type} (st : RedBlackTree α) (i : Nat) (v : Option Nat) (j : Nat)
    (h : j ≠ i) : (setParent st i v).heap j = st.heap j := by
  rw [setParent_heap, if_neg h]
theorem setRed_heap_self {α : Type} (st : RedBlackTree α) (i : Nat) (v : Bool) :
    (setRed st i v).heap i = { st.heap i with red := v } := by
  rw [setRed_heap]; simp
theorem setRed_heap_ne {α : Type} (st : RedBlackTree α) (i : Nat) (v : Bool) (j : Nat)
    (h : j ≠ i) : (setRed st i v).heap j = st.heap j := by
  rw [setRed_heap, if_neg h]
theorem setElem_heap_self {α : Type} (st : RedBlackTree α) (i : Nat) (v : α) :
    (setElem st i v).heap i = { st.heap i with elem := v } := by
  rw [setElem_heap]; simp
theorem setElem_heap_ne {α : Type} (st : RedBlackTree α) (i : Nat) (v : α) (j : Nat)
    (h : j ≠ i) : (setElem st i v).heap j = st.heap j := by
  rw [setElem_heap, if_neg h]

theorem rotateRight_spec {α : Type} (st st' : RedBlackTree α) (n l : Nat)
    (hl0 : (st.heap n).left = some l)
    (hrot : rotateRight st n = Res.ok st')
    (hnl : n ≠ l)
    (hpn : ∀ pp, (st.heap n).parent = some pp → pp ≠ n ∧ pp ≠ l)
    (hlr : ∀ lr, (st.heap l).right = some lr →
      lr ≠ n ∧ lr ≠ l ∧ ∀ pp, (st.heap n).parent = some pp → lr ≠ pp) :
    (st'.root = (match (st.heap n).parent with | none => some l | some _ => st.root)) ∧
    ((st'.heap n).right = (st.heap n).right ∧
     (st'.heap n).left = (st.heap l).right ∧
     (st'.heap n).parent = some l ∧
     (st'.heap n).elem = (st.heap n).elem ∧
     (st'.heap n).red = (st.heap n).red) ∧
    ((st'.heap l).right = some n ∧
     (st'.heap l).left = (st.heap l).left ∧
     (st'.heap l).parent = (st.heap n).parent ∧
     (st'.heap l).elem = (st.heap l).elem ∧
     (st'.heap l).red = (st.heap l).red) ∧
    (∀ lr, (st.heap l).right = some lr →
      (st'.heap lr).parent = some n ∧
      (st'.heap lr).left = (st.heap lr).left ∧
      (st'.heap lr).right = (st.heap lr).right ∧
      (st'.heap lr).elem = (st.heap lr).elem ∧
      (st'.heap lr).red = (st.heap lr).red) ∧
    (∀ pp, (st.heap n).parent = some pp →
      ((st.heap pp).left = some n →
        (st'.heap pp).left = some l ∧
        (st'.heap pp).right = (st.heap pp).right ∧
        (st'.heap pp).parent = (st.heap pp).parent ∧
        (st'.heap pp).elem = (st.heap pp).elem ∧
        (st'.heap pp).red = (st.heap pp).red) ∧
      (¬ (st.heap pp).left = some n →
        (st'.heap pp).right = some l ∧
        (st'.heap pp).left = (st.heap pp).left ∧
        (st'.heap pp).parent = (st.heap pp).parent ∧
        (st'.heap pp).elem = (st.heap pp).elem ∧
        (st'.heap pp).red = (st.heap pp).red)) ∧
    (∀ j, j ≠ n → j ≠ l → ¬ (st.heap l).right = some j → ¬ (st.heap n).parent = some j →
      st'.heap j = st.heap j) := by
  have hln : l ≠ n := Ne.symm hnl
  unfold rotateRight at hrot
  rw [hl0] at hrot
  simp only [] at hrot
  unfold replaceNode at hrot
  cases hp : (st.heap n).parent with
  | none =>
    simp only [hp] at hrot
    cases hb : (st.heap l).right with
    | none =>
      simp only [setParent_heap_self, setLeft_heap_ne _ _ _ _ hln, hb] at hrot
      cases hrot
      refine ⟨by simp [hp], ?_, ?_, ?_, ?_, ?_⟩
      · simp [setParent_heap_self, setParent_heap_ne _ _ _ _ hnl,
          setRight_heap_ne _ _ _ _ hnl, setLeft_heap_self, hb]
      · simp [setParent_heap_ne _ _ _ _ hln, setRight_heap_self,
          setLeft_heap_ne _ _ _ _ hln, setParent_heap_self, hp]
      · intro lr hlr2; simp at hlr2
      · intro pp hpp; simp at hpp
      · intro j hjn hjl hjlr hjp
        simp [setParent_heap_ne _ _ _ _ hjn, setParent_heap_ne _ _ _ _ hjl,
          setRight_heap_ne _ _ _ _ hjl, setLeft_heap_ne _ _ _ _ hjn]
    | some lr =>
      obtain ⟨hlrn, hlrl, -⟩ := hlr lr hb
      simp only [setParent_heap_self, setLeft_heap_ne _ _ _ _ hln, hb] at hrot
      cases hrot
      refine ⟨by simp [hp], ?_, ?_, ?_, ?_, ?_⟩
      · simp [setParent_heap_self, setParent_heap_ne _ _ _ _ hnl,
          setParent_heap_ne _ _ _ _ (Ne.symm hlrn), setRight_heap_ne _ _ _ _ hnl,
          setLeft_heap_self, hb]
      · simp [setParent_heap_ne _ _ _ _ hln, setRight_heap_self,
          setParent_heap_ne _ _ _ _ (Ne.symm hlrl), setLeft_heap_ne _ _ _ _ hln,
          setParent_heap_self, hp]
      · intro lr2 hlr2
        cases hlr2
        refine ⟨?_, ?_, ?_, ?_, ?_⟩ <;>
          simp [setParent_heap_ne _ _ _ _ hlrn, setParent_heap_ne _ _ _ _ hlrl,
            setRight_heap_ne _ _ _ _ hlrl, setParent_heap_self,
            setLeft_heap_ne _ _ _ _ hlrn]
      · intro pp hpp; simp at hpp
      · intro j hjn hjl hjlr hjp
        have hjlr2 : j ≠ lr := fun hh => hjlr (by rw [hh])
        simp [setParent_heap_ne _ _ _ _ hjn, setParent_heap_ne _ _ _ _ hjl,
          setRight_heap_ne _ _ _ _ hjl, setLeft_heap_ne _ _ _ _ hjn,
          setParent_heap_ne _ _ _ _ hjlr2]
  | some pp =>
    obtain ⟨hppn, hppl⟩ := hpn pp hp
    have hnpp : n ≠ pp := Ne.symm hppn
    have hlpp : l ≠ pp := Ne.symm hppl
    simp only [hp] at hrot
    by_cases hside : (st.heap pp).left = some n
    · rw [if_pos hside] at hrot
      have hn1 : ((setLeft st pp (some l)).heap n).parent = some pp := by
        rw [setLeft_heap_ne _ _ _ _ hnpp, hp]
      simp only [hn1] at hrot
      cases hb : (st.heap l).right with
      | none =>
        simp only [setParent_heap_self, setLeft_heap_ne _ _ _ _ hln,
          setLeft_heap_ne _ _ _ _ hlpp, hb] at hrot
        cases hrot
        refine ⟨by simp [hp], ?_, ?_, ?_, ?_, ?_⟩
        · simp [setParent_heap_self, setParent_heap_ne _ _ _ _ hnl,
            setRight_heap_ne _ _ _ _ hnl, setLeft_heap_self,
            setLeft_heap_ne _ _ _ _ hnpp, hb]
        · simp [setParent_heap_ne _ _ _ _ hln, setRight_heap_self,
            setLeft_heap_ne _ _ _ _ hln, setParent_heap_self,
            setLeft_heap_ne _ _ _ _ hlpp, hp]
        · intro lr hlr2; simp at hlr2
        · intro pp2 hpp2
          cases hpp2
          refine ⟨fun _ => ?_, fun hc => absurd hside hc⟩
          refine ⟨?_, ?_, ?_, ?_, ?_⟩ <;>
            simp [setParent_heap_ne _ _ _ _ hppn, setParent_heap_ne _ _ _ _ hppl,
              setRight_heap_ne _ _ _ _ hppl, setLeft_heap_ne _ _ _ _ hppn,
              setLeft_heap_self]
        · intro j hjn hjl hjlr hjp
          have hjpp : j ≠ pp := fun hh => hjp (by rw [hh])
          simp [setParent_heap_ne _ _ _ _ hjn, setParent_heap_ne _ _ _ _ hjl,
            setRight_heap_ne _ _ _ _ hjl, setLeft_heap_ne _ _ _ _ hjn,
            setLeft_heap_ne _ _ _ _ hjpp]
      | some lr =>
        obtain ⟨hlrn, hlrl, hlrpp0⟩ := hlr lr hb
        have hlrpp : lr ≠ pp := hlrpp0 pp hp
        simp only [setParent_heap_self, setLeft_heap_ne _ _ _ _ hln,
          setLeft_heap_ne _ _ _ _ hlpp, hb] at hrot
        cases hrot
        refine ⟨by simp [hp], ?_, ?_, ?_, ?_, ?_⟩
        · simp [setParent_heap_self, setParent_heap_ne _ _ _ _ hnl,
            setParent_heap_ne _ _ _ _ (Ne.symm hlrn), setRight_heap_ne _ _ _ _ hnl,
            setLeft_heap_self, setLeft_heap_ne _ _ _ _ hnpp, hb]
        · simp [setParent_heap_ne _ _ _ _ hln, setRight_heap_self,
            setParent_heap_ne _ _ _ _ (Ne.symm hlrl), setLeft_heap_ne _ _ _ _ hln,
            setParent_heap_self, setLeft_heap_ne _ _ _ _ hlpp, hp]
        · intro lr2 hlr2
          cases hlr2
          refine ⟨?_, ?_, ?_, ?_, ?_⟩ <;>
            simp [setParent_heap_ne _ _ _ _ hlrn, setParent_heap_ne _ _ _ _ hlrl,
              setRight_heap_ne _ _ _ _ hlrl, setParent_heap_self,
              setLeft_heap_ne _ _ _ _ hlrn, setLeft_heap_ne _ _ _ _ hlrpp]
        · intro pp2 hpp2
          cases hpp2
          refine ⟨fun _ => ?_, fun hc => absurd hside hc⟩
          refine ⟨?_, ?_, ?_, ?_, ?_⟩ <;>
            simp [setParent_heap_ne _ _ _ _ hppn, setParent_heap_ne _ _ _ _ hppl,
              setRight_heap_ne _ _ _ _ hppl, setParent_heap_ne _ _ _ _ (Ne.symm hlrpp),
              setLeft_heap_ne _ _ _ _ hppn, setLeft_heap_self]
        · intro j hjn hjl hjlr hjp
          have hjpp : j ≠ pp := fun hh => hjp (by rw [hh])
          have hjlr2 : j ≠ lr := fun hh => hjlr (by rw [hh])
          simp [setParent_heap_ne _ _ _ _ hjn, setParent_heap_ne _ _ _ _ hjl,
            setRight_heap_ne _ _ _ _ hjl, setLeft_heap_ne _ _ _ _ hjn,
            setParent_heap_ne _ _ _ _ hjlr2, setLeft_heap_ne _ _ _ _ hjpp]
    · rw [if_neg hside] at hrot
      have hn1 : ((setRight st pp (some l)).heap n).parent = some pp := by
        rw [setRight_heap_ne _ _ _ _ hnpp, hp]
      simp only [hn1] at hrot
      cases hb : (st.heap l).right with
      | none =>
        simp only [setParent_heap_self, setLeft_heap_ne _ _ _ _ hln,
          setRight_heap_ne _ _ _ _ hlpp, hb] at hrot
        cases hrot
        refine ⟨by simp [hp], ?_, ?_, ?_, ?_, ?_⟩
        · simp [setParent_heap_self, setParent_heap_ne _ _ _ _ hnl,
            setRight_heap_ne _ _ _ _ hnl, setLeft_heap_self,
            setRight_heap_ne _ _ _ _ hnpp, hb]
        · simp [setParent_heap_ne _ _ _ _ hln, setRight_heap_self,
            setLeft_heap_ne _ _ _ _ hln, setParent_heap_self,
            setRight_heap_ne _ _ _ _ hlpp, hp]
        · intro lr hlr2; simp at hlr2
        · intro pp2 hpp2
          cases hpp2
          refine ⟨fun hc => absurd hc hside, fun _ => ?_⟩
          refine ⟨?_, ?_, ?_, ?_, ?_⟩ <;>
            simp [setParent_heap_ne _ _ _ _ hppn, setParent_heap_ne _ _ _ _ hppl,
              setRight_heap_ne _ _ _ _ hppl, setLeft_heap_ne _ _ _ _ hppn,
              setRight_heap_self]
        · intro j hjn hjl hjlr hjp
          have hjpp : j ≠ pp := fun hh => hjp (by rw [hh])
          simp [setParent_heap_ne _ _ _ _ hjn, setParent_heap_ne _ _ _ _ hjl,
            setRight_heap_ne _ _ _ _ hjl, setLeft_heap_ne _ _ _ _ hjn,
            setRight_heap_ne _ _ _ _ hjpp]
      | some lr =>
        obtain ⟨hlrn, hlrl, hlrpp0⟩ := hlr lr hb
        have hlrpp : lr ≠ pp := hlrpp0 pp hp
        simp only [setParent_heap_self, setLeft_heap_ne _ _ _ _ hln,
          setRight_heap_ne _ _ _ _ hlpp, hb] at hrot
        cases hrot
        refine ⟨by simp [hp], ?_, ?_, ?_, ?_, ?_⟩
        · simp [setParent_heap_self, setParent_heap_ne _ _ _ _ hnl,
            setParent_heap_ne _ _ _ _ (Ne.symm hlrn), setRight_heap_ne _ _ _ _ hnl,
            setLeft_heap_self, setRight_heap_ne _ _ _ _ hnpp, hb]
        · simp [setParent_heap_ne _ _ _ _ hln, setRight_heap_self,
            setParent_heap_ne _ _ _ _ (Ne.symm hlrl), setLeft_heap_ne _ _ _ _ hln,
            setParent_heap_self, setRight_heap_ne _ _ _ _ hlpp, hp]
        · intro lr2 hlr2
          cases hlr2
          refine ⟨?_, ?_, ?_, ?_, ?_⟩ <;>
            simp [setParent_heap_ne _ _ _ _ hlrn, setParent_heap_ne _ _ _ _ hlrl,
              setRight_heap_ne _ _ _ _ hlrl, setParent_heap_self,
              setLeft_heap_ne _ _ _ _ hlrn, setRight_heap_ne _ _ _ _ hlrpp]
        · intro pp2 hpp2
          cases hpp2
          refine ⟨fun hc => absurd hc hside, fun _ => ?_⟩
          refine ⟨?_, ?_, ?_, ?_, ?_⟩ <;>
            simp [setParent_heap_ne _ _ _ _ hppn, setParent_heap_ne _ _ _ _ hppl,
              setRight_heap_ne _ _ _ _ hppl, setParent_heap_ne _ _ _ _ (Ne.symm hlrpp),
              setLeft_heap_ne _ _ _ _ hppn, setRight_heap_self]
        · intro j hjn hjl hjlr hjp
          have hjpp : j ≠ pp := fun hh => hjp (by rw [hh])
          have hjlr2 : j ≠ lr := fun hh => hjlr (by rw [hh])
          simp [setParent_heap_ne _ _ _ _ hjn, setParent_heap_ne _ _ _ _ hjl,
            setRight_heap_ne _ _ _ _ hjl, setLeft_heap_ne _ _ _ _ hjn,
            setParent_heap_ne _ _ _ _ hjlr2, setRight_heap_ne _ _ _ _ hjpp]

end Goods


namespace Goods

theorem rotateLeft_spec {α : Type} (st st' : RedBlackTree α) (n r : Nat)
    (hr : (st.heap n).right = some r)
    (hrot : rotateLeft st n = Res.ok st')
    (hnr : n ≠ r)
    (hpn : ∀ pp, (st.heap n).parent = some pp → pp ≠ n ∧ pp ≠ r)
    (hrl : ∀ rl, (st.heap r).left = some rl →
      rl ≠ n ∧ rl ≠ r ∧ ∀ pp, (st.heap n).parent = some pp → rl ≠ pp) :
    (st'.root = (match (st.heap n).parent with | none => some r | some _ => st.root)) ∧
    ((st'.heap n).left = (st.heap n).left ∧
     (st'.heap n).right = (st.heap r).left ∧
     (st'.heap n).parent = some r ∧
     (st'.heap n).elem = (st.heap n).elem ∧
     (st'.heap n).red = (st.heap n).red) ∧
    ((st'.heap r).left = some n ∧
     (st'.heap r).right = (st.heap r).right ∧
     (st'.heap r).parent = (st.heap n).parent ∧
     (st'.heap r).elem = (st.heap r).elem ∧
     (st'.heap r).red = (st.heap r).red) ∧
    (∀ rl, (st.heap r).left = some rl →
      (st'.heap rl).parent = some n ∧
      (st'.heap rl).left = (st.heap rl).left ∧
      (st'.heap rl).right = (st.heap rl).right ∧
      (st'.heap rl).elem = (st.heap rl).elem ∧
      (st'.heap rl).red = (st.heap rl).red) ∧
    (∀ pp, (st.heap n).parent = some pp →
      ((st.heap pp).left = some n →
        (st'.heap pp).left = some r ∧
        (st'.heap pp).right = (st.heap pp).right ∧
        (st'.heap pp).parent = (st.heap pp).parent ∧
        (st'.heap pp).elem = (st.heap pp).elem ∧
        (st'.heap pp).red = (st.heap pp).red) ∧
      (¬ (st.heap pp).left = some n →
        (st'.heap pp).right = some r ∧
        (st'.heap pp).left = (st.heap pp).left ∧
        (st'.heap pp).parent = (st.heap pp).parent ∧
        (st'.heap pp).elem = (st.heap pp).elem ∧
        (st'.heap pp).red = (st.heap pp).red)) ∧
    (∀ j, j ≠ n → j ≠ r → ¬ (st.heap r).left = some j → ¬ (st.heap n).parent = some j →
      st'.heap j = st.heap j) := by
  have hrn : r ≠ n := Ne.symm hnr
  unfold rotateLeft at hrot
  rw [hr] at hrot
  simp only [] at hrot
  unfold replaceNode at hrot
  cases hp : (st.heap n).parent with
  | none =>
    simp only [hp] at hrot
    cases hb : (st.heap r).left with
    | none =>
      simp only [setParent_heap_self, setRight_heap_ne _ _ _ _ hrn, hb] at hrot
      cases hrot
      refine ⟨by simp [hp], ?_, ?_, ?_, ?_, ?_⟩
      · simp [setParent_heap_self, setParent_heap_ne _ _ _ _ hnr,
          setLeft_heap_ne _ _ _ _ hnr, setRight_heap_self, hb]
      · simp [setParent_heap_ne _ _ _ _ hrn, setLeft_heap_self,
          setRight_heap_ne _ _ _ _ hrn, setParent_heap_self, hp]
      · intro rl hrl2; simp at hrl2
      · intro pp hpp; simp at hpp
      · intro j hjn hjr hjrl hjp
        simp [setParent_heap_ne _ _ _ _ hjn, setParent_heap_ne _ _ _ _ hjr, setLeft_heap_ne _ _ _ _ hjr,
          setRight_heap_ne _ _ _ _ hjn]
    | some rl =>
      obtain ⟨hrln, hrlr, -⟩ := hrl rl hb
      simp only [setParent_heap_self, setRight_heap_ne _ _ _ _ hrn, hb] at hrot
      cases hrot
      refine ⟨by simp [hp], ?_, ?_, ?_, ?_, ?_⟩
      · simp [setParent_heap_self, setParent_heap_ne _ _ _ _ hnr,
          setParent_heap_ne _ _ _ _ (Ne.symm hrln), setLeft_heap_ne _ _ _ _ hnr,
          setRight_heap_self, hb]
      · simp [setParent_heap_ne _ _ _ _ hrn, setLeft_heap_self,
          setParent_heap_ne _ _ _ _ (Ne.symm hrlr), setRight_heap_ne _ _ _ _ hrn,
          setParent_heap_self, hp]
      · intro rl2 hrl2
        cases hrl2
        refine ⟨?_, ?_, ?_, ?_, ?_⟩ <;>
          simp [setParent_heap_ne _ _ _ _ hrln, setParent_heap_ne _ _ _ _ hrlr,
            setLeft_heap_ne _ _ _ _ hrlr, setParent_heap_self,
            setRight_heap_ne _ _ _ _ hrln]
      · intro pp hpp; simp at hpp
      · intro j hjn hjr hjrl hjp
        have hjrl2 : j ≠ rl := fun hh => hjrl (by rw [hh])
        simp [setParent_heap_ne _ _ _ _ hjn, setParent_heap_ne _ _ _ _ hjr, setLeft_heap_ne _ _ _ _ hjr,
          setRight_heap_ne _ _ _ _ hjn, setParent_heap_ne _ _ _ _ hjrl2]
  | some pp =>
    obtain ⟨hppn, hppr⟩ := hpn pp hp
    have hnpp : n ≠ pp := Ne.symm hppn
    have hrpp : r ≠ pp := Ne.symm hppr
    simp only [hp] at hrot
    by_cases hside : (st.heap pp).left = some n
    · rw [if_pos hside] at hrot
      have hn1 : ((setLeft st pp (some r)).heap n).parent = some pp := by
        rw [setLeft_heap_ne _ _ _ _ hnpp, hp]
      simp only [hn1] at hrot
      cases hb : (st.heap r).left with
      | none =>
        simp only [setParent_heap_self, setRight_heap_ne _ _ _ _ hrn,
          setLeft_heap_ne _ _ _ _ hrpp, hb] at hrot
        cases hrot
        refine ⟨by simp [hp], ?_, ?_, ?_, ?_, ?_⟩
        · simp [setParent_heap_self, setParent_heap_ne _ _ _ _ hnr,
            setLeft_heap_ne _ _ _ _ hnr, setRight_heap_self,
            setLeft_heap_ne _ _ _ _ hnpp, hb]
        · simp [setParent_heap_ne _ _ _ _ hrn, setLeft_heap_self,
            setRight_heap_ne _ _ _ _ hrn, setParent_heap_self,
            setLeft_heap_ne _ _ _ _ hrpp, hp]
        · intro rl hrl2; simp at hrl2
        · intro pp2 hpp2
          cases hpp2
          refine ⟨fun _ => ?_, fun hc => absurd hside hc⟩
          refine ⟨?_, ?_, ?_, ?_, ?_⟩ <;>
            simp [setParent_heap_ne _ _ _ _ hppn, setLeft_heap_ne _ _ _ _ hppr,
              setRight_heap_ne _ _ _ _ hppn, setParent_heap_ne _ _ _ _ hppr,
              setLeft_heap_self]
        · intro j hjn hjr hjrl hjp
          have hjpp : j ≠ pp := fun hh => hjp (by rw [hh])
          simp [setParent_heap_ne _ _ _ _ hjn, setParent_heap_ne _ _ _ _ hjr, setLeft_heap_ne _ _ _ _ hjr,
            setRight_heap_ne _ _ _ _ hjn, setLeft_heap_ne _ _ _ _ hjpp]
      | some rl =>
        obtain ⟨hrln, hrlr, hrlpp0⟩ := hrl rl hb
        have hrlpp : rl ≠ pp := hrlpp0 pp hp
        simp only [setParent_heap_self, setRight_heap_ne _ _ _ _ hrn,
          setLeft_heap_ne _ _ _ _ hrpp, hb] at hrot
        cases hrot
        refine ⟨by simp [hp], ?_, ?_, ?_, ?_, ?_⟩
        · simp [setParent_heap_self, setParent_heap_ne _ _ _ _ hnr,
            setParent_heap_ne _ _ _ _ (Ne.symm hrln), setLeft_heap_ne _ _ _ _ hnr,
            setRight_heap_self, setLeft_heap_ne _ _ _ _ hnpp, hb]
        · simp [setParent_heap_ne _ _ _ _ hrn, setLeft_heap_self,
            setParent_heap_ne _ _ _ _ (Ne.symm hrlr), setRight_heap_ne _ _ _ _ hrn,
            setParent_heap_self, setLeft_heap_ne _ _ _ _ hrpp, hp]
        · intro rl2 hrl2
          cases hrl2
          refine ⟨?_, ?_, ?_, ?_, ?_⟩ <;>
            simp [setParent_heap_ne _ _ _ _ hrln, setParent_heap_ne _ _ _ _ hrlr,
              setLeft_heap_ne _ _ _ _ hrlr, setParent_heap_self,
              setRight_heap_ne _ _ _ _ hrln, setLeft_heap_ne _ _ _ _ hrlpp]
        · intro pp2 hpp2
          cases hpp2
          refine ⟨fun _ => ?_, fun hc => absurd hside hc⟩
          refine ⟨?_, ?_, ?_, ?_, ?_⟩ <;>
            simp [setParent_heap_ne _ _ _ _ hppn, setParent_heap_ne _ _ _ _ hppr,
              setLeft_heap_ne _ _ _ _ hppr, setParent_heap_ne _ _ _ _ (Ne.symm hrlpp),
              setRight_heap_ne _ _ _ _ hppn, setLeft_heap_self]
        · intro j hjn hjr hjrl hjp
          have hjpp : j ≠ pp := fun hh => hjp (by rw [hh])
          have hjrl2 : j ≠ rl := fun hh => hjrl (by rw [hh])
          simp [setParent_heap_ne _ _ _ _ hjn, setParent_heap_ne _ _ _ _ hjr, setLeft_heap_ne _ _ _ _ hjr,
            setRight_heap_ne _ _ _ _ hjn, setParent_heap_ne _ _ _ _ hjrl2,
            setLeft_heap_ne _ _ _ _ hjpp]
    · rw [if_neg hside] at hrot
      have hn1 : ((setRight st pp (some r)).heap n).parent = some pp := by
        rw [setRight_heap_ne _ _ _ _ hnpp, hp]
      simp only [hn1] at hrot
      cases hb : (st.heap r).left with
      | none =>
        simp only [setParent_heap_self, setRight_heap_ne _ _ _ _ hrn,
          setRight_heap_ne _ _ _ _ hrpp, hb] at hrot
        cases hrot
        refine ⟨by simp [hp], ?_, ?_, ?_, ?_, ?_⟩
        · simp [setParent_heap_self, setParent_heap_ne _ _ _ _ hnr,
            setLeft_heap_ne _ _ _ _ hnr, setRight_heap_self,
            setRight_heap_ne _ _ _ _ hnpp, hb]
        · simp [setParent_heap_ne _ _ _ _ hrn, setLeft_heap_self,
            setRight_heap_ne _ _ _ _ hrn, setParent_heap_self,
            setRight_heap_ne _ _ _ _ hrpp, hp]
        · intro rl hrl2; simp at hrl2
        · intro pp2 hpp2
          cases hpp2
          refine ⟨fun hc => absurd hc hside, fun _ => ?_⟩
          refine ⟨?_, ?_, ?_, ?_, ?_⟩ <;>
            simp [setParent_heap_ne _ _ _ _ hppn, setLeft_heap_ne _ _ _ _ hppr,
              setRight_heap_ne _ _ _ _ hppn, setParent_heap_ne _ _ _ _ hppr,
              setRight_heap_self]
        · intro j hjn hjr hjrl hjp
          have hjpp : j ≠ pp := fun hh => hjp (by rw [hh])
          simp [setParent_heap_ne _ _ _ _ hjn, setParent_heap_ne _ _ _ _ hjr, setLeft_heap_ne _ _ _ _ hjr,
            setRight_heap_ne _ _ _ _ hjn, setRight_heap_ne _ _ _ _ hjpp]
      | some rl =>
        obtain ⟨hrln, hrlr, hrlpp0⟩ := hrl rl hb
        have hrlpp : rl ≠ pp := hrlpp0 pp hp
        simp only [setParent_heap_self, setRight_heap_ne _ _ _ _ hrn,
          setRight_heap_ne _ _ _ _ hrpp, hb] at hrot
        cases hrot
        refine ⟨by simp [hp], ?_, ?_, ?_, ?_, ?_⟩
        · simp [setParent_heap_self, setParent_heap_ne _ _ _ _ hnr,
            setParent_heap_ne _ _ _ _ (Ne.symm hrln), setLeft_heap_ne _ _ _ _ hnr,
            setRight_heap_self, setRight_heap_ne _ _ _ _ hnpp, hb]
        · simp [setParent_heap_ne _ _ _ _ hrn, setLeft_heap_self,
            setParent_heap_ne _ _ _ _ (Ne.symm hrlr), setRight_heap_ne _ _ _ _ hrn,
            setParent_heap_self, setRight_heap_ne _ _ _ _ hrpp, hp]
        · intro rl2 hrl2
          cases hrl2
          refine ⟨?_, ?_, ?_, ?_, ?_⟩ <;>
            simp [setParent_heap_ne _ _ _ _ hrln, setParent_heap_ne _ _ _ _ hrlr,
              setLeft_heap_ne _ _ _ _ hrlr, setParent_heap_self,
              setRight_heap_ne _ _ _ _ hrln, setRight_heap_ne _ _ _ _ hrlpp]
        · intro pp2 hpp2
          cases hpp2
          refine ⟨fun hc => absurd hc hside, fun _ => ?_⟩
          refine ⟨?_, ?_, ?_, ?_, ?_⟩ <;>
            simp [setParent_heap_ne _ _ _ _ hppn, setParent_heap_ne _ _ _ _ hppr,
              setLeft_heap_ne _ _ _ _ hppr, setParent_heap_ne _ _ _ _ (Ne.symm hrlpp),
              setRight_heap_ne _ _ _ _ hppn, setRight_heap_self]
        · intro j hjn hjr hjrl hjp
          have hjpp : j ≠ pp := fun hh => hjp (by rw [hh])
          have hjrl2 : j ≠ rl := fun hh => hjrl (by rw [hh])
          simp [setParent_heap_ne _ _ _ _ hjn, setParent_heap_ne _ _ _ _ hjr, setLeft_heap_ne _ _ _ _ hjr,
            setRight_heap_ne _ _ _ _ hjn, setParent_heap_ne _ _ _ _ hjrl2,
            setRight_heap_ne _ _ _ _ hjpp]

end Goods

namespace Goods

@[simp] theorem reachL_none {α : Type} (g : Nat) (st : RedBlackTree α) :
    reachL g st none = some [] := by
  cases g <;> rfl

theorem reachL_destruct {α : Type} (g : Nat) (st : RedBlackTree α) (i : Nat) (li : List Nat)
    (h : reachL g st (some i) = some li) :
    ∃ f L R, g = f + 1 ∧ reachL f st ((st.heap i).left) = some L ∧
      reachL f st ((st.heap i).right) = some R ∧ li = L ++ i :: R := by
  cases g with
  | zero => cases h
  | succ f =>
    unfold reachL at h
    cases hL : reachL f st ((st.heap i).left) with
    | none => rw [hL] at h; cases h
    | some L =>
      cases hR : reachL f st ((st.heap i).right) with
      | none => rw [hL, hR] at h; cases h
      | some R =>
        rw [hL, hR] at h
        cases h
        exact ⟨f, L, R, rfl, hL, hR, rfl⟩

theorem reachL_build {α : Type} (f : Nat) (st : RedBlackTree α) (i : Nat) (L R : List Nat)
    (hL : reachL f st ((st.heap i).left) = some L)
    (hR : reachL f st ((st.heap i).right) = some R) :
    reachL (f+1) st (some i) = some (L ++ i :: R) := by
  unfold reachL
  rw [hL, hR]

theorem reachL_self_mem {α : Type} (g : Nat) (st : RedBlackTree α) (i : Nat) (li : List Nat)
    (h : reachL g st (some i) = some li) : i ∈ li := by
  obtain ⟨f, L, R, -, -, -, rfl⟩ := reachL_destruct g st i li h
  simp

theorem reachL_mono {α : Type} :
    ∀ (f : Nat) (st : RedBlackTree α) (x : Option Nat) (l : List Nat) (g : Nat),
      reachL f st x = some l → f ≤ g → reachL g st x = some l := by
  intro f
  induction f with
  | zero =>
    intro st x l g h hle
    cases x with
    | none => cases h; simp
    | some i => cases h
  | succ f ih =>
    intro st x l g h hle
    cases x with
    | none => cases h; simp
    | some i =>
      obtain ⟨f', L, R, hf, hL, hR, rfl⟩ := reachL_destruct _ st i l h
      cases hf
      cases g with
      | zero => omega
      | succ g =>
        have hg : f ≤ g := by omega
        exact reachL_build g st i L R (ih st _ L g hL hg) (ih st _ R g hR hg)

theorem reachL_frame {α : Type} :
    ∀ (f : Nat) (st st' : RedBlackTree α) (x : Option Nat) (l : List Nat),
      (∀ j ∈ l, (st'.heap j).left = (st.heap j).left ∧ (st'.heap j).right = (st.heap j).right) →
      reachL f st x = some l → reachL f st' x = some l := by
  intro f
  induction f with
  | zero =>
    intro st st' x l hag h
    cases x with
    | none => cases h; simp
    | some i => cases h
  | succ f ih =>
    intro st st' x l hag h
    cases x with
    | none => cases h; simp
    | some i =>
      obtain ⟨f', L, R, hf, hL, hR, rfl⟩ := reachL_destruct _ st i _ h
      cases hf
      have hiL : (st'.heap i).left = (st.heap i).left :=
        (hag i (by simp)).1
      have hiR : (st'.heap i).right = (st.heap i).right :=
        (hag i (by simp)).2
      have hL' : reachL f st' ((st'.heap i).left) = some L := by
        rw [hiL]
        exact ih st st' _ L (fun j hj => hag j (by simp [hj])) hL
      have hR' : reachL f st' ((st'.heap i).right) = some R := by
        rw [hiR]
        exact ih st st' _ R (fun j hj => hag j (by simp [hj])) hR
      exact reachL_build f st' i L R hL' hR'

theorem reachL_sub {α : Type} :
    ∀ (f : Nat) (st : RedBlackTree α) (x : Option Nat) (lx : List Nat) (n : Nat),
      reachL f st x = some lx → n ∈ lx →
      ∃ g ln, g ≤ f ∧ reachL g st (some n) = some ln ∧ ln.Sublist lx := by
  intro f
  induction f with
  | zero =>
    intro st x lx n h hn
    cases x with
    | none => cases h; simp at hn
    | some i => cases h
  | succ f ih =>
    intro st x lx n h hn
    cases x with
    | none => cases h; simp at hn
    | some i =>
      obtain ⟨f', L, R, hf, hL, hR, rfl⟩ := reachL_destruct _ st i _ h
      cases hf
      rcases List.mem_append.mp hn with hnL | hnCR
      · obtain ⟨g, ln, hg, hre, hsub⟩ := ih st _ L n hL hnL
        exact ⟨g, ln, by omega, hre, hsub.trans (List.sublist_append_left L (i :: R))⟩
      · rcases List.mem_cons.mp hnCR with rfl | hnR
        · exact ⟨f + 1, L ++ n :: R, le_refl _, h, List.Sublist.refl _⟩
        · obtain ⟨g, ln, hg, hre, hsub⟩ := ih st _ R n hR hnR
          refine ⟨g, ln, by omega, hre, hsub.trans ?_⟩
          exact List.Sublist.trans (List.sublist_cons_self i R) (List.sublist_append_right L (i :: R))

theorem no_child_up {α : Type} (f : Nat) (st : RedBlackTree α) (i : Nat) (li : List Nat)
    (h : reachL f st (some i) = some li) (hnd : li.Nodup) :
    ∀ q ∈ li, ¬ (st.heap q).left = some i ∧ ¬ (st.heap q).right = some i := by
  obtain ⟨f', L, R, hf, hL, hR, rfl⟩ := reachL_destruct _ st i _ h
  have hiL : i ∉ L := by
    intro hiL
    have := List.disjoint_of_nodup_append hnd hiL
    simp at this
  have hiR : i ∉ R := by
    have : (i :: R).Nodup := (List.nodup_append.mp hnd).2.1
    exact (List.nodup_cons.mp this).1
  intro q hq
  constructor
  · intro hql
    rcases List.mem_append.mp hq with hqL | hqCR
    · obtain ⟨g, lq, hg, hreq, hsub⟩ := reachL_sub _ st _ L q hL hqL
      obtain ⟨g', Lq, Rq, hg', hLq, hRq, rfl⟩ := reachL_destruct _ st q _ hreq
      rw [hql] at hLq
      have : i ∈ Lq := reachL_self_mem _ st i Lq hLq
      exact hiL (hsub.mem (by simp [this]))
    · rcases List.mem_cons.mp hqCR with hqi | hqR
      · rw [hqi] at hql
        rw [hql] at hL
        exact hiL (reachL_self_mem _ st i L hL)
      · obtain ⟨g, lq, hg, hreq, hsub⟩ := reachL_sub _ st _ R q hR hqR
        obtain ⟨g', Lq, Rq, hg', hLq, hRq, rfl⟩ := reachL_destruct _ st q _ hreq
        rw [hql] at hLq
        have : i ∈ Lq := reachL_self_mem _ st i Lq hLq
        exact hiR (hsub.mem (by simp [this]))
  · intro hqr
    rcases List.mem_append.mp hq with hqL | hqCR
    · obtain ⟨g, lq, hg, hreq, hsub⟩ := reachL_sub _ st _ L q hL hqL
      obtain ⟨g', Lq, Rq, hg', hLq, hRq, rfl⟩ := reachL_destruct _ st q _ hreq
      rw [hqr] at hRq
      have : i ∈ Rq := reachL_self_mem _ st i Rq hRq
      exact hiL (hsub.mem (by simp [this]))
    · rcases List.mem_cons.mp hqCR with hqi | hqR
      · rw [hqi] at hqr
        rw [hqr] at hR
        exact hiR (reachL_self_mem _ st i R hR)
      · obtain ⟨g, lq, hg, hreq, hsub⟩ := reachL_sub _ st _ R q hR hqR
        obtain ⟨g', Lq, Rq, hg', hLq, hRq, rfl⟩ := reachL_destruct _ st q _ hreq
        rw [hqr] at hRq
        have : i ∈ Rq := reachL_self_mem _ st i Rq hRq
        exact hiR (hsub.mem (by simp [this]))

theorem reachL_owner {α : Type} :
    ∀ (f : Nat) (st : RedBlackTree α) (x : Option Nat) (lx : List Nat) (n : Nat),
      reachL f st x = some lx → n ∈ lx →
      x = some n ∨ ∃ q ∈ lx, (st.heap q).left = some n ∨ (st.heap q).right = some n := by
  intro f
  induction f with
  | zero =>
    intro st x lx n h hn
    cases x with
    | none => cases h; simp at hn
    | some i => cases h
  | succ f ih =>
    intro st x lx n h hn
    cases x with
    | none => cases h; simp at hn
    | some i =>
      obtain ⟨f', L, R, hf, hL, hR, rfl⟩ := reachL_destruct _ st i _ h
      cases hf
      rcases List.mem_append.mp hn with hnL | hnCR
      · rcases ih st _ L n hL hnL with heq | ⟨q, hq, hside⟩
        · exact Or.inr ⟨i, by simp, Or.inl heq⟩
        · exact Or.inr ⟨q, by simp [hq], hside⟩
      · rcases List.mem_cons.mp hnCR with rfl | hnR
        · exact Or.inl rfl
        · rcases ih st _ R n hR hnR with heq | ⟨q, hq, hside⟩
          · exact Or.inr ⟨i, by simp, Or.inr heq⟩
          · exact Or.inr ⟨q, by simp [hq], hside⟩

end Goods

namespace Goods

theorem reachL_child_mem {α : Type} (g : Nat) (st : RedBlackTree α) (q : Nat) (lq : List Nat)
    (h : reachL g st (some q) = some lq) (m : Nat)
    (hm : (st.heap q).left = some m ∨ (st.heap q).right = some m) : m ∈ lq := by
  obtain ⟨f, L, R, hf, hL, hR, rfl⟩ := reachL_destruct g st q lq h
  rcases hm with hm | hm
  · rw [hm] at hL
    exact List.mem_append.mpr (Or.inl (reachL_self_mem f st m L hL))
  · rw [hm] at hR
    exact List.mem_append.mpr (Or.inr (List.mem_cons.mpr (Or.inr (reachL_self_mem f st m R hR))))

theorem mem_of_parent_in {α : Type} (g : Nat) (st : RedBlackTree α) (x : Option Nat)
    (Z : List Nat) (h : reachL g st x = some Z) (pp n : Nat) (hpp : pp ∈ Z)
    (hchild : (st.heap pp).left = some n ∨ (st.heap pp).right = some n) : n ∈ Z := by
  obtain ⟨g', lp, hg', hre, hsub⟩ := reachL_sub g st x Z pp h hpp
  exact hsub.mem (reachL_child_mem g' st pp lp hre n hchild)

theorem rot_ind {α : Type} (st st' : RedBlackTree α) (n r : Nat) (lG : List Nat)
    (hndG : lG.Nodup)
    (hnu : ∀ g ln2, reachL g st (some n) = some ln2 → r ∈ ln2)
    (hPCn : ∀ q, (st.heap n).parent = some q →
      (st.heap q).left = some n ∨ (st.heap q).right = some n)
    (hCPn : ∀ q ∈ lG, ((st.heap q).left = some n → (st.heap n).parent = some q) ∧
      ((st.heap q).right = some n → (st.heap n).parent = some q))
    (hSpp : ∀ pp, (st.heap n).parent = some pp →
      ((st.heap pp).left = some n →
        (st'.heap pp).left = some r ∧ (st'.heap pp).right = (st.heap pp).right) ∧
      (¬ (st.heap pp).left = some n →
        (st'.heap pp).right = some r ∧ (st'.heap pp).left = (st.heap pp).left))
    (hF : ∀ j, j ≠ n → j ≠ r → ¬ (st.heap n).parent = some j →
      (st'.heap j).left = (st.heap j).left ∧ (st'.heap j).right = (st.heap j).right)
    (hBase : ∀ fuel (lx : List Nat), reachL fuel st (some n) = some lx → lx.Nodup →
      reachL (fuel+1) st' (some r) = some lx) :
    ∀ fuel (x : Option Nat) (lx : List Nat), reachL fuel st x = some lx → lx.Sublist lG →
      n ∈ lx →
      reachL (fuel+1) st' (if x = some n then some r else x) = some lx := by
  intro fuel
  induction fuel with
  | zero =>
    intro x lx h hsub hn
    cases x with
    | none => cases h; simp at hn
    | some i => cases h
  | succ fy ih =>
    intro x lx h hsub hn
    have hndx : lx.Nodup := hsub.nodup hndG
    cases x with
    | none => cases h; simp at hn
    | some y =>
      by_cases hyn : y = n
      · subst hyn
        rw [if_pos rfl]
        exact hBase _ _ h hndx
      · rw [if_neg (by simp [hyn])]
        obtain ⟨f1, Ly, Ry, hf1, hLy, hRy, rfl⟩ := reachL_destruct _ st y _ h
        cases hf1
        rcases List.mem_append.mp hn with hnL | hnCR
        · have hrLy : r ∈ Ly := by
            obtain ⟨g, ln2, hg, hre2, hsub2⟩ := reachL_sub _ st _ Ly n hLy hnL
            exact hsub2.mem (hnu g ln2 hre2)
          have hyLy : y ∉ Ly := by
            intro hmem
            have := List.disjoint_of_nodup_append hndx hmem
            simp at this
          have hyr : y ≠ r := fun hh => hyLy (hh ▸ hrLy)
          have hnRy : n ∉ Ry := by
            intro hmem
            have := List.disjoint_of_nodup_append hndx hnL
            simp [hmem] at this
          have hrRy : r ∉ Ry := by
            intro hmem
            have := List.disjoint_of_nodup_append hndx hrLy
            simp [hmem] at this
          have hyRn : ¬ (st.heap y).right = some n := by
            intro hh
            rw [hh] at hRy
            exact hnRy (reachL_self_mem _ st n Ry hRy)
          have hframeRy : ∀ j ∈ Ry, (st'.heap j).left = (st.heap j).left ∧
              (st'.heap j).right = (st.heap j).right := by
            intro j hj
            refine hF j (fun hh => hnRy (hh ▸ hj)) (fun hh => hrRy (hh ▸ hj)) ?_
            intro hpj
            rcases hPCn j hpj with hc | hc
            · exact hnRy (mem_of_parent_in _ st _ Ry hRy j n hj (Or.inl hc))
            · exact hnRy (mem_of_parent_in _ st _ Ry hRy j n hj (Or.inr hc))
          have hsubLy : Ly.Sublist lG :=
            (List.sublist_append_left Ly (y :: Ry)).trans hsub
          have hih := ih ((st.heap y).left) Ly hLy hsubLy hnL
          have hRy' : ∀ g, fy ≤ g → reachL g st' ((st.heap y).right) = some Ry :=
            fun g hg => reachL_frame _ st st' _ Ry hframeRy (reachL_mono _ st _ Ry g hRy hg)
          have hymem : y ∈ lG := hsub.mem (by simp)
          by_cases hc : (st.heap y).left = some n
          · have hpar : (st.heap n).parent = some y := (hCPn y hymem).1 hc
            obtain ⟨h1, h2⟩ := (hSpp y hpar).1 hc
            rw [if_pos hc] at hih
            have hbl : reachL (fy+1) st' ((st'.heap y).left) = some Ly := by
              rw [h1]; exact hih
            have hbr : reachL (fy+1) st' ((st'.heap y).right) = some Ry := by
              rw [h2]; exact hRy' (fy+1) (by omega)
            exact reachL_build _ st' y Ly Ry hbl hbr
          · have hnotp : ¬ (st.heap n).parent = some y := by
              intro hpj
              rcases hPCn y hpj with hcc | hcc
              · exact hc hcc
              · exact hyRn hcc
            obtain ⟨hyL', hyR'⟩ := hF y hyn hyr hnotp
            rw [if_neg hc] at hih
            have hbl : reachL (fy+1) st' ((st'.heap y).left) = some Ly := by
              rw [hyL']; exact hih
            have hbr : reachL (fy+1) st' ((st'.heap y).right) = some Ry := by
              rw [hyR']; exact hRy' (fy+1) (by omega)
            exact reachL_build _ st' y Ly Ry hbl hbr
        · rcases List.mem_cons.mp hnCR with hne | hnR
          · exact absurd hne (fun hh => hyn hh.symm)
          · have hrRy : r ∈ Ry := by
              obtain ⟨g, ln2, hg, hre2, hsub2⟩ := reachL_sub _ st _ Ry n hRy hnR
              exact hsub2.mem (hnu g ln2 hre2)
            have hyRy : y ∉ Ry := by
              have hnd2 : (y :: Ry).Nodup := (List.nodup_append.mp hndx).2.1
              exact (List.nodup_cons.mp hnd2).1
            have hyr : y ≠ r := fun hh => hyRy (hh ▸ hrRy)
            have hnLy : n ∉ Ly := by
              intro hmem
              have := List.disjoint_of_nodup_append hndx hmem
              simp [hnR] at this
            have hrLy : r ∉ Ly := by
              intro hmem
              have := List.disjoint_of_nodup_append hndx hmem
              simp [hrRy] at this
            have hyLn : ¬ (st.heap y).left = some n := by
              intro hh
              rw [hh] at hLy
              exact hnLy (reachL_self_mem _ st n Ly hLy)
            have hframeLy : ∀ j ∈ Ly, (st'.heap j).left = (st.heap j).left ∧
                (st'.heap j).right = (st.heap j).right := by
              intro j hj
              refine hF j (fun hh => hnLy (hh ▸ hj)) (fun hh => hrLy (hh ▸ hj)) ?_
              intro hpj
              rcases hPCn j hpj with hc | hc
              · exact hnLy (mem_of_parent_in _ st _ Ly hLy j n hj (Or.inl hc))
              · exact hnLy (mem_of_parent_in _ st _ Ly hLy j n hj (Or.inr hc))
            have hsubRy : Ry.Sublist lG := by
              refine List.Sublist.trans ?_ hsub
              exact List.Sublist.trans (List.sublist_cons_self y Ry)
                (List.sublist_append_right Ly (y :: Ry))
            have hih := ih ((st.heap y).right) Ry hRy hsubRy hnR
            have hLy' : ∀ g, fy ≤ g → reachL g st' ((st.heap y).left) = some Ly :=
              fun g hg => reachL_frame _ st st' _ Ly hframeLy (reachL_mono _ st _ Ly g hLy hg)
            have hymem : y ∈ lG := hsub.mem (by simp)
            by_cases hc : (st.heap y).right = some n
            · have hpar : (st.heap n).parent = some y := (hCPn y hymem).2 hc
              obtain ⟨h1, h2⟩ := (hSpp y hpar).2 hyLn
              rw [if_pos hc] at hih
              have hbl : reachL (fy+1) st' ((st'.heap y).left) = some Ly := by
                rw [h2]; exact hLy' (fy+1) (by omega)
              have hbr : reachL (fy+1) st' ((st'.heap y).right) = some Ry := by
                rw [h1]; exact hih
              exact reachL_build _ st' y Ly Ry hbl hbr
            · have hnotp : ¬ (st.heap n).parent = some y := by
                intro hpj
                rcases hPCn y hpj with hcc | hcc
                · exact hyLn hcc
                · exact hc hcc
              obtain ⟨hyL', hyR'⟩ := hF y hyn hyr hnotp
              rw [if_neg hc] at hih
              have hbl : reachL (fy+1) st' ((st'.heap y).left) = some Ly := by
                rw [hyL']; exact hLy' (fy+1) (by omega)
              have hbr : reachL (fy+1) st' ((st'.heap y).right) = some Ry := by
                rw [hyR']; exact hih
              exact reachL_build _ st' y Ly Ry hbl hbr

end Goods

namespace Goods

theorem rotBaseL {α : Type} (st st' : RedBlackTree α) (n r : Nat)
    (hr : (st.heap n).right = some r)
    (hPCn : ∀ q, (st.heap n).parent = some q →
      (st.heap q).left = some n ∨ (st.heap q).right = some n)
    (hSnL : (st'.heap n).left = (st.heap n).left)
    (hSnR : (st'.heap n).right = (st.heap r).left)
    (hSrL : (st'.heap r).left = some n)
    (hSrR : (st'.heap r).right = (st.heap r).right)
    (hF : ∀ j, j ≠ n → j ≠ r → ¬ (st.heap n).parent = some j →
      (st'.heap j).left = (st.heap j).left ∧ (st'.heap j).right = (st.heap j).right) :
    ∀ fuel (lx : List Nat), reachL fuel st (some n) = some lx → lx.Nodup →
      reachL (fuel+1) st' (some r) = some lx := by
  intro fuel lx h hndx
  obtain ⟨f1, A, RR, hf1, hA, hRR, rfl⟩ := reachL_destruct _ st n _ h
  subst hf1
  rw [hr] at hRR
  obtain ⟨f2, B, C, hf2, hB, hC, rfl⟩ := reachL_destruct _ st r _ hRR
  subst hf2
  have hppNot : ∀ j ∈ A ++ n :: (B ++ r :: C), ¬ (st.heap n).parent = some j := by
    intro j hj hpj
    have := no_child_up _ st n _ h hndx j hj
    rcases hPCn j hpj with hc | hc
    · exact this.1 hc
    · exact this.2 hc
  have hnA : n ∉ A := by
    intro hmem
    have := List.disjoint_of_nodup_append hndx hmem
    simp at this
  have hndTail : (n :: (B ++ r :: C)).Nodup := (List.nodup_append.mp hndx).2.1
  have hyTail : n ∉ B ++ r :: C := (List.nodup_cons.mp hndTail).1
  have hyB : n ∉ B := fun hh => hyTail (List.mem_append.mpr (Or.inl hh))
  have hyC : n ∉ C := fun hh =>
    hyTail (List.mem_append.mpr (Or.inr (List.mem_cons.mpr (Or.inr hh))))
  have hrA : r ∉ A := by
    intro hmem
    have := List.disjoint_of_nodup_append hndx hmem
    simp at this
  have hndBC : (B ++ r :: C).Nodup := (List.nodup_cons.mp hndTail).2
  have hrB : r ∉ B := by
    intro hmem
    have := List.disjoint_of_nodup_append hndBC hmem
    simp at this
  have hrC : r ∉ C := (List.nodup_cons.mp (List.nodup_append.mp hndBC).2.1).1
  have hframeA : ∀ j ∈ A, (st'.heap j).left = (st.heap j).left ∧
      (st'.heap j).right = (st.heap j).right := by
    intro j hj
    refine hF j (fun hh => hnA (hh ▸ hj)) (fun hh => hrA (hh ▸ hj)) ?_
    exact hppNot j (List.mem_append.mpr (Or.inl hj))
  have hframeB : ∀ j ∈ B, (st'.heap j).left = (st.heap j).left ∧
      (st'.heap j).right = (st.heap j).right := by
    intro j hj
    refine hF j (fun hh => hyB (hh ▸ hj)) (fun hh => hrB (hh ▸ hj)) ?_
    exact hppNot j (by simp [hj])
  have hframeC : ∀ j ∈ C, (st'.heap j).left = (st.heap j).left ∧
      (st'.heap j).right = (st.heap j).right := by
    intro j hj
    refine hF j (fun hh => hyC (hh ▸ hj)) (fun hh => hrC (hh ▸ hj)) ?_
    exact hppNot j (by simp [hj])
  have hA' : reachL (f2+1) st' ((st'.heap n).left) = some A := by
    rw [hSnL]
    exact reachL_frame _ st st' _ A hframeA hA
  have hB' : reachL (f2+1) st' ((st'.heap n).right) = some B := by
    rw [hSnR]
    exact reachL_frame _ st st' _ B hframeB (reachL_mono _ st _ B _ hB (by omega))
  have hC' : reachL (f2+2) st' ((st'.heap r).right) = some C := by
    rw [hSrR]
    exact reachL_frame _ st st' _ C hframeC (reachL_mono _ st _ C _ hC (by omega))
  have hn' : reachL (f2+2) st' (some n) = some (A ++ n :: B) :=
    reachL_build _ st' n A B hA' hB'
  have hrleft : reachL (f2+2) st' ((st'.heap r).left) = some (A ++ n :: B) := by
    rw [hSrL]; exact hn'
  have := reachL_build (f2+2) st' r (A ++ n :: B) C hrleft hC'
  rw [this]
  simp

theorem rotBaseR {α : Type} (st st' : RedBlackTree α) (n l0 : Nat)
    (hl0 : (st.heap n).left = some l0)
    (hPCn : ∀ q, (st.heap n).parent = some q →
      (st.heap q).left = some n ∨ (st.heap q).right = some n)
    (hSnR : (st'.heap n).right = (st.heap n).right)
    (hSnL : (st'.heap n).left = (st.heap l0).right)
    (hSlR : (st'.heap l0).right = some n)
    (hSlL : (st'.heap l0).left = (st.heap l0).left)
    (hF : ∀ j, j ≠ n → j ≠ l0 → ¬ (st.heap n).parent = some j →
      (st'.heap j).left = (st.heap j).left ∧ (st'.heap j).right = (st.heap j).right) :
    ∀ fuel (lx : List Nat), reachL fuel st (some n) = some lx → lx.Nodup →
      reachL (fuel+1) st' (some l0) = some lx := by
  intro fuel lx h hndx
  obtain ⟨f1, LL, C, hf1, hLL, hC, rfl⟩ := reachL_destruct _ st n _ h
  subst hf1
  rw [hl0] at hLL
  obtain ⟨f2, A, B, hf2, hA, hB, rfl⟩ := reachL_destruct _ st l0 _ hLL
  subst hf2
  have hppNot : ∀ j ∈ (A ++ l0 :: B) ++ n :: C, ¬ (st.heap n).parent = some j := by
    intro j hj hpj
    have := no_child_up _ st n _ h hndx j hj
    rcases hPCn j hpj with hc | hc
    · exact this.1 hc
    · exact this.2 hc
  have hnAB : n ∉ A ++ l0 :: B := by
    intro hmem
    have := List.disjoint_of_nodup_append hndx hmem
    simp at this
  have hnA : n ∉ A := fun hh => hnAB (List.mem_append.mpr (Or.inl hh))
  have hnB : n ∉ B := fun hh =>
    hnAB (List.mem_append.mpr (Or.inr (List.mem_cons.mpr (Or.inr hh))))
  have hnl0 : ¬ n = l0 := fun hh =>
    hnAB (List.mem_append.mpr (Or.inr (List.mem_cons.mpr (Or.inl hh))))
  have hndAB : (A ++ l0 :: B).Nodup := (List.nodup_append.mp hndx).1
  have hlA : l0 ∉ A := by
    intro hmem
    have := List.disjoint_of_nodup_append hndAB hmem
    simp at this
  have hlB : l0 ∉ B := (List.nodup_cons.mp (List.nodup_append.mp hndAB).2.1).1
  have hlC : l0 ∉ C := by
    intro hmem
    have := List.disjoint_of_nodup_append hndx
      (List.mem_append.mpr (Or.inr (List.mem_cons.mpr (Or.inl rfl))))
    simp [hmem] at this
  have hnC : n ∉ C := by
    have : (n :: C).Nodup := (List.nodup_append.mp hndx).2.1
    exact (List.nodup_cons.mp this).1
  have hframeA : ∀ j ∈ A, (st'.heap j).left = (st.heap j).left ∧
      (st'.heap j).right = (st.heap j).right := by
    intro j hj
    refine hF j (fun hh => hnA (hh ▸ hj)) (fun hh => hlA (hh ▸ hj)) ?_
    exact hppNot j (by simp [hj])
  have hframeB : ∀ j ∈ B, (st'.heap j).left = (st.heap j).left ∧
      (st'.heap j).right = (st.heap j).right := by
    intro j hj
    refine hF j (fun hh => hnB (hh ▸ hj)) (fun hh => hlB (hh ▸ hj)) ?_
    exact hppNot j (by simp [hj])
  have hframeC : ∀ j ∈ C, (st'.heap j).left = (st.heap j).left ∧
      (st'.heap j).right = (st.heap j).right := by
    intro j hj
    refine hF j (fun hh => hnC (hh ▸ hj)) (fun hh => hlC (hh ▸ hj)) ?_
    exact hppNot j (by simp [hj])
  have hB' : reachL (f2+1) st' ((st'.heap n).left) = some B := by
    rw [hSnL]
    exact reachL_frame _ st st' _ B hframeB (reachL_mono _ st _ B _ hB (by omega))
  have hC' : reachL (f2+1) st' ((st'.heap n).right) = some C := by
    rw [hSnR]
    exact reachL_frame _ st st' _ C hframeC (reachL_mono _ st _ C _ hC (by omega))
  have hA' : reachL (f2+2) st' ((st'.heap l0).left) = some A := by
    rw [hSlL]
    exact reachL_frame _ st st' _ A hframeA (reachL_mono _ st _ A _ hA (by omega))
  have hn' : reachL (f2+2) st' (some n) = some (B ++ n :: C) := by
    refine reachL_build _ st' n B C ?_ ?_
    · exact reachL_mono _ st' _ B _ hB' (by omega)
    · exact hC'
  have hlright : reachL (f2+2) st' ((st'.heap l0).right) = some (B ++ n :: C) := by
    rw [hSlR]; exact hn'
  have := reachL_build (f2+2) st' l0 A (B ++ n :: C) hA' hlright
  rw [this]
  simp

end Goods

namespace Goods

theorem matchCP {P : Nat → Prop} (o : Option Nat) :
    (∀ c, o = some c → P c) → (match o with | none => True | some c => P c) := by
  cases o with
  | none => exact fun _ => trivial
  | some c => exact fun h => h c rfl

theorem children_distinct {α : Type} (g : Nat) (st : RedBlackTree α) (i : Nat) (li : List Nat)
    (h : reachL g st (some i) = some li) (hnd : li.Nodup) (c c2 : Nat)
    (hl : (st.heap i).left = some c) (hr2 : (st.heap i).right = some c2) : c ≠ c2 := by
  obtain ⟨f, L, R, hf, hL, hR, rfl⟩ := reachL_destruct _ st i _ h
  rw [hl] at hL
  rw [hr2] at hR
  have hcL : c ∈ L := reachL_self_mem _ st c L hL
  have hc2R : c2 ∈ R := reachL_self_mem _ st c2 R hR
  intro hh
  subst hh
  have := List.disjoint_of_nodup_append hnd hcL
  simp [hc2R] at this

theorem rotateLeft_wf {α : Type} (st st' : RedBlackTree α) (f : Nat) (l : List Nat) (n r : Nat)
    (hwf : Wf st f l) (hn : n ∈ l)
    (hr : (st.heap n).right = some r)
    (hrot : rotateLeft st n = Res.ok st') :
    Wf st' (f+1) l ∧ (∀ j, (st'.heap j).elem = (st.heap j).elem) ∧
    (st.root = some n → st'.root = some r) ∧ (¬ st.root = some n → st'.root = st.root) := by
  obtain ⟨g, ln, hg, hren, hsubn⟩ := reachL_sub f st st.root l n hwf.reach hn
  have hndln : ln.Nodup := hsubn.nodup hwf.nodup
  have hNCU := no_child_up g st n ln hren hndln
  have hmemn : n ∈ ln := reachL_self_mem g st n ln hren
  have hrln : r ∈ ln := reachL_child_mem g st n ln hren r (Or.inr hr)
  have hrl_in_l : r ∈ l := hsubn.mem hrln
  obtain ⟨g2, lr, hg2, hrer, hsubr⟩ := reachL_sub g st (some n) ln r hren hrln
  have hndlr : lr.Nodup := hsubr.nodup hndln
  have hPCn : ∀ q, (st.heap n).parent = some q →
      (st.heap q).left = some n ∨ (st.heap q).right = some n := by
    intro q hq
    have := hwf.parentChild n hn
    rw [hq] at this
    exact this
  have hCPn : ∀ q ∈ l, ((st.heap q).left = some n → (st.heap n).parent = some q) ∧
      ((st.heap q).right = some n → (st.heap n).parent = some q) := by
    intro q hq
    constructor
    · intro hc
      have := (hwf.childParent q hq).1
      rw [hc] at this
      exact this
    · intro hc
      have := (hwf.childParent q hq).2
      rw [hc] at this
      exact this
  have hCP : ∀ q ∈ l, (∀ c, (st.heap q).left = some c → (st.heap c).parent = some q) ∧
      (∀ c, (st.heap q).right = some c → (st.heap c).parent = some q) := by
    intro q hq
    constructor
    · intro c hc
      have := (hwf.childParent q hq).1
      rw [hc] at this
      exact this
    · intro c hc
      have := (hwf.childParent q hq).2
      rw [hc] at this
      exact this
  have hnr : n ≠ r := by
    intro hh
    rw [← hh] at hr
    exact (hNCU n hmemn).2 hr
  have hpn : ∀ pp, (st.heap n).parent = some pp → pp ≠ n ∧ pp ≠ r := by
    intro pp hpp
    constructor
    · intro hh
      subst hh
      rcases hPCn pp hpp with hc | hc
      · exact (hNCU pp hmemn).1 hc
      · exact (hNCU pp hmemn).2 hc
    · intro hh
      subst hh
      rcases hPCn pp hpp with hc | hc
      · exact (hNCU pp hrln).1 hc
      · exact (hNCU pp hrln).2 hc
  have hrlfacts : ∀ rl, (st.heap r).left = some rl →
      rl ≠ n ∧ rl ≠ r ∧ ∀ pp, (st.heap n).parent = some pp → rl ≠ pp := by
    intro rl hbrl
    have hrlmem : rl ∈ lr := reachL_child_mem _ st r lr hrer rl (Or.inl hbrl)
    have hrlln : rl ∈ ln := hsubr.mem hrlmem
    refine ⟨?_, ?_, ?_⟩
    · intro hh
      rw [hh] at hbrl
      exact (hNCU r hrln).1 hbrl
    · intro hh
      rw [hh] at hbrl
      exact (no_child_up _ st r lr hrer hndlr r (reachL_self_mem _ st r lr hrer)).1 hbrl
    · intro pp hpp hh
      have hppln : pp ∈ ln := hh ▸ hrlln
      rcases hPCn pp hpp with hc | hc
      · exact (hNCU pp hppln).1 hc
      · exact (hNCU pp hppln).2 hc
  obtain ⟨S1, S2, S3, S4, S5, S6⟩ := rotateLeft_spec st st' n r hr hrot hnr hpn hrlfacts
  have hF : ∀ j, j ≠ n → j ≠ r → ¬ (st.heap n).parent = some j →
      (st'.heap j).left = (st.heap j).left ∧ (st'.heap j).right = (st.heap j).right := by
    intro j hjn hjr hjp
    by_cases hjb : (st.heap r).left = some j
    · exact ⟨(S4 j hjb).2.1, (S4 j hjb).2.2.1⟩
    · rw [S6 j hjn hjr hjb hjp]
      exact ⟨rfl, rfl⟩
  have hE : ∀ j, (st'.heap j).elem = (st.heap j).elem := by
    intro j
    by_cases hjn : j = n
    · subst hjn; exact S2.2.2.2.1
    by_cases hjr : j = r
    · subst hjr; exact S3.2.2.2.1
    by_cases hjb : (st.heap r).left = some j
    · exact (S4 j hjb).2.2.2.1
    by_cases hjp : (st.heap n).parent = some j
    · by_cases hside : (st.heap j).left = some n
      · exact ((S5 j hjp).1 hside).2.2.2.1
      · exact ((S5 j hjp).2 hside).2.2.2.1
    · rw [S6 j hjn hjr hjb hjp]
  have hP : ∀ j, j ≠ n → j ≠ r → ¬ (st.heap r).left = some j →
      (st'.heap j).parent = (st.heap j).parent := by
    intro j hjn hjr hjb
    by_cases hjp : (st.heap n).parent = some j
    · by_cases hside : (st.heap j).left = some n
      · exact ((S5 j hjp).1 hside).2.2.1
      · exact ((S5 j hjp).2 hside).2.2.1
    · rw [S6 j hjn hjr hjb hjp]
  have hSpp' : ∀ pp, (st.heap n).parent = some pp →
      ((st.heap pp).left = some n →
        (st'.heap pp).left = some r ∧ (st'.heap pp).right = (st.heap pp).right) ∧
      (¬ (st.heap pp).left = some n →
        (st'.heap pp).right = some r ∧ (st'.heap pp).left = (st.heap pp).left) := by
    intro pp hpp
    exact ⟨fun hs => ⟨((S5 pp hpp).1 hs).1, ((S5 pp hpp).1 hs).2.1⟩,
      fun hs => ⟨((S5 pp hpp).2 hs).1, ((S5 pp hpp).2 hs).2.1⟩⟩
  have hnu : ∀ g3 ln2, reachL g3 st (some n) = some ln2 → r ∈ ln2 :=
    fun g3 ln2 hre => reachL_child_mem _ st n ln2 hre r (Or.inr hr)
  have hBase := rotBaseL st st' n r hr hPCn S2.1 S2.2.1 S3.1 S3.2.1 hF
  have hreach' := rot_ind st st' n r l hwf.nodup hnu hPCn hCPn hSpp' hF hBase f st.root l
    hwf.reach (List.Sublist.refl l) hn
  have hrparent : (st.heap r).parent = some n := (hCP n hn).2 r hr
  have hroots : (st.root = some n → st'.root = some r) ∧
      (¬ st.root = some n → st'.root = st.root) := by
    constructor
    · intro hrn
      have hpar0 : (st.heap n).parent = none := by
        have := hwf.rootParent
        rw [hrn] at this
        exact this
      rw [S1, hpar0]
    · intro hrn
      cases hq : (st.heap n).parent with
      | some pp => rw [S1, hq]
      | none =>
        exfalso
        rcases reachL_owner f st st.root l n hwf.reach hn with heq | ⟨q, hqm, hside⟩
        · exact hrn heq
        · rcases hside with hs | hs
          · have := (hCPn q hqm).1 hs
            rw [this] at hq
            cases hq
          · have := (hCPn q hqm).2 hs
            rw [this] at hq
            cases hq
  refine ⟨?_, hE, hroots.1, hroots.2⟩
  refine ⟨?_, hwf.nodup, ?_, ?_, ?_⟩
  · by_cases hrn : st.root = some n
    · rw [hroots.1 hrn]
      rw [hrn, if_pos rfl] at hreach'
      exact hreach'
    · rw [hroots.2 hrn]
      rw [if_neg (by intro hh; exact hrn hh)] at hreach'
      exact hreach'
  · intro i hi
    constructor
    · refine matchCP _ ?_
      intro c hc
      by_cases hin : i = n
      · rw [hin] at hc ⊢
        rw [S2.1] at hc
        by_cases hcrl : (st.heap r).left = some c
        · exact (S4 c hcrl).1
        · have hcln : c ∈ ln := reachL_child_mem g st n ln hren c (Or.inl hc)
          have hcn : c ≠ n := fun hh => (hNCU n hmemn).1 (hh ▸ hc)
          have hcr : c ≠ r := children_distinct g st n ln hren hndln c r hc hr
          have hcp : ¬ (st.heap n).parent = some c := by
            intro hq
            rcases hPCn c hq with hcc | hcc
            · exact (hNCU c hcln).1 hcc
            · exact (hNCU c hcln).2 hcc
          rw [S6 c hcn hcr hcrl hcp]
          exact (hCP n hn).1 c hc
      by_cases hir : i = r
      · rw [hir] at hc ⊢
        rw [S3.1] at hc
        have hc2 : c = n := (Option.some.inj hc).symm
        rw [hc2]
        exact S2.2.2.1
      by_cases hip : (st.heap n).parent = some i
      · have hin2 : i ≠ n := (hpn i hip).1
        have hir2 : i ≠ r := (hpn i hip).2
        by_cases hside : (st.heap i).left = some n
        · have h5 := (S5 i hip).1 hside
          rw [h5.1] at hc
          have hc2 : c = r := (Option.some.inj hc).symm
          rw [hc2, S3.2.2.1]
          exact hip
        · have h5 := (S5 i hip).2 hside
          rw [h5.2.1] at hc
          have hcn : c ≠ n := fun hh => hside (hh ▸ hc)
          have hcr : c ≠ r := by
            intro hh
            subst hh
            have h1 := (hCP i hi).1 c hc
            rw [hrparent] at h1
            exact hin2 (Option.some.inj h1).symm
          have hcrl : ¬ (st.heap r).left = some c := by
            intro hh
            have h1 := (hCP r hrl_in_l).1 c hh
            have h2 := (hCP i hi).1 c hc
            rw [h1] at h2
            exact hir2 (Option.some.inj h2).symm
          have hcpn : ¬ (st.heap n).parent = some c := by
            intro hq
            rw [hip] at hq
            have hci : i = c := Option.some.inj hq
            rw [← hci] at hc
            obtain ⟨gi, li2, hgi, hrei, hsubi⟩ := reachL_sub f st st.root l i hwf.reach hi
            exact (no_child_up gi st i li2 hrei (hsubi.nodup hwf.nodup) i
              (reachL_self_mem _ st i li2 hrei)).1 hc
          rw [S6 c hcn hcr hcrl hcpn]
          exact (hCP i hi).1 c hc
      · obtain ⟨hiL, hiR⟩ := hF i hin hir hip
        rw [hiL] at hc
        have hcn : c ≠ n := by
          intro hh
          subst hh
          exact hip ((hCPn i hi).1 hc)
        have hcr : c ≠ r := by
          intro hh
          subst hh
          have h1 := (hCP i hi).1 c hc
          rw [hrparent] at h1
          exact hin (Option.some.inj h1).symm
        by_cases hcrl : (st.heap r).left = some c
        · exfalso
          have h1 := (hCP i hi).1 c hc
          have h2 := (hCP r hrl_in_l).1 c hcrl
          rw [h1] at h2
          exact hir (Option.some.inj h2)
        by_cases hcpn2 : (st.heap n).parent = some c
        · have hpres : (st'.heap c).parent = (st.heap c).parent := by
            by_cases hside : (st.heap c).left = some n
            · exact ((S5 c hcpn2).1 hside).2.2.1
            · exact ((S5 c hcpn2).2 hside).2.2.1
          rw [hpres]
          exact (hCP i hi).1 c hc
        · rw [S6 c hcn hcr hcrl hcpn2]
          exact (hCP i hi).1 c hc
    · refine matchCP _ ?_
      intro c hc
      by_cases hin : i = n
      · rw [hin] at hc ⊢
        rw [S2.2.1] at hc
        exact (S4 c hc).1
      by_cases hir : i = r
      · rw [hir] at hc ⊢
        rw [S3.2.1] at hc
        have hclr : c ∈ lr := reachL_child_mem _ st r lr hrer c (Or.inr hc)
        have hcln : c ∈ ln := hsubr.mem hclr
        have hcn : c ≠ n := fun hh => (hNCU r hrln).2 (hh ▸ hc)
        have hcr : c ≠ r := by
          intro hh
          rw [hh] at hc
          exact (no_child_up _ st r lr hrer hndlr r (reachL_self_mem _ st r lr hrer)).2 hc
        have hcrl : ¬ (st.heap r).left = some c := by
          intro hh
          exact absurd rfl (children_distinct _ st r lr hrer hndlr c c hh hc)
        have hcp : ¬ (st.heap n).parent = some c := by
          intro hq
          rcases hPCn c hq with hcc | hcc
          · exact (hNCU c hcln).1 hcc
          · exact (hNCU c hcln).2 hcc
        rw [S6 c hcn hcr hcrl hcp]
        exact (hCP r hrl_in_l).2 c hc
      by_cases hip : (st.heap n).parent = some i
      · have hin2 : i ≠ n := (hpn i hip).1
        have hir2 : i ≠ r := (hpn i hip).2
        obtain ⟨gi, li2, hgi, hrei, hsubi⟩ := reachL_sub f st st.root l i hwf.reach hi
        have hndli2 : li2.Nodup := hsubi.nodup hwf.nodup
        by_cases hside : (st.heap i).left = some n
        · have h5 := (S5 i hip).1 hside
          rw [h5.2.1] at hc
          have hcn : c ≠ n :=
            (children_distinct gi st i li2 hrei hndli2 n c hside hc).symm
          have hcr : c ≠ r := by
            intro hh
            subst hh
            have h1 := (hCP i hi).2 c hc
            rw [hrparent] at h1
            exact hin2 (Option.some.inj h1).symm
          have hcrl : ¬ (st.heap r).left = some c := by
            intro hh
            have h1 := (hCP r hrl_in_l).1 c hh
            have h2 := (hCP i hi).2 c hc
            rw [h1] at h2
            exact hir2 (Option.some.inj h2).symm
          have hcpn : ¬ (st.heap n).parent = some c := by
            intro hq
            rw [hip] at hq
            have hci : i = c := Option.some.inj hq
            rw [← hci] at hc
            exact (no_child_up gi st i li2 hrei hndli2 i
              (reachL_self_mem _ st i li2 hrei)).2 hc
          rw [S6 c hcn hcr hcrl hcpn]
          exact (hCP i hi).2 c hc
        · have h5 := (S5 i hip).2 hside
          rw [h5.1] at hc
          have hc2 : c = r := (Option.some.inj hc).symm
          rw [hc2, S3.2.2.1]
          exact hip
      · obtain ⟨hiL, hiR⟩ := hF i hin hir hip
        rw [hiR] at hc
        have hcn : c ≠ n := by
          intro hh
          subst hh
          exact hip ((hCPn i hi).2 hc)
        have hcr : c ≠ r := by
          intro hh
          subst hh
          have h1 := (hCP i hi).2 c hc
          rw [hrparent] at h1
          exact hin (Option.some.inj h1).symm
        by_cases hcrl : (st.heap r).left = some c
        · exfalso
          have h1 := (hCP i hi).2 c hc
          have h2 := (hCP r hrl_in_l).1 c hcrl
          rw [h1] at h2
          exact hir (Option.some.inj h2)
        by_cases hcpn2 : (st.heap n).parent = some c
        · have hpres : (st'.heap c).parent = (st.heap c).parent := by
            by_cases hside : (st.heap c).left = some n
            · exact ((S5 c hcpn2).1 hside).2.2.1
            · exact ((S5 c hcpn2).2 hside).2.2.1
          rw [hpres]
          exact (hCP i hi).2 c hc
        · rw [S6 c hcn hcr hcrl hcpn2]
          exact (hCP i hi).2 c hc
  · intro i hi
    refine matchCP _ ?_
    intro q hq
    by_cases hin : i = n
    · rw [hin] at hq ⊢
      rw [S2.2.2.1] at hq
      have hq2 : q = r := (Option.some.inj hq).symm
      rw [hq2]
      left
      exact S3.1
    by_cases hir : i = r
    · rw [hir] at hq ⊢
      rw [S3.2.2.1] at hq
      by_cases hside : (st.heap q).left = some n
      · left
        exact ((S5 q hq).1 hside).1
      · right
        exact ((S5 q hq).2 hside).1
    by_cases hirl : (st.heap r).left = some i
    · rw [(S4 i hirl).1] at hq
      have hq2 : q = n := (Option.some.inj hq).symm
      rw [hq2]
      right
      rw [S2.2.1]
      exact hirl
    · rw [hP i hin hir hirl] at hq
      have horig : (st.heap q).left = some i ∨ (st.heap q).right = some i := by
        have h0 := hwf.parentChild i hi
        rw [hq] at h0
        exact h0
      by_cases hqn : q = n
      · rw [hqn] at horig ⊢
        rcases horig with hh | hh
        · left
          rw [S2.1]
          exact hh
        · exfalso
          rw [hr] at hh
          exact hir (Option.some.inj hh).symm
      by_cases hqr : q = r
      · rw [hqr] at horig ⊢
        rcases horig with hh | hh
        · exact absurd hh hirl
        · right
          rw [S3.2.1]
          exact hh
      by_cases hqp : (st.heap n).parent = some q
      · by_cases hside : (st.heap q).left = some n
        · rcases horig with hh | hh
          · exfalso
            rw [hside] at hh
            exact hin (Option.some.inj hh).symm
          · right
            rw [((S5 q hqp).1 hside).2.1]
            exact hh
        · rcases horig with hh | hh
          · left
            rw [((S5 q hqp).2 hside).2.1]
            exact hh
          · exfalso
            rcases hPCn q hqp with hcc | hcc
            · exact hside hcc
            · rw [hcc] at hh
              exact hin (Option.some.inj hh).symm
      · obtain ⟨hqL, hqR⟩ := hF q hqn hqr hqp
        rcases horig with hh | hh
        · left
          rw [hqL]
          exact hh
        · right
          rw [hqR]
          exact hh
  · by_cases hrn : st.root = some n
    · rw [hroots.1 hrn]
      show (st'.heap r).parent = none
      have hpar0 : (st.heap n).parent = none := by
        have := hwf.rootParent
        rw [hrn] at this
        exact this
      rw [S3.2.2.1, hpar0]
    · rw [hroots.2 hrn]
      cases hq : st.root with
      | none => trivial
      | some rt =>
        show (st'.heap rt).parent = none
        have hrt0 : (st.heap rt).parent = none := by
          have := hwf.rootParent
          rw [hq] at this
          exact this
        have hre2 := hwf.reach
        rw [hq] at hre2
        have hrtl : rt ∈ l := reachL_self_mem f st rt l hre2
        have hrtn : rt ≠ n := by
          intro hh
          rw [hh] at hq
          exact hrn hq
        have hrtr : rt ≠ r := by
          intro hh
          rw [hh] at hrt0
          rw [hrparent] at hrt0
          cases hrt0
        have hrtrl : ¬ (st.heap r).left = some rt := by
          intro hh
          have := (hCP r hrl_in_l).1 rt hh
          rw [hrt0] at this
          cases this
        rw [hP rt hrtn hrtr hrtrl]
        exact hrt0

theorem rotateRight_wf {α : Type} (st st' : RedBlackTree α) (f : Nat) (l : List Nat) (n l0 : Nat)
    (hwf : Wf st f l) (hn : n ∈ l)
    (hl0 : (st.heap n).left = some l0)
    (hrot : rotateRight st n = Res.ok st') :
    Wf st' (f+1) l ∧ (∀ j, (st'.heap j).elem = (st.heap j).elem) ∧
    (st.root = some n → st'.root = some l0) ∧ (¬ st.root = some n → st'.root = st.root) := by
  obtain ⟨g, ln, hg, hren, hsubn⟩ := reachL_sub f st st.root l n hwf.reach hn
  have hndln : ln.Nodup := hsubn.nodup hwf.nodup
  have hNCU := no_child_up g st n ln hren hndln
  have hmemn : n ∈ ln := reachL_self_mem g st n ln hren
  have hrln : l0 ∈ ln := reachL_child_mem g st n ln hren l0 (Or.inl hl0)
  have hrl_in_l : l0 ∈ l := hsubn.mem hrln
  obtain ⟨g2, lr, hg2, hrer, hsubr⟩ := reachL_sub g st (some n) ln l0 hren hrln
  have hndlr : lr.Nodup := hsubr.nodup hndln
  have hPCn : ∀ q, (st.heap n).parent = some q →
      (st.heap q).left = some n ∨ (st.heap q).right = some n := by
    intro q hq
    have := hwf.parentChild n hn
    rw [hq] at this
    exact this
  have hCPn : ∀ q ∈ l, ((st.heap q).left = some n → (st.heap n).parent = some q) ∧
      ((st.heap q).right = some n → (st.heap n).parent = some q) := by
    intro q hq
    constructor
    · intro hc
      have := (hwf.childParent q hq).1
      rw [hc] at this
      exact this
    · intro hc
      have := (hwf.childParent q hq).2
      rw [hc] at this
      exact this
  have hCP : ∀ q ∈ l, (∀ c, (st.heap q).left = some c → (st.heap c).parent = some q) ∧
      (∀ c, (st.heap q).right = some c → (st.heap c).parent = some q) := by
    intro q hq
    constructor
    · intro c hc
      have := (hwf.childParent q hq).1
      rw [hc] at this
      exact this
    · intro c hc
      have := (hwf.childParent q hq).2
      rw [hc] at this
      exact this
  have hnr : n ≠ l0 := by
    intro hh
    rw [← hh] at hl0
    exact (hNCU n hmemn).1 hl0
  have hpn : ∀ pp, (st.heap n).parent = some pp → pp ≠ n ∧ pp ≠ l0 := by
    intro pp hpp
    constructor
    · intro hh
      subst hh
      rcases hPCn pp hpp with hc | hc
      · exact (hNCU pp hmemn).1 hc
      · exact (hNCU pp hmemn).2 hc
    · intro hh
      subst hh
      rcases hPCn pp hpp with hc | hc
      · exact (hNCU pp hrln).1 hc
      · exact (hNCU pp hrln).2 hc
  have hrlfacts : ∀ rl, (st.heap l0).right = some rl →
      rl ≠ n ∧ rl ≠ l0 ∧ ∀ pp, (st.heap n).parent = some pp → rl ≠ pp := by
    intro rl hbrl
    have hrlmem : rl ∈ lr := reachL_child_mem _ st l0 lr hrer rl (Or.inr hbrl)
    have hrlln : rl ∈ ln := hsubr.mem hrlmem
    refine ⟨?_, ?_, ?_⟩
    · intro hh
      rw [hh] at hbrl
      exact (hNCU l0 hrln).2 hbrl
    · intro hh
      rw [hh] at hbrl
      exact (no_child_up _ st l0 lr hrer hndlr l0 (reachL_self_mem _ st l0 lr hrer)).2 hbrl
    · intro pp hpp hh
      have hppln : pp ∈ ln := hh ▸ hrlln
      rcases hPCn pp hpp with hc | hc
      · exact (hNCU pp hppln).1 hc
      · exact (hNCU pp hppln).2 hc
  obtain ⟨S1, S2, S3, S4, S5, S6⟩ := rotateRight_spec st st' n l0 hl0 hrot hnr hpn hrlfacts
  have hF : ∀ j, j ≠ n → j ≠ l0 → ¬ (st.heap n).parent = some j →
      (st'.heap j).left = (st.heap j).left ∧ (st'.heap j).right = (st.heap j).right := by
    intro j hjn hjr hjp
    by_cases hjb : (st.heap l0).right = some j
    · exact ⟨(S4 j hjb).2.1, (S4 j hjb).2.2.1⟩
    · rw [S6 j hjn hjr hjb hjp]
      exact ⟨rfl, rfl⟩
  have hE : ∀ j, (st'.heap j).elem = (st.heap j).elem := by
    intro j
    by_cases hjn : j = n
    · subst hjn; exact S2.2.2.2.1
    by_cases hjr : j = l0
    · subst hjr; exact S3.2.2.2.1
    by_cases hjb : (st.heap l0).right = some j
    · exact (S4 j hjb).2.2.2.1
    by_cases hjp : (st.heap n).parent = some j
    · by_cases hside : (st.heap j).left = some n
      · exact ((S5 j hjp).1 hside).2.2.2.1
      · exact ((S5 j hjp).2 hside).2.2.2.1
    · rw [S6 j hjn hjr hjb hjp]
  have hP : ∀ j, j ≠ n → j ≠ l0 → ¬ (st.heap l0).right = some j →
      (st'.heap j).parent = (st.heap j).parent := by
    intro j hjn hjr hjb
    by_cases hjp : (st.heap n).parent = some j
    · by_cases hside : (st.heap j).left = some n
      · exact ((S5 j hjp).1 hside).2.2.1
      · exact ((S5 j hjp).2 hside).2.2.1
    · rw [S6 j hjn hjr hjb hjp]
  have hSpp' : ∀ pp, (st.heap n).parent = some pp →
      ((st.heap pp).left = some n →
        (st'.heap pp).left = some l0 ∧ (st'.heap pp).right = (st.heap pp).right) ∧
      (¬ (st.heap pp).left = some n →
        (st'.heap pp).right = some l0 ∧ (st'.heap pp).left = (st.heap pp).left) := by
    intro pp hpp
    exact ⟨fun hs => ⟨((S5 pp hpp).1 hs).1, ((S5 pp hpp).1 hs).2.1⟩,
      fun hs => ⟨((S5 pp hpp).2 hs).1, ((S5 pp hpp).2 hs).2.1⟩⟩
  have hnu : ∀ g3 ln2, reachL g3 st (some n) = some ln2 → l0 ∈ ln2 :=
    fun g3 ln2 hre => reachL_child_mem _ st n ln2 hre l0 (Or.inl hl0)
  have hBase := rotBaseR st st' n l0 hl0 hPCn S2.1 S2.2.1 S3.1 S3.2.1 hF
  have hreach' := rot_ind st st' n l0 l hwf.nodup hnu hPCn hCPn hSpp' hF hBase f st.root l
    hwf.reach (List.Sublist.refl l) hn
  have hrparent : (st.heap l0).parent = some n := (hCP n hn).1 l0 hl0
  have hroots : (st.root = some n → st'.root = some l0) ∧
      (¬ st.root = some n → st'.root = st.root) := by
    constructor
    · intro hrn
      have hpar0 : (st.heap n).parent = none := by
        have := hwf.rootParent
        rw [hrn] at this
        exact this
      rw [S1, hpar0]
    · intro hrn
      cases hq : (st.heap n).parent with
      | some pp => rw [S1, hq]
      | none =>
        exfalso
        rcases reachL_owner f st st.root l n hwf.reach hn with heq | ⟨q, hqm, hside⟩
        · exact hrn heq
        · rcases hside with hs | hs
          · have := (hCPn q hqm).1 hs
            rw [this] at hq
            cases hq
          · have := (hCPn q hqm).2 hs
            rw [this] at hq
            cases hq
  refine ⟨?_, hE, hroots.1, hroots.2⟩
  refine ⟨?_, hwf.nodup, ?_, ?_, ?_⟩
  · by_cases hrn : st.root = some n
    · rw [hroots.1 hrn]
      rw [hrn, if_pos rfl] at hreach'
      exact hreach'
    · rw [hroots.2 hrn]
      rw [if_neg (by intro hh; exact hrn hh)] at hreach'
      exact hreach'
  · intro i hi
    constructor
    · refine matchCP _ ?_
      intro c hc
      by_cases hin : i = n
      · rw [hin] at hc ⊢
        rw [S2.2.1] at hc
        exact (S4 c hc).1
      by_cases hir : i = l0
      · rw [hir] at hc ⊢
        rw [S3.2.1] at hc
        have hclr : c ∈ lr := reachL_child_mem _ st l0 lr hrer c (Or.inl hc)
        have hcln : c ∈ ln := hsubr.mem hclr
        have hcn : c ≠ n := fun hh => (hNCU l0 hrln).1 (hh ▸ hc)
        have hcr : c ≠ l0 := by
          intro hh
          rw [hh] at hc
          exact (no_child_up _ st l0 lr hrer hndlr l0 (reachL_self_mem _ st l0 lr hrer)).1 hc
        have hcrl : ¬ (st.heap l0).right = some c := by
          intro hh
          exact absurd rfl (children_distinct _ st l0 lr hrer hndlr c c hc hh)
        have hcp : ¬ (st.heap n).parent = some c := by
          intro hq
          rcases hPCn c hq with hcc | hcc
          · exact (hNCU c hcln).1 hcc
          · exact (hNCU c hcln).2 hcc
        rw [S6 c hcn hcr hcrl hcp]
        exact (hCP l0 hrl_in_l).1 c hc
      by_cases hip : (st.heap n).parent = some i
      · have hin2 : i ≠ n := (hpn i hip).1
        have hir2 : i ≠ l0 := (hpn i hip).2
        by_cases hside : (st.heap i).left = some n
        · have h5 := (S5 i hip).1 hside
          rw [h5.1] at hc
          have hc2 : c = l0 := (Option.some.inj hc).symm
          rw [hc2, S3.2.2.1]
          exact hip
        · have h5 := (S5 i hip).2 hside
          rw [h5.2.1] at hc
          have hcn : c ≠ n := fun hh => hside (hh ▸ hc)
          have hcr : c ≠ l0 := by
            intro hh
            subst hh
            have h1 := (hCP i hi).1 c hc
            rw [hrparent] at h1
            exact hin2 (Option.some.inj h1).symm
          have hcrl : ¬ (st.heap l0).right = some c := by
            intro hh
            have h1 := (hCP l0 hrl_in_l).2 c hh
            have h2 := (hCP i hi).1 c hc
            rw [h1] at h2
            exact hir2 (Option.some.inj h2).symm
          have hcpn : ¬ (st.heap n).parent = some c := by
            intro hq
            rw [hip] at hq
            have hci : i = c := Option.some.inj hq
            rw [← hci] at hc
            obtain ⟨gi, li2, hgi, hrei, hsubi⟩ := reachL_sub f st st.root l i hwf.reach hi
            exact (no_child_up gi st i li2 hrei (hsubi.nodup hwf.nodup) i
              (reachL_self_mem _ st i li2 hrei)).1 hc
          rw [S6 c hcn hcr hcrl hcpn]
          exact (hCP i hi).1 c hc
      · obtain ⟨hiL, hiR⟩ := hF i hin hir hip
        rw [hiL] at hc
        have hcn : c ≠ n := by
          intro hh
          subst hh
          exact hip ((hCPn i hi).1 hc)
        have hcr : c ≠ l0 := by
          intro hh
          subst hh
          have h1 := (hCP i hi).1 c hc
          rw [hrparent] at h1
          exact hin (Option.some.inj h1).symm
        by_cases hcrl : (st.heap l0).right = some c
        · exfalso
          have h1 := (hCP i hi).1 c hc
          have h2 := (hCP l0 hrl_in_l).2 c hcrl
          rw [h1] at h2
          exact hir (Option.some.inj h2)
        by_cases hcpn2 : (st.heap n).parent = some c
        · have hpres : (st'.heap c).parent = (st.heap c).parent := by
            by_cases hside : (st.heap c).left = some n
            · exact ((S5 c hcpn2).1 hside).2.2.1
            · exact ((S5 c hcpn2).2 hside).2.2.1
          rw [hpres]
          exact (hCP i hi).1 c hc
        · rw [S6 c hcn hcr hcrl hcpn2]
          exact (hCP i hi).1 c hc
    · refine matchCP _ ?_
      intro c hc
      by_cases hin : i = n
      · rw [hin] at hc ⊢
        rw [S2.1] at hc
        by_cases hcrl : (st.heap l0).right = some c
        · exact (S4 c hcrl).1
        · have hcln : c ∈ ln := reachL_child_mem g st n ln hren c (Or.inr hc)
          have hcn : c ≠ n := fun hh => (hNCU n hmemn).2 (hh ▸ hc)
          have hcr : c ≠ l0 := (children_distinct g st n ln hren hndln l0 c hl0 hc).symm
          have hcp : ¬ (st.heap n).parent = some c := by
            intro hq
            rcases hPCn c hq with hcc | hcc
            · exact (hNCU c hcln).1 hcc
            · exact (hNCU c hcln).2 hcc
          rw [S6 c hcn hcr hcrl hcp]
          exact (hCP n hn).2 c hc
      by_cases hir : i = l0
      · rw [hir] at hc ⊢
        rw [S3.1] at hc
        have hc2 : c = n := (Option.some.inj hc).symm
        rw [hc2]
        exact S2.2.2.1
      by_cases hip : (st.heap n).parent = some i
      · have hin2 : i ≠ n := (hpn i hip).1
        have hir2 : i ≠ l0 := (hpn i hip).2
        obtain ⟨gi, li2, hgi, hrei, hsubi⟩ := reachL_sub f st st.root l i hwf.reach hi
        have hndli2 : li2.Nodup := hsubi.nodup hwf.nodup
        by_cases hside : (st.heap i).left = some n
        · have h5 := (S5 i hip).1 hside
          rw [h5.2.1] at hc
          have hcn : c ≠ n :=
            (children_distinct gi st i li2 hrei hndli2 n c hside hc).symm
          have hcr : c ≠ l0 := by
            intro hh
            subst hh
            have h1 := (hCP i hi).2 c hc
            rw [hrparent] at h1
            exact hin2 (Option.some.inj h1).symm
          have hcrl : ¬ (st.heap l0).right = some c := by
            intro hh
            have h1 := (hCP l0 hrl_in_l).2 c hh
            have h2 := (hCP i hi).2 c hc
            rw [h1] at h2
            exact hir2 (Option.some.inj h2).symm
          have hcpn : ¬ (st.heap n).parent = some c := by
            intro hq
            rw [hip] at hq
            have hci : i = c := Option.some.inj hq
            rw [← hci] at hc
            exact (no_child_up gi st i li2 hrei hndli2 i
              (reachL_self_mem _ st i li2 hrei)).2 hc
          rw [S6 c hcn hcr hcrl hcpn]
          exact (hCP i hi).2 c hc
        · have h5 := (S5 i hip).2 hside
          rw [h5.1] at hc
          have hc2 : c = l0 := (Option.some.inj hc).symm
          rw [hc2, S3.2.2.1]
          exact hip
      · obtain ⟨hiL, hiR⟩ := hF i hin hir hip
        rw [hiR] at hc
        have hcn : c ≠ n := by
          intro hh
          subst hh
          exact hip ((hCPn i hi).2 hc)
        have hcr : c ≠ l0 := by
          intro hh
          subst hh
          have h1 := (hCP i hi).2 c hc
          rw [hrparent] at h1
          exact hin (Option.some.inj h1).symm
        by_cases hcrl : (st.heap l0).right = some c
        · exfalso
          have h1 := (hCP i hi).2 c hc
          have h2 := (hCP l0 hrl_in_l).2 c hcrl
          rw [h1] at h2
          exact hir (Option.some.inj h2)
        by_cases hcpn2 : (st.heap n).parent = some c
        · have hpres : (st'.heap c).parent = (st.heap c).parent := by
            by_cases hside : (st.heap c).left = some n
            · exact ((S5 c hcpn2).1 hside).2.2.1
            · exact ((S5 c hcpn2).2 hside).2.2.1
          rw [hpres]
          exact (hCP i hi).2 c hc
        · rw [S6 c hcn hcr hcrl hcpn2]
          exact (hCP i hi).2 c hc
  · intro i hi
    refine matchCP _ ?_
    intro q hq
    by_cases hin : i = n
    · rw [hin] at hq ⊢
      rw [S2.2.2.1] at hq
      have hq2 : q = l0 := (Option.some.inj hq).symm
      rw [hq2]
      right
      exact S3.1
    by_cases hir : i = l0
    · rw [hir] at hq ⊢
      rw [S3.2.2.1] at hq
      by_cases hside : (st.heap q).left = some n
      · left
        exact ((S5 q hq).1 hside).1
      · right
        exact ((S5 q hq).2 hside).1
    by_cases hirl : (st.heap l0).right = some i
    · rw [(S4 i hirl).1] at hq
      have hq2 : q = n := (Option.some.inj hq).symm
      rw [hq2]
      left
      rw [S2.2.1]
      exact hirl
    · rw [hP i hin hir hirl] at hq
      have horig : (st.heap q).left = some i ∨ (st.heap q).right = some i := by
        have h0 := hwf.parentChild i hi
        rw [hq] at h0
        exact h0
      by_cases hqn : q = n
      · rw [hqn] at horig ⊢
        rcases horig with hh | hh
        · exfalso
          rw [hl0] at hh
          exact hir (Option.some.inj hh).symm
        · right
          rw [S2.1]
          exact hh
      by_cases hqr : q = l0
      · rw [hqr] at horig ⊢
        rcases horig with hh | hh
        · left
          rw [S3.2.1]
          exact hh
        · exact absurd hh hirl
      by_cases hqp : (st.heap n).parent = some q
      · by_cases hside : (st.heap q).left = some n
        · rcases horig with hh | hh
          · exfalso
            rw [hside] at hh
            exact hin (Option.some.inj hh).symm
          · right
            rw [((S5 q hqp).1 hside).2.1]
            exact hh
        · rcases horig with hh | hh
          · left
            rw [((S5 q hqp).2 hside).2.1]
            exact hh
          · exfalso
            rcases hPCn q hqp with hcc | hcc
            · exact hside hcc
            · rw [hcc] at hh
              exact hin (Option.some.inj hh).symm
      · obtain ⟨hqL, hqR⟩ := hF q hqn hqr hqp
        rcases horig with hh | hh
        · left
          rw [hqL]
          exact hh
        · right
          rw [hqR]
          exact hh
  · by_cases hrn : st.root = some n
    · rw [hroots.1 hrn]
      show (st'.heap l0).parent = none
      have hpar0 : (st.heap n).parent = none := by
        have := hwf.rootParent
        rw [hrn] at this
        exact this
      rw [S3.2.2.1, hpar0]
    · rw [hroots.2 hrn]
      cases hq : st.root with
      | none => trivial
      | some rt =>
        show (st'.heap rt).parent = none
        have hrt0 : (st.heap rt).parent = none := by
          have := hwf.rootParent
          rw [hq] at this
          exact this
        have hre2 := hwf.reach
        rw [hq] at hre2
        have hrtl : rt ∈ l := reachL_self_mem f st rt l hre2
        have hrtn : rt ≠ n := by
          intro hh
          rw [hh] at hq
          exact hrn hq
        have hrtr : rt ≠ l0 := by
          intro hh
          rw [hh] at hrt0
          rw [hrparent] at hrt0
          cases hrt0
        have hrtrl : ¬ (st.heap l0).right = some rt := by
          intro hh
          have := (hCP l0 hrl_in_l).2 rt hh
          rw [hrt0] at this
          cases this
        rw [hP rt hrtn hrtr hrtrl]
        exact hrt0

/-- C5: on a structurally well-formed tree (mutually consistent parent/child
links, root without parent), rotating a reachable node `n` whose required
child `c` is present succeeds with a state that is again well-formed over the
same in-order node list, leaves the in-order sequence of stored elements
unchanged, sets the root to `c` exactly when `n` was the root, and leaves the
root unchanged otherwise — for `rotateLeft` (right child required) and
`rotateRight` (left child required) alike. -/
theorem c5_rotations_preserve_inorder_and_links {α : Type} (st st' : RedBlackTree α)
    (f : Nat) (l : List Nat) (n c : Nat) (hwf : Wf st f l) (hn : n ∈ l) :
    ((st.heap n).right = some c → rotateLeft st n = Res.ok st' →
      Wf st' (f+1) l ∧ elemsOf st' l = elemsOf st l ∧
      (st.root = some n → st'.root = some c) ∧
      (¬ st.root = some n → st'.root = st.root)) ∧
    ((st.heap n).left = some c → rotateRight st n = Res.ok st' →
      Wf st' (f+1) l ∧ elemsOf st' l = elemsOf st l ∧
      (st.root = some n → st'.root = some c) ∧
      (¬ st.root = some n → st'.root = st.root)) := by
  constructor
  · intro hr hrot
    obtain ⟨hwf', hE, h1, h2⟩ := rotateLeft_wf st st' f l n c hwf hn hr hrot
    exact ⟨hwf', by simp [elemsOf, hE], h1, h2⟩
  · intro hl0 hrot
    obtain ⟨hwf', hE, h1, h2⟩ := rotateRight_wf st st' f l n c hwf hn hl0 hrot
    exact ⟨hwf', by simp [elemsOf, hE], h1, h2⟩

/-- Witness for C5: rotating the concrete three-node tree `w5T` left at its
root yields a well-formed state with unchanged in-order elements and the old
right child as the new root. -/
theorem c5_rotations_preserve_inorder_and_links_witness :
    Wf (okOr (rotateLeft w5T 0) w5T) 3 [1, 0, 2] ∧
    elemsOf (okOr (rotateLeft w5T 0) w5T) [1, 0, 2] = elemsOf w5T [1, 0, 2] ∧
    (okOr (rotateLeft w5T 0) w5T).root = some 2 := by
  have hwf : Wf w5T 2 [1, 0, 2] := by
    refine ⟨by decide, by decide, ?_, ?_, rfl⟩
    · intro i hi
      fin_cases hi
      · exact ⟨trivial, trivial⟩
      · exact ⟨rfl, rfl⟩
      · exact ⟨trivial, trivial⟩
    · intro i hi
      fin_cases hi
      · exact Or.inl rfl
      · trivial
      · exact Or.inr rfl
  obtain ⟨h1, h2, h3, -⟩ := (c5_rotations_preserve_inorder_and_links w5T
    (okOr (rotateLeft w5T 0) w5T) 2 [1, 0, 2] 0 2 hwf (by decide)).1 rfl rfl
  exact ⟨h1, h2, h3 rfl⟩


theorem findMin_head {α : Type} :
    ∀ (g : Nat) (st : RedBlackTree α) (i : Nat) (li : List Nat),
      reachL g st (some i) = some li →
      ∃ m, findMinF g st i = some m ∧ li.head? = some m := by
  intro g st
  induction g with
  | zero =>
    intro i li h
    cases h
  | succ f ih =>
    intro i li h
    obtain ⟨f1, L, R, hf1, hL, hR, rfl⟩ := reachL_destruct _ st i _ h
    have hff : f1 = f := by omega
    subst hff
    cases hleft : (st.heap i).left with
    | none =>
      rw [hleft, reachL_none] at hL
      have hLnil : L = [] := (Option.some.inj hL).symm
      subst hLnil
      exact ⟨i, by simp [findMinF, hleft], rfl⟩
    | some l2 =>
      rw [hleft] at hL
      obtain ⟨m, hm1, hm2⟩ := ih l2 L hL
      refine ⟨m, by simp [findMinF, hleft, hm1], ?_⟩
      cases L with
      | nil => cases hm2
      | cons a L2 =>
        have ham : a = m := Option.some.inj hm2
        rw [← ham]
        rfl

theorem findMax_last {α : Type} :
    ∀ (g : Nat) (st : RedBlackTree α) (i : Nat) (li : List Nat),
      reachL g st (some i) = some li →
      ∃ m, findMaxF g st i = some m ∧ li.getLast? = some m := by
  intro g st
  induction g with
  | zero =>
    intro i li h
    cases h
  | succ f ih =>
    intro i li h
    obtain ⟨f1, L, R, hf1, hL, hR, rfl⟩ := reachL_destruct _ st i _ h
    have hff : f1 = f := by omega
    subst hff
    cases hright : (st.heap i).right with
    | none =>
      rw [hright, reachL_none] at hR
      have hRnil : R = [] := (Option.some.inj hR).symm
      subst hRnil
      refine ⟨i, by simp [findMaxF, hright], ?_⟩
      simp
    | some r2 =>
      rw [hright] at hR
      obtain ⟨m, hm1, hm2⟩ := ih r2 R hR
      refine ⟨m, by simp [findMaxF, hright, hm1], ?_⟩
      have hRne : R ≠ [] := by
        intro hh
        rw [hh] at hm2
        cases hm2
      have hsplit : L ++ i :: R = (L ++ [i]) ++ R := by simp
      rw [hsplit, List.getLast?_append_of_ne_nil (L ++ [i]) hRne]
      exact hm2

theorem getLast_decomp {β : Type} :
    ∀ (l : List β) (m : β), l.getLast? = some m → ∃ l2, l = l2 ++ [m] := by
  intro l
  induction l with
  | nil =>
    intro m h
    cases h
  | cons a rest ih =>
    intro m h
    cases rest with
    | nil =>
      have ham : a = m := Option.some.inj h
      exact ⟨[], by simp [ham]⟩
    | cons b rest2 =>
      rw [List.getLast?_cons_cons] at h
      obtain ⟨l2, hl2⟩ := ih m h
      exact ⟨a :: l2, by rw [hl2]; rfl⟩

theorem delete_single_root {α : Type} (g : Nat) (st : RedBlackTree α) (E : α) (d : Nat)
    (hroot : st.root = some d)
    (hL : (st.heap d).left = none) (hR : (st.heap d).right = none)
    (hpar : (st.heap d).parent = none) (hblack : (st.heap d).red = false)
    (h1 : st.less E ((st.heap d).elem) = false)
    (h2 : st.less ((st.heap d).elem) E = false) :
    ∃ st2, deleteF (g+1) st E = Res.ok st2 ∧ st2.root = none ∧ st2.size = st.size - 1 := by
  have hget : getF (g+1) st E = some (some d) := by
    unfold getF
    rw [hroot]
    simp [getLoop, h1, h2]
  have hred : deleteF (g+1) st E = deleteRest (g+1) st d := by
    simp [deleteF, hget, hroot, hL]
  have hrest : deleteRest (g+1) st d =
      Res.ok { setRed st d false with root := none, size := (setRed st d false).size - 1 } := by
    simp [deleteRest, hL, hR, isRed, hblack, deleteCase1, hpar, replaceNode]
  refine ⟨_, by rw [hred, hrest], rfl, by simp⟩


theorem add_remove_single {α : Type} [Inhabited α] (lf : α → α → Bool) (E : α)
    (hirr : lf E E = false) (f g : Nat) :
    ∃ st1 st2, AddF (f+1) (New lf) E = Res.ok (st1, none) ∧
      RemoveF (g+1) st1 E = Res.ok (st2, none) ∧
      EmptyT st2 = true ∧ SizeT st2 = 0 ∧
      (∀ h1, FirstF h1 st2 = some none) ∧ (∀ h2, LastF h2 st2 = some none) := by
  have hins : insertF (f+1) (New lf) E = Res.ok (okOr (insertF 1 (New lf) E) (New lf)) := rfl
  have hroot1 : (okOr (insertF 1 (New lf) E) (New lf)).root = some 0 := rfl
  have hL1 : ((okOr (insertF 1 (New lf) E) (New lf)).heap 0).left = none := rfl
  have hR1 : ((okOr (insertF 1 (New lf) E) (New lf)).heap 0).right = none := rfl
  have hP1 : ((okOr (insertF 1 (New lf) E) (New lf)).heap 0).parent = none := rfl
  have hB1 : ((okOr (insertF 1 (New lf) E) (New lf)).heap 0).red = false := rfl
  have hsz1 : (okOr (insertF 1 (New lf) E) (New lf)).size = 1 := rfl
  have h1g : (okOr (insertF 1 (New lf) E) (New lf)).less E
      (((okOr (insertF 1 (New lf) E) (New lf)).heap 0).elem) = false := hirr
  have h2g : (okOr (insertF 1 (New lf) E) (New lf)).less
      (((okOr (insertF 1 (New lf) E) (New lf)).heap 0).elem) E = false := hirr
  obtain ⟨st2, hdel, hroot2, hsz2⟩ :=
    delete_single_root g (okOr (insertF 1 (New lf) E) (New lf)) E 0
      hroot1 hL1 hR1 hP1 hB1 h1g h2g
  have hz : st2.size = 0 := by rw [hsz2, hsz1]; decide
  have hAdd : AddF (f+1) (New lf) E = Res.ok (okOr (insertF 1 (New lf) E) (New lf), none) := by
    unfold AddF
    rw [hins]
    show Res.ok (okOr (insertF 1 (New lf) E) (New lf),
      if (New lf).size = (okOr (insertF 1 (New lf) E) (New lf)).size
      then some "Item already exists in Tree." else none) = _
    rw [if_neg (by rw [hsz1]; show ¬((0 : Int) = 1); decide)]
  have hRem : RemoveF (g+1) (okOr (insertF 1 (New lf) E) (New lf)) E = Res.ok (st2, none) := by
    unfold RemoveF
    rw [hdel]
    show Res.ok (st2,
      if (okOr (insertF 1 (New lf) E) (New lf)).size = st2.size
      then some "Item not found in Tree." else none) = _
    rw [if_neg (by rw [hsz1, hz]; decide)]
  refine ⟨_, st2, hAdd, hRem, by simp [EmptyT, hroot2], by simp [SizeT, hz], ?_, ?_⟩
  · intro h1
    simp [FirstF, EmptyT, hroot2]
  · intro h2
    simp [LastF, EmptyT, hroot2]

theorem first_last_minmax {α : Type} (st : RedBlackTree α) (fu : Nat) (l : List Nat)
    (hwf : Wf st fu l)
    (hsort : (elemsOf st l).Pairwise (fun a b => st.less a b = true))
    (rt : Nat) (hroot : st.root = some rt) :
    (∃ m, FirstF fu st = some (some ((st.heap m).elem)) ∧ l.head? = some m ∧
      ∀ j ∈ l, j ≠ m → st.less ((st.heap m).elem) ((st.heap j).elem) = true) ∧
    (∃ m, LastF fu st = some (some ((st.heap m).elem)) ∧ l.getLast? = some m ∧
      ∀ j ∈ l, j ≠ m → st.less ((st.heap j).elem) ((st.heap m).elem) = true) := by
  have hre : reachL fu st (some rt) = some l := by rw [← hroot]; exact hwf.reach
  constructor
  · obtain ⟨m, hm1, hm2⟩ := findMin_head fu st rt l hre
    refine ⟨m, by simp [FirstF, EmptyT, hroot, hm1], hm2, ?_⟩
    intro j hj hjm
    cases l with
    | nil => cases hm2
    | cons a rest =>
      have ham : a = m := Option.some.inj hm2
      rcases List.mem_cons.mp hj with hja | hjrest
      · exact absurd (hja.trans ham) hjm
      · have hp := (List.pairwise_cons.mp hsort).1
        have := hp _ (List.mem_map_of_mem (fun i => (st.heap i).elem) hjrest)
        rw [← ham]
        exact this
  · obtain ⟨m, hm1, hm2⟩ := findMax_last fu st rt l hre
    refine ⟨m, by simp [LastF, EmptyT, hroot, hm1], hm2, ?_⟩
    intro j hj hjm
    obtain ⟨l2, hl2⟩ := getLast_decomp l m hm2
    rw [hl2] at hj hsort
    have hjl2 : j ∈ l2 := by
      rcases List.mem_append.mp hj with hh | hh
      · exact hh
      · exact absurd (List.mem_singleton.mp hh) hjm
    rw [elemsOf, List.map_append] at hsort
    have hp := (List.pairwise_append.mp hsort).2.2
    exact hp _ (List.mem_map_of_mem (fun i => (st.heap i).elem) hjl2) _ (by simp)

theorem w5T_wf : Wf w5T 2 [1, 0, 2] := by
  refine ⟨by decide, by decide, ?_, ?_, rfl⟩
  · intro i hi
    fin_cases hi
    · exact ⟨trivial, trivial⟩
    · exact ⟨rfl, rfl⟩
    · exact ⟨trivial, trivial⟩
  · intro i hi
    fin_cases hi
    · exact Or.inl rfl
    · trivial
    · exact Or.inr rfl

/-- C9: inserting any element `E` (with `lf E E = false`, as for a strict
order) into the empty tree and then removing it succeeds without error and
yields an empty tree of size 0 on which `First` and `Last` return the absent
value; `First`/`Last` return absent exactly on the empty tree; and on a
well-formed tree whose in-order element sequence is sorted by the
comparator, `First` returns the minimum stored element (the head of the
in-order sequence, below every other element) and `Last` the maximum (its
last element, above every other element). -/
theorem c9_single_cycle_first_last {α : Type} [Inhabited α] :
    (∀ (lf : α → α → Bool) (E : α), lf E E = false → ∀ f g,
      ∃ st1 st2, AddF (f+1) (New lf) E = Res.ok (st1, none) ∧
        RemoveF (g+1) st1 E = Res.ok (st2, none) ∧
        EmptyT st2 = true ∧ SizeT st2 = 0 ∧
        (∀ h1, FirstF h1 st2 = some none) ∧ (∀ h2, LastF h2 st2 = some none)) ∧
    (∀ (st : RedBlackTree α) (fuel : Nat), EmptyT st = true →
      FirstF fuel st = some none ∧ LastF fuel st = some none) ∧
    (∀ (st : RedBlackTree α) (fuel : Nat), EmptyT st = false →
      FirstF fuel st ≠ some none ∧ LastF fuel st ≠ some none) ∧
    (∀ (st : RedBlackTree α) (fu : Nat) (l : List Nat), Wf st fu l →
      (elemsOf st l).Pairwise (fun a b => st.less a b = true) →
      ∀ rt, st.root = some rt →
        (∃ m, FirstF fu st = some (some ((st.heap m).elem)) ∧ l.head? = some m ∧
          ∀ j ∈ l, j ≠ m → st.less ((st.heap m).elem) ((st.heap j).elem) = true) ∧
        (∃ m, LastF fu st = some (some ((st.heap m).elem)) ∧ l.getLast? = some m ∧
          ∀ j ∈ l, j ≠ m → st.less ((st.heap j).elem) ((st.heap m).elem) = true)) := by
  refine ⟨?_, ?_, ?_, ?_⟩
  · intro lf E hirr f g
    exact add_remove_single lf E hirr f g
  · intro st fuel he
    exact ⟨by simp [FirstF, he], by simp [LastF, he]⟩
  · intro st fuel hne
    constructor
    · cases hrt : st.root with
      | none => simp [EmptyT, hrt] at hne
      | some rt =>
        simp only [FirstF, hne]
        cases hmin : findMinF fuel st rt with
        | none => simp [hrt, hmin]
        | some m => simp [hrt, hmin]
    · cases hrt : st.root with
      | none => simp [EmptyT, hrt] at hne
      | some rt =>
        simp only [LastF, hne]
        cases hmax : findMaxF fuel st rt with
        | none => simp [hrt, hmax]
        | some m => simp [hrt, hmax]
  · intro st fu l hwf hsort rt hroot
    exact first_last_minmax st fu l hwf hsort rt hroot

/-- Witness for C9: a full insert-then-delete cycle of the element 7 on the
empty integer tree, and the minimum/maximum of the concrete tree `w5T`. -/
theorem c9_single_cycle_first_last_witness :
    (∃ st1 st2, AddF 4 (New natLess) 7 = Res.ok (st1, none) ∧
      RemoveF 4 st1 7 = Res.ok (st2, none) ∧ EmptyT st2 = true ∧ SizeT st2 = 0 ∧
      FirstF 3 st2 = some none ∧ LastF 3 st2 = some none) ∧
    FirstF 2 w5T = some (some 5) ∧ LastF 2 w5T = some (some 15) := by
  obtain ⟨pa, pb, pc, pd⟩ := @c9_single_cycle_first_last Nat _
  refine ⟨?_, ?_, ?_⟩
  · obtain ⟨st1, st2, h1, h2, h3, h4, h5, h6⟩ := pa natLess 7 (by decide) 3 3
    exact ⟨st1, st2, h1, h2, h3, h4, h5 3, h6 3⟩
  · obtain ⟨⟨m1, hF1, hh1, -⟩, -⟩ := pd w5T 2 [1, 0, 2] w5T_wf (by decide) 0 rfl
    have hm1 : m1 = 1 := (Option.some.inj hh1).symm
    rw [hm1] at hF1
    exact hF1
  · obtain ⟨-, ⟨m2, hL1, hh2, -⟩⟩ := pd w5T 2 [1, 0, 2] w5T_wf (by decide) 0 rfl
    have hm2 : m2 = 2 := (Option.some.inj hh2).symm
    rw [hm2] at hL1
    exact hL1


@[simp] theorem bhAll_none {α : Type} (g : Nat) (st : RedBlackTree α) :
    bhAll g st none = some 1 := by
  cases g <;> rfl

theorem bhAll_destruct {α : Type} (g : Nat) (st : RedBlackTree α) (i : Nat) (v : Nat)
    (h : bhAll (g+1) st (some i) = some v) :
    ∃ a, bhAll g st ((st.heap i).left) = some a ∧ bhAll g st ((st.heap i).right) = some a ∧
      v = a + (if (st.heap i).red then 0 else 1) := by
  unfold bhAll at h
  cases hL : bhAll g st ((st.heap i).left) with
  | none => rw [hL] at h; cases h
  | some a =>
    cases hR : bhAll g st ((st.heap i).right) with
    | none => rw [hL, hR] at h; cases h
    | some b =>
      simp only [hL, hR] at h
      by_cases hab : a = b
      · rw [if_pos hab] at h
        exact ⟨a, rfl, by rw [← hab], (Option.some.inj h).symm⟩
      · rw [if_neg hab] at h
        cases h

theorem bhAll_build {α : Type} (g : Nat) (st : RedBlackTree α) (i : Nat) (a : Nat)
    (hL : bhAll g st ((st.heap i).left) = some a)
    (hR : bhAll g st ((st.heap i).right) = some a) :
    bhAll (g+1) st (some i) = some (a + (if (st.heap i).red then 0 else 1)) := by
  unfold bhAll
  simp [hL, hR]

theorem bhAll_pos {α : Type} :
    ∀ (g : Nat) (st : RedBlackTree α) (x : Option Nat) (v : Nat),
      bhAll g st x = some v → 1 ≤ v := by
  intro g
  induction g with
  | zero =>
    intro st x v h
    cases x with
    | none => cases h; exact le_refl 1
    | some i => cases h
  | succ f ih =>
    intro st x v h
    cases x with
    | none => cases h; exact le_refl 1
    | some i =>
      obtain ⟨a, hL, hR, rfl⟩ := bhAll_destruct f st i v h
      have := ih st ((st.heap i).left) a hL
      omega

theorem bhAll_nonnil {α : Type} (g : Nat) (st : RedBlackTree α) (x : Option Nat) (v : Nat)
    (h : bhAll g st x = some v) (h2 : 2 ≤ v) : ∃ i, x = some i := by
  cases x with
  | none =>
    rw [bhAll_none] at h
    have := Option.some.inj h
    omega
  | some i => exact ⟨i, rfl⟩

theorem bhAll_frame {α : Type} :
    ∀ (g : Nat) (st st' : RedBlackTree α) (G : Nat) (x : Option Nat) (li : List Nat),
      reachL G st x = some li →
      (∀ j ∈ li, (st'.heap j).left = (st.heap j).left ∧
        (st'.heap j).right = (st.heap j).right ∧ (st'.heap j).red = (st.heap j).red) →
      bhAll g st' x = bhAll g st x := by
  intro g
  induction g with
  | zero =>
    intro st st' G x li hre hag
    cases x <;> rfl
  | succ f ih =>
    intro st st' G x li hre hag
    cases x with
    | none => rfl
    | some i =>
      obtain ⟨G2, L, R, hG, hL, hR, rfl⟩ := reachL_destruct G st i _ hre
      have hmem : i ∈ L ++ i :: R := by simp
      obtain ⟨hiL, hiR, hiRed⟩ := hag i hmem
      have e1 : bhAll f st' ((st'.heap i).left) = bhAll f st ((st.heap i).left) := by
        rw [hiL]
        exact ih st st' G2 ((st.heap i).left) L hL
          (fun j hj => hag j (by simp [hj]))
      have e2 : bhAll f st' ((st'.heap i).right) = bhAll f st ((st.heap i).right) := by
        rw [hiR]
        exact ih st st' G2 ((st.heap i).right) R hR
          (fun j hj => hag j (by simp [hj]))
      show bhAll (f+1) st' (some i) = bhAll (f+1) st (some i)
      unfold bhAll
      rw [e1, e2, hiRed]

theorem parent_mem {α : Type} (st : RedBlackTree α) (f : Nat) (l : List Nat) (d p : Nat)
    (hwf : Wf st f l) (hd : d ∈ l) (hp : (st.heap d).parent = some p) :
    p ∈ l ∧ ((st.heap p).left = some d ∨ (st.heap p).right = some d) := by
  rcases reachL_owner f st st.root l d hwf.reach hd with heq | ⟨q, hq, hside⟩
  · exfalso
    have := hwf.rootParent
    simp only [heq] at this
    rw [hp] at this
    cases this
  · have hpar : (st.heap d).parent = some q := by
      rcases hside with hs | hs
      · have := (hwf.childParent q hq).1
        rw [hs] at this
        exact this
      · have := (hwf.childParent q hq).2
        rw [hs] at this
        exact this
    rw [hp] at hpar
    have hqp : p = q := Option.some.inj hpar
    rw [hqp]
    exact ⟨hq, hside⟩

theorem child_mem {α : Type} (st : RedBlackTree α) (f : Nat) (l : List Nat) (p c : Nat)
    (hwf : Wf st f l) (hp : p ∈ l)
    (hc : (st.heap p).left = some c ∨ (st.heap p).right = some c) : c ∈ l := by
  obtain ⟨g, lp, hg, hre, hsub⟩ := reachL_sub f st st.root l p hwf.reach hp
  exact hsub.mem (reachL_child_mem g st p lp hre c hc)

theorem setRed_Wf {α : Type} (st : RedBlackTree α) (x : Nat) (b : Bool) (f : Nat)
    (l : List Nat) (hwf : Wf st f l) : Wf (setRed st x b) f l := by
  refine ⟨?_, hwf.nodup, ?_, ?_, ?_⟩
  · have : (setRed st x b).root = st.root := rfl
    rw [this]
    exact reachL_frame f st (setRed st x b) st.root l (fun j _ => ⟨by simp, by simp⟩) hwf.reach
  · intro i hi
    have h0 := hwf.childParent i hi
    simp only [setRed_heap_left, setRed_heap_right, setRed_heap_parent]
    exact h0
  · intro i hi
    have h0 := hwf.parentChild i hi
    simp only [setRed_heap_left, setRed_heap_right, setRed_heap_parent]
    exact h0
  · have h0 := hwf.rootParent
    have hr : (setRed st x b).root = st.root := rfl
    rw [hr]
    simp only [setRed_heap_parent]
    exact h0


theorem bhAll_unique {α : Type} :
    ∀ (g g2 : Nat) (st : RedBlackTree α) (x : Option Nat) (v v2 : Nat),
      bhAll g st x = some v → bhAll g2 st x = some v2 → v = v2 := by
  intro g
  induction g with
  | zero =>
    intro g2 st x v v2 h h2
    cases x with
    | none =>
      rw [bhAll_none] at h h2
      rw [← Option.some.inj h, ← Option.some.inj h2]
    | some i => cases h
  | succ f ih =>
    intro g2 st x v v2 h h2
    cases x with
    | none =>
      rw [bhAll_none] at h h2
      rw [← Option.some.inj h, ← Option.some.inj h2]
    | some i =>
      cases g2 with
      | zero => cases h2
      | succ f2 =>
        obtain ⟨a, hL, hR, rfl⟩ := bhAll_destruct f st i v h
        obtain ⟨a2, hL2, hR2, rfl⟩ := bhAll_destruct f2 st i v2 h2
        have := ih f2 st ((st.heap i).left) a a2 hL hL2
        omega

theorem bhAll_all {α : Type} :
    ∀ (g : Nat) (st : RedBlackTree α) (G : Nat) (x : Option Nat) (li : List Nat) (v : Nat),
      reachL G st x = some li → bhAll g st x = some v →
      ∀ i ∈ li, ∃ g2 v2, bhAll g2 st (some i) = some v2 := by
  intro g
  induction g with
  | zero =>
    intro st G x li v hre hb i hi
    cases x with
    | none =>
      rw [reachL_none] at hre
      rw [← Option.some.inj hre] at hi
      cases hi
    | some q => cases hb
  | succ f ih =>
    intro st G x li v hre hb i hi
    cases x with
    | none =>
      rw [reachL_none] at hre
      rw [← Option.some.inj hre] at hi
      cases hi
    | some q =>
      obtain ⟨G2, L, R, hG, hL, hR, rfl⟩ := reachL_destruct G st q _ hre
      obtain ⟨a, hbL, hbR, rfl⟩ := bhAll_destruct f st q _ hb
      rcases List.mem_append.mp hi with hiL | hiCR
      · exact ih st G2 ((st.heap q).left) L a hL hbL i hiL
      · rcases List.mem_cons.mp hiCR with rfl | hiR
        · exact ⟨f+1, _, hb⟩
        · exact ih st G2 ((st.heap q).right) R a hR hbR i hiR

theorem bhAll_ge_two {α : Type} (g : Nat) (st : RedBlackTree α) (i : Nat) (v : Nat)
    (h : bhAll g st (some i) = some v)
    (hcase : (st.heap i).red = false ∨
      ∃ c, ((st.heap i).left = some c ∨ (st.heap i).right = some c) ∧
        (st.heap c).red = false) :
    2 ≤ v := by
  cases g with
  | zero => cases h
  | succ f =>
    obtain ⟨a, hL, hR, rfl⟩ := bhAll_destruct f st i v h
    have ha1 : 1 ≤ a := bhAll_pos f st ((st.heap i).left) a hL
    rcases hcase with hblack | ⟨c, hc, hcblack⟩
    · rw [hblack]
      simp
      omega
    · have h2a : 2 ≤ a := by
        have hcv : ∃ fc, bhAll fc st (some c) = some a := by
          rcases hc with hc | hc
          · rw [hc] at hL
            exact ⟨f, hL⟩
          · rw [hc] at hR
            exact ⟨f, hR⟩
        obtain ⟨fc, hfc⟩ := hcv
        cases fc with
        | zero => cases hfc
        | succ fc2 =>
          obtain ⟨a2, hL2, hR2, hae⟩ := bhAll_destruct fc2 st c a hfc
          have ha2 : 1 ≤ a2 := bhAll_pos fc2 st ((st.heap c).left) a2 hL2
          rw [hcblack] at hae
          simp at hae
          omega
      by_cases hri : (st.heap i).red = true
      · simp [hri]
        omega
      · simp [hri]
        omega

theorem chainOK_entry {α : Type} :
    ∀ (c : Nat) (st : RedBlackTree α) (f : Nat) (l : List Nat) (d : Nat),
      Wf st f l → NoRedRed st l →
      (∀ i ∈ l, ∃ g2 v2, bhAll g2 st (some i) = some v2) →
      d ∈ l →
      (∃ g2 v2, 2 ≤ v2 ∧ bhAll g2 st (some d) = some v2) →
      ∀ gd ld, reachL gd st (some d) = some ld → l.length < c + ld.length →
      chainOK c st d := by
  intro c
  induction c with
  | zero =>
    intro st f l d hwf hnrr hbal hd hd2 gd ld hred hlen
    exfalso
    obtain ⟨g2, ld2, hg2, hre2, hsub⟩ := reachL_sub f st st.root l d hwf.reach hd
    have he : ld2 = ld := by
      have h1 := reachL_mono g2 st (some d) ld2 (g2 + gd) hre2 (by omega)
      have h2 := reachL_mono gd st (some d) ld (g2 + gd) hred (by omega)
      rw [h1] at h2
      exact Option.some.inj h2
    rw [he] at hsub
    have := hsub.length_le
    omega
  | succ c2 ih =>
    intro st f l d hwf hnrr hbal hd hd2 gd ld hred hlen
    show chainOK (c2+1) st d
    unfold chainOK
    cases hp : (st.heap d).parent with
    | none => trivial
    | some p =>
      obtain ⟨hpmem, hside⟩ := parent_mem st f l d p hwf hd hp
      obtain ⟨gpl, lpl, hgpl, hrep, hsubp⟩ := reachL_sub f st st.root l p hwf.reach hpmem
      have hndp : lpl.Nodup := hsubp.nodup hwf.nodup
      obtain ⟨gp, vp, hbp⟩ := hbal p hpmem
      cases gp with
      | zero => cases hbp
      | succ gp2 =>
        obtain ⟨a, hbL, hbR, hvp⟩ := bhAll_destruct gp2 st p vp hbp
        obtain ⟨g2, v2, hv2, hb2⟩ := hd2
        constructor
        · rcases hside with hs | hs
          · have hda : a = v2 := by
              rw [hs] at hbL
              exact bhAll_unique gp2 g2 st (some d) a v2 hbL hb2
            obtain ⟨s, hsx⟩ := bhAll_nonnil gp2 st ((st.heap p).right) a hbR (by omega)
            refine ⟨s, gp2, a, ?_, by rw [← hsx]; exact hbR, by omega⟩
            unfold sibling
            simp only [hp]
            rw [if_pos hs]
            exact hsx
          · have hda : a = v2 := by
              rw [hs] at hbR
              exact bhAll_unique gp2 g2 st (some d) a v2 hbR hb2
            obtain ⟨s, hsx⟩ := bhAll_nonnil gp2 st ((st.heap p).left) a hbL (by omega)
            have hdsn : ¬ (st.heap p).left = some d := by
              intro hh
              exact absurd rfl (children_distinct gpl st p lpl hrep hndp d d hh hs)
            refine ⟨s, gp2, a, ?_, by rw [← hsx]; exact hbL, by omega⟩
            unfold sibling
            simp only [hp]
            rw [if_neg hdsn]
            exact hsx
        · have hdmem : d ∈ lpl := reachL_child_mem gpl st p lpl hrep d hside
          obtain ⟨gd2, ld2, hgd2, hred2, hsubd2⟩ := reachL_sub gpl st (some p) lpl d hrep hdmem
          have hlen2 : ld2.length = ld.length := by
            have h1 := reachL_mono gd2 st (some d) ld2 (gd2 + gd) hred2 (by omega)
            have h2 := reachL_mono gd st (some d) ld (gd2 + gd) hred (by omega)
            rw [h1] at h2
            rw [Option.some.inj h2]
          have hpnotin : p ∉ ld2 := by
            intro hin
            rcases hside with hs | hs
            · exact (no_child_up gd2 st d ld2 hred2 (hsubd2.nodup hndp) p hin).1 hs
            · exact (no_child_up gd2 st d ld2 hred2 (hsubd2.nodup hndp) p hin).2 hs
          have hppin : p ∈ lpl := reachL_self_mem gpl st p lpl hrep
          have hlt : ld2.length < lpl.length := by
            rcases Nat.lt_or_ge ld2.length lpl.length with h | h
            · exact h
            · exfalso
              have heq : ld2 = lpl :=
                hsubd2.eq_of_length (Nat.le_antisymm hsubd2.length_le h)
              rw [heq] at hpnotin
              exact hpnotin hppin
          have hvp2 : 2 ≤ vp := by
            by_cases hpr : (st.heap p).red = true
            · have hdb : (st.heap d).red = false := by
                have := hnrr p hpmem hpr
                rcases hside with hs | hs
                · have h1 := this.1
                  rw [hs] at h1
                  exact h1
                · have h1 := this.2
                  rw [hs] at h1
                  exact h1
              exact bhAll_ge_two (gp2+1) st p vp hbp (Or.inr ⟨d, hside, hdb⟩)
            · exact bhAll_ge_two (gp2+1) st p vp hbp
                (Or.inl (Bool.not_eq_true _ ▸ (by revert hpr; cases (st.heap p).red <;> simp)))
          apply ih st f l p hwf hnrr hbal hpmem ⟨gp2+1, vp, hvp2, hbp⟩ gpl lpl hrep
          have hle : lpl.length ≤ l.length := hsubp.length_le
          omega


theorem chainOK_destruct {α : Type} (c : Nat) (st : RedBlackTree α) (d p : Nat)
    (hp : (st.heap d).parent = some p) (h : chainOK (c+1) st d) :
    sibOK st d ∧ chainOK c st p := by
  unfold chainOK at h
  simp only [hp] at h
  exact h

theorem chainOK_build {α : Type} (c : Nat) (st : RedBlackTree α) (d p : Nat)
    (hp : (st.heap d).parent = some p) (h1 : sibOK st d) (h2 : chainOK c st p) :
    chainOK (c+1) st d := by
  unfold chainOK
  simp only [hp]
  exact ⟨h1, h2⟩

theorem setRed_red_eq {α : Type} (st : RedBlackTree α) (x : Nat) (b : Bool) (j : Nat) :
    ((setRed st x b).heap j).red = if j = x then b else (st.heap j).red := by
  by_cases h : j = x
  · subst h
    rw [setRed_heap_self, if_pos rfl]
  · rw [setRed_heap_ne st x b j h, if_neg h]

theorem reachL_unique {α : Type} (g g2 : Nat) (st : RedBlackTree α) (x : Option Nat)
    (l1 l2 : List Nat) (h1 : reachL g st x = some l1) (h2 : reachL g2 st x = some l2) :
    l1 = l2 := by
  have e1 := reachL_mono g st x l1 (g + g2) h1 (by omega)
  have e2 := reachL_mono g2 st x l2 (g + g2) h2 (by omega)
  rw [e1] at e2
  exact Option.some.inj e2

theorem chainOK_setRed_inside {α : Type} :
    ∀ (c : Nat) (st : RedBlackTree α) (f : Nat) (l : List Nat) (a x : Nat) (b : Bool),
      Wf st f l → a ∈ l →
      (∃ ga la, reachL ga st (some a) = some la ∧ x ∈ la) →
      chainOK c st a → chainOK c (setRed st x b) a := by
  intro c
  induction c with
  | zero =>
    intro st f l a x b hwf ha hx h
    exact absurd h (by unfold chainOK; exact not_false)
  | succ c2 ih =>
    intro st f l a x b hwf ha hx h
    cases hp : (st.heap a).parent with
    | none =>
      show chainOK (c2+1) (setRed st x b) a
      unfold chainOK
      simp only [setRed_heap_parent, hp]
    | some p =>
      obtain ⟨hsibOK, hchain⟩ := chainOK_destruct c2 st a p hp h
      obtain ⟨hpmem, hside⟩ := parent_mem st f l a p hwf ha hp
      obtain ⟨gpl, lpl, hgpl, hrep, hsubp⟩ := reachL_sub f st st.root l p hwf.reach hpmem
      have hndp : lpl.Nodup := hsubp.nodup hwf.nodup
      obtain ⟨G2, L, R, hG2, hL, hR, hsplit⟩ := reachL_destruct gpl st p lpl hrep
      obtain ⟨ga, la, hrea, hxla⟩ := hx
      obtain ⟨s, gs, hs, hsib, hbh, hh2⟩ := hsibOK
      have hndp2 : (L ++ p :: R).Nodup := by rw [hsplit] at hndp; exact hndp
      have hdisj : L.Disjoint (p :: R) := List.disjoint_of_nodup_append hndp2
      refine chainOK_build c2 (setRed st x b) a p
        (by rw [setRed_heap_parent]; exact hp) ⟨s, gs, hs, ?_, ?_, hh2⟩ ?_
      · rw [sibling_setRed]
        exact hsib
      · have hsib2 := hsib
        unfold sibling at hsib2
        simp only [hp] at hsib2
        rcases hside with hsd | hsd
        · rw [if_pos hsd] at hsib2
          rw [hsib2] at hR
          have hla : la = L := by
            rw [hsd] at hL
            exact reachL_unique ga G2 st (some a) la L hrea hL
          have hxL : x ∈ L := hla ▸ hxla
          have hxnotR : x ∉ R := fun hin => hdisj hxL (List.mem_cons.mpr (Or.inr hin))
          rw [bhAll_frame gs st (setRed st x b) G2 (some s) R hR
            (fun j hj => by
              rw [setRed_heap_ne st x b j (fun he => hxnotR (he ▸ hj))]
              exact ⟨rfl, rfl, rfl⟩)]
          exact hbh
        · have hanL : ¬ (st.heap a).parent = none := by rw [hp]; simp
          have hdsn : ¬ (st.heap p).left = some a := by
            intro hh
            exact absurd rfl (children_distinct gpl st p lpl hrep hndp a a hh hsd)
          rw [if_neg hdsn] at hsib2
          rw [hsib2] at hL
          have hla : la = R := by
            rw [hsd] at hR
            exact reachL_unique ga G2 st (some a) la R hrea hR
          have hxR : x ∈ R := hla ▸ hxla
          have hxnotL : x ∉ L := fun hin => hdisj hin (List.mem_cons.mpr (Or.inr hxR))
          rw [bhAll_frame gs st (setRed st x b) G2 (some s) L hL
            (fun j hj => by
              rw [setRed_heap_ne st x b j (fun he => hxnotL (he ▸ hj))]
              exact ⟨rfl, rfl, rfl⟩)]
          exact hbh
      · refine ih st f l p x b hwf hpmem ⟨gpl, lpl, hrep, ?_⟩ hchain
        rw [hsplit]
        have hlax : x ∈ la := hxla
        have : la.Sublist lpl := by
          rcases hside with hsd | hsd
          · have hla : la = L := by
              rw [hsd] at hL
              exact reachL_unique ga G2 st (some a) la L hrea hL
            rw [hla, hsplit]
            exact List.sublist_append_left L (p :: R)
          · have hla : la = R := by
              rw [hsd] at hR
              exact reachL_unique ga G2 st (some a) la R hrea hR
            rw [hla, hsplit]
            exact (List.sublist_cons_self p R).trans (List.sublist_append_right L (p :: R))
        rw [← hsplit]
        exact this.mem hxla

theorem NoRedRed_setRed_red {α : Type} (st : RedBlackTree α) (f : Nat) (l : List Nat)
    (s : Nat) (hwf : Wf st f l) (hnrr : NoRedRed st l) (hs : s ∈ l)
    (hcl : isRed st ((st.heap s).left) = false)
    (hcr : isRed st ((st.heap s).right) = false)
    (hpar : ∀ q, (st.heap s).parent = some q → (st.heap q).red = false) :
    NoRedRed (setRed st s true) l := by
  intro i hi hired
  obtain ⟨gs, ls, hgs, hres, hsubs⟩ := reachL_sub f st st.root l s hwf.reach hs
  have hnds : ls.Nodup := hsubs.nodup hwf.nodup
  have hself := no_child_up gs st s ls hres hnds s (reachL_self_mem gs st s ls hres)
  by_cases his : i = s
  · subst his
    constructor
    · rw [setRed_heap_left]
      cases hc : (st.heap i).left with
      | none => rfl
      | some c =>
        have hcs : c ≠ i := by
          intro hh
          rw [hh] at hc
          exact hself.1 hc
        show ((setRed st i true).heap c).red = false
        rw [setRed_red_eq, if_neg hcs]
        rw [hc] at hcl
        exact hcl
    · rw [setRed_heap_right]
      cases hc : (st.heap i).right with
      | none => rfl
      | some c =>
        have hcs : c ≠ i := by
          intro hh
          rw [hh] at hc
          exact hself.2 hc
        show ((setRed st i true).heap c).red = false
        rw [setRed_red_eq, if_neg hcs]
        rw [hc] at hcr
        exact hcr
  · have hired0 : (st.heap i).red = true := by
      rw [setRed_red_eq, if_neg his] at hired
      exact hired
    obtain ⟨h1, h2⟩ := hnrr i hi hired0
    constructor
    · rw [setRed_heap_left]
      cases hc : (st.heap i).left with
      | none => rfl
      | some c =>
        have hcs : c ≠ s := by
          intro hh
          rw [hh] at hc
          have hps : (st.heap s).parent = some i := by
            have := (hwf.childParent i hi).1
            rw [hc] at this
            exact this
          have := hpar i hps
          rw [this] at hired0
          cases hired0
        show ((setRed st s true).heap c).red = false
        rw [setRed_red_eq, if_neg hcs]
        rw [hc] at h1
        exact h1
    · rw [setRed_heap_right]
      cases hc : (st.heap i).right with
      | none => rfl
      | some c =>
        have hcs : c ≠ s := by
          intro hh
          rw [hh] at hc
          have hps : (st.heap s).parent = some i := by
            have := (hwf.childParent i hi).2
            rw [hc] at this
            exact this
          have := hpar i hps
          rw [this] at hired0
          cases hired0
        show ((setRed st s true).heap c).red = false
        rw [setRed_red_eq, if_neg hcs]
        rw [hc] at h2
        exact h2


theorem rotateLeft_ne_crash {α : Type} (st : RedBlackTree α) (n r : Nat)
    (h : (st.heap n).right = some r) : rotateLeft st n ≠ Res.crash := by
  unfold rotateLeft
  simp only [h]
  intro hc
  cases hc

theorem rotateRight_ne_crash {α : Type} (st : RedBlackTree α) (n l0 : Nat)
    (h : (st.heap n).left = some l0) : rotateRight st n ≠ Res.crash := by
  unfold rotateRight
  simp only [h]
  intro hc
  cases hc

theorem deleteCase6_safe {α : Type} (st : RedBlackTree α) (d p s sr : Nat)
    (hp : (st.heap d).parent = some p) (hds : d ≠ s)
    (hside : ((st.heap p).left = some d ∧ (st.heap p).right = some s ∧
        (st.heap s).right = some sr) ∨
      ((st.heap p).right = some d ∧ (st.heap p).left = some s ∧
        (st.heap s).left = some sr)) :
    deleteCase6 st d ≠ Res.crash := by
  have hsib : sibling st d = some s := by
    unfold sibling
    simp only [hp]
    rcases hside with ⟨h1, h2, h3⟩ | ⟨h1, h2, h3⟩
    · rw [if_pos h1]
      exact h2
    · rw [if_neg (by rw [h2]; intro hh; exact hds (Option.some.inj hh).symm)]
      exact h2
  intro hcrash
  unfold deleteCase6 at hcrash
  split at hcrash
  · rename_i hnone
    rw [hsib] at hnone
    cases hnone
  · rename_i s' hs'
    rw [hsib] at hs'
    have hss : s = s' := Option.some.inj hs'
    subst hss
    simp only [] at hcrash
    split at hcrash
    · rename_i hnone
      rw [setRed_heap_parent, hp] at hnone
      cases hnone
    · rename_i p' hp'
      rw [setRed_heap_parent, hp] at hp'
      have hpp : p = p' := Option.some.inj hp'
      subst hpp
      rcases hside with ⟨h1, h2, h3⟩ | ⟨h1, h2, h3⟩
      · rw [if_pos (by rw [setRed_heap_left, setRed_heap_left]; exact h1)] at hcrash
        split at hcrash
        · rename_i hnone
          rw [sibling_setRed, sibling_setRed, hsib] at hnone
          cases hnone
        · rename_i s2 hs2
          rw [sibling_setRed, sibling_setRed, hsib] at hs2
          have hss2 : s = s2 := Option.some.inj hs2
          subst hss2
          split at hcrash
          · rename_i hnone
            rw [setRed_heap_right, setRed_heap_right, h3] at hnone
            cases hnone
          · rename_i sr' hsr'
            rw [setRed_heap_right, setRed_heap_right, h3] at hsr'
            have hsrr : sr = sr' := Option.some.inj hsr'
            subst hsrr
            exact rotateLeft_ne_crash _ p s
              (by rw [setRed_heap_right, setRed_heap_right, setRed_heap_right]; exact h2)
              hcrash
      · rw [if_neg (by
          rw [setRed_heap_left, setRed_heap_left, h2]
          intro hh
          exact hds (Option.some.inj hh).symm)] at hcrash
        split at hcrash
        · rename_i hnone
          rw [sibling_setRed, sibling_setRed, hsib] at hnone
          cases hnone
        · rename_i s2 hs2
          rw [sibling_setRed, sibling_setRed, hsib] at hs2
          have hss2 : s = s2 := Option.some.inj hs2
          subst hss2
          split at hcrash
          · rename_i hnone
            rw [setRed_heap_left, setRed_heap_left, h3] at hnone
            cases hnone
          · rename_i sl' hsl'
            rw [setRed_heap_left, setRed_heap_left, h3] at hsl'
            have hsll : sr = sl' := Option.some.inj hsl'
            subst hsll
            exact rotateRight_ne_crash _ p s
              (by rw [setRed_heap_left, setRed_heap_left, setRed_heap_left]; exact h2)
              hcrash


theorem rotateLeft_ok {α : Type} (st : RedBlackTree α) (n r : Nat)
    (h : (st.heap n).right = some r) : ∃ st2, rotateLeft st n = Res.ok st2 := by
  unfold rotateLeft
  simp only [h]
  exact ⟨_, rfl⟩

theorem rotateRight_ok {α : Type} (st : RedBlackTree α) (n l0 : Nat)
    (h : (st.heap n).left = some l0) : ∃ st2, rotateRight st n = Res.ok st2 := by
  unfold rotateRight
  simp only [h]
  exact ⟨_, rfl⟩

theorem rot_hyps {α : Type} (st : RedBlackTree α) (f : Nat) (l : List Nat) (n r : Nat)
    (hwf : Wf st f l) (hn : n ∈ l)
    (hchild : (st.heap n).left = some r ∨ (st.heap n).right = some r) :
    n ≠ r ∧ (∀ pp, (st.heap n).parent = some pp → pp ≠ n ∧ pp ≠ r) ∧
    (∀ q, ((st.heap r).left = some q ∨ (st.heap r).right = some q) →
      q ≠ n ∧ q ≠ r ∧ ∀ pp, (st.heap n).parent = some pp → q ≠ pp) := by
  obtain ⟨g, ln, hg, hren, hsubn⟩ := reachL_sub f st st.root l n hwf.reach hn
  have hndln : ln.Nodup := hsubn.nodup hwf.nodup
  have hNCU := no_child_up g st n ln hren hndln
  have hmemn : n ∈ ln := reachL_self_mem g st n ln hren
  have hrln : r ∈ ln := reachL_child_mem g st n ln hren r hchild
  obtain ⟨g2, lr, hg2, hrer, hsubr⟩ := reachL_sub g st (some n) ln r hren hrln
  have hndlr : lr.Nodup := hsubr.nodup hndln
  have hPCn : ∀ q, (st.heap n).parent = some q →
      (st.heap q).left = some n ∨ (st.heap q).right = some n := by
    intro q hq
    have := hwf.parentChild n hn
    rw [hq] at this
    exact this
  refine ⟨?_, ?_, ?_⟩
  · intro hh
    rw [← hh] at hchild
    rcases hchild with hc | hc
    · exact (hNCU n hmemn).1 hc
    · exact (hNCU n hmemn).2 hc
  · intro pp hpp
    constructor
    · intro hh
      subst hh
      rcases hPCn pp hpp with hc | hc
      · exact (hNCU pp hmemn).1 hc
      · exact (hNCU pp hmemn).2 hc
    · intro hh
      subst hh
      rcases hPCn pp hpp with hc | hc
      · exact (hNCU pp hrln).1 hc
      · exact (hNCU pp hrln).2 hc
  · intro q hq
    have hqmem : q ∈ lr := reachL_child_mem g2 st r lr hrer q hq
    have hqln : q ∈ ln := hsubr.mem hqmem
    refine ⟨?_, ?_, ?_⟩
    · intro hh
      rw [hh] at hq
      rcases hq with hc | hc
      · exact (hNCU r hrln).1 hc
      · exact (hNCU r hrln).2 hc
    · intro hh
      rw [hh] at hq
      rcases hq with hc | hc
      · exact (no_child_up g2 st r lr hrer hndlr r (reachL_self_mem g2 st r lr hrer)).1 hc
      · exact (no_child_up g2 st r lr hrer hndlr r (reachL_self_mem g2 st r lr hrer)).2 hc
    · intro pp hpp hh
      have hppln : pp ∈ ln := hh ▸ hqln
      rcases hPCn pp hpp with hc | hc
      · exact (hNCU pp hppln).1 hc
      · exact (hNCU pp hppln).2 hc

theorem sib_facts {α : Type} (st : RedBlackTree α) (f : Nat) (l : List Nat) (d p s : Nat)
    (hwf : Wf st f l) (hd : d ∈ l)
    (hp : (st.heap d).parent = some p)
    (hside : ((st.heap p).left = some d ∧ (st.heap p).right = some s) ∨
             ((st.heap p).right = some d ∧ (st.heap p).left = some s)) :
    p ∈ l ∧ s ∈ l ∧ d ≠ s ∧ d ≠ p ∧ p ≠ s ∧ (st.heap s).parent = some p ∧
    sibling st d = some s := by
  obtain ⟨hpmem, -⟩ := parent_mem st f l d p hwf hd hp
  obtain ⟨gp, lp, hgp, hrep, hsubp⟩ := reachL_sub f st st.root l p hwf.reach hpmem
  have hndp : lp.Nodup := hsubp.nodup hwf.nodup
  have hNCUp := no_child_up gp st p lp hrep hndp
  have hpmem2 : p ∈ lp := reachL_self_mem gp st p lp hrep
  have hsmem : s ∈ l := by
    refine child_mem st f l p s hwf hpmem ?_
    rcases hside with ⟨-, h2⟩ | ⟨-, h2⟩
    · exact Or.inr h2
    · exact Or.inl h2
  have hds : d ≠ s := by
    rcases hside with ⟨h1, h2⟩ | ⟨h1, h2⟩
    · exact children_distinct gp st p lp hrep hndp d s h1 h2
    · exact (children_distinct gp st p lp hrep hndp s d h2 h1).symm
  have hdp : d ≠ p := by
    intro hh
    rcases hside with ⟨h1, -⟩ | ⟨h1, -⟩
    · rw [hh] at h1
      exact (hNCUp p hpmem2).1 h1
    · rw [hh] at h1
      exact (hNCUp p hpmem2).2 h1
  have hps : p ≠ s := by
    intro hh
    rcases hside with ⟨-, h2⟩ | ⟨-, h2⟩
    · rw [← hh] at h2
      exact (hNCUp p hpmem2).2 h2
    · rw [← hh] at h2
      exact (hNCUp p hpmem2).1 h2
  have hsp : (st.heap s).parent = some p := by
    rcases hside with ⟨-, h2⟩ | ⟨-, h2⟩
    · have := (hwf.childParent p hpmem).2
      rw [h2] at this
      exact this
    · have := (hwf.childParent p hpmem).1
      rw [h2] at this
      exact this
  have hsib : sibling st d = some s := by
    unfold sibling
    simp only [hp]
    rcases hside with ⟨h1, h2⟩ | ⟨h1, h2⟩
    · rw [if_pos h1]
      exact h2
    · rw [if_neg (by
        intro hh
        exact absurd rfl (children_distinct gp st p lp hrep hndp d d hh h1))]
      exact h2
  exact ⟨hpmem, hsmem, hds, hdp, hps, hsp, hsib⟩

theorem isRed_some_red {α : Type} (st : RedBlackTree α) (x : Option Nat)
    (h : isRed st x = true) : ∃ c, x = some c ∧ (st.heap c).red = true := by
  cases x with
  | none => cases h
  | some c => exact ⟨c, rfl, h⟩


theorem not_both_children {α : Type} (st : RedBlackTree α) (f : Nat) (l : List Nat)
    (p d : Nat) (hwf : Wf st f l) (hpmem : p ∈ l) :
    ¬ ((st.heap p).left = some d ∧ (st.heap p).right = some d) := by
  intro hh
  obtain ⟨gp, lp, hgp, hrep, hsubp⟩ := reachL_sub f st st.root l p hwf.reach hpmem
  exact absurd rfl
    (children_distinct gp st p lp hrep (hsubp.nodup hwf.nodup) d d hh.1 hh.2)

theorem parent_notin_subtree {α : Type} (st : RedBlackTree α) (f : Nat) (l : List Nat)
    (p s : Nat) (hwf : Wf st f l) (hsmem : s ∈ l)
    (hchild : (st.heap p).left = some s ∨ (st.heap p).right = some s) :
    ∀ gs ls, reachL gs st (some s) = some ls → p ∉ ls := by
  intro gs ls hres hin
  obtain ⟨g0, ls0, hg0, hres0, hsub0⟩ := reachL_sub f st st.root l s hwf.reach hsmem
  have he : ls = ls0 := reachL_unique gs g0 st (some s) ls ls0 hres hres0
  rw [he] at hin
  rcases hchild with hc | hc
  · exact (no_child_up g0 st s ls0 hres0 (hsub0.nodup hwf.nodup) p hin).1 hc
  · exact (no_child_up g0 st s ls0 hres0 (hsub0.nodup hwf.nodup) p hin).2 hc

theorem deleteCase5_safe {α : Type} (st : RedBlackTree α) (f : Nat) (l : List Nat)
    (d p s : Nat) (hwf : Wf st f l) (hd : d ∈ l)
    (hp : (st.heap d).parent = some p)
    (hside : ((st.heap p).left = some d ∧ (st.heap p).right = some s) ∨
             ((st.heap p).right = some d ∧ (st.heap p).left = some s))
    (hsblack : (st.heap s).red = false)
    (hneph : isRed st ((st.heap s).left) = true ∨ isRed st ((st.heap s).right) = true) :
    deleteCase5 st d ≠ Res.crash := by
  obtain ⟨hpmem, hsmem, hds, hdp, hps, hsp, hsib⟩ := sib_facts st f l d p s hwf hd hp hside
  have hsredf : isRed st (some s) = false := hsblack
  intro hcrash
  unfold deleteCase5 at hcrash
  simp only [hp] at hcrash
  rcases hside with ⟨h1, h2⟩ | ⟨h1, h2⟩
  · rw [if_pos h1] at hcrash
    simp only [hsib] at hcrash
    rw [if_pos hsredf] at hcrash
    by_cases hnl : isRed st ((st.heap s).left) = true
    · rw [if_pos hnl] at hcrash
      by_cases hfar : isRed st ((st.heap s).right) = false
      · rw [if_pos hfar] at hcrash
        obtain ⟨sl, hslx, hslred⟩ := isRed_some_red st ((st.heap s).left) hnl
        have hslmem : sl ∈ l := child_mem st f l s sl hwf hsmem (Or.inl hslx)
        simp only [setRed_heap_left, hslx] at hcrash
        obtain ⟨st2, hrot⟩ := rotateRight_ok (setRed (setRed st s true) sl false) s sl
          (by rw [setRed_heap_left, setRed_heap_left]; exact hslx)
        simp only [hrot] at hcrash
        have hwfST : Wf (setRed (setRed st s true) sl false) f l :=
          setRed_Wf _ sl false f l (setRed_Wf st s true f l hwf)
        have hSTl : ((setRed (setRed st s true) sl false).heap s).left = some sl := by
          rw [setRed_heap_left, setRed_heap_left]
          exact hslx
        obtain ⟨hnsl, hpnS, hlrS⟩ :=
          rot_hyps (setRed (setRed st s true) sl false) f l s sl hwfST hsmem (Or.inl hSTl)
        obtain ⟨S1, S2, S3, S4, S5, S6⟩ :=
          rotateRight_spec (setRed (setRed st s true) sl false) st2 s sl hSTl hrot hnsl hpnS
            (fun lr0 h => hlrS lr0 (Or.inr h))
        have hspST : ((setRed (setRed st s true) sl false).heap s).parent = some p := by
          rw [setRed_heap_parent, setRed_heap_parent]
          exact hsp
        have hpls : ¬ ((setRed (setRed st s true) sl false).heap p).left = some s := by
          rw [setRed_heap_left, setRed_heap_left, h1]
          intro hh
          exact hds (Option.some.inj hh)
        have h5 := (S5 p hspST).2 hpls
        have hpl2 : (st2.heap p).left = some d := by
          rw [h5.2.1, setRed_heap_left, setRed_heap_left]
          exact h1
        have hdsl : d ≠ sl := by
          intro hh
          have hpsl : (st.heap sl).parent = some s := by
            have h0 := (hwf.childParent s hsmem).1
            rw [hslx] at h0
            exact h0
          rw [← hh, hp] at hpsl
          exact hps (Option.some.inj hpsl)
        have hslrd : ¬ ((setRed (setRed st s true) sl false).heap sl).right = some d := by
          rw [setRed_heap_right, setRed_heap_right]
          intro hh
          have hpd : (st.heap d).parent = some sl := by
            have h0 := (hwf.childParent sl hslmem).2
            rw [hh] at h0
            exact h0
          rw [hp] at hpd
          have hpsl2 : p = sl := Option.some.inj hpd
          obtain ⟨g0, ls0, hg0, hres0, hsub0⟩ := reachL_sub f st st.root l s hwf.reach hsmem
          have hslin : sl ∈ ls0 := reachL_child_mem g0 st s ls0 hres0 sl (Or.inl hslx)
          exact parent_notin_subtree st f l p s hwf hsmem (Or.inr h2) g0 ls0 hres0
            (hpsl2 ▸ hslin)
        have hspd : ¬ ((setRed (setRed st s true) sl false).heap s).parent = some d := by
          rw [hspST]
          intro hh
          exact hdp (Option.some.inj hh).symm
        have hp2 : (st2.heap d).parent = some p := by
          rw [S6 d hds hdsl hslrd hspd, setRed_heap_parent, setRed_heap_parent]
          exact hp
        exact deleteCase6_safe st2 d p sl s hp2 hdsl (Or.inl ⟨hpl2, h5.1, S3.1⟩) hcrash
      · rw [if_neg hfar] at hcrash
        have hfr : isRed st ((st.heap s).right) = true := by
          cases hff : isRed st ((st.heap s).right)
          · exact absurd hff hfar
          · rfl
        obtain ⟨sr, hsrx, -⟩ := isRed_some_red st _ hfr
        exact deleteCase6_safe st d p s sr hp hds (Or.inl ⟨h1, h2, hsrx⟩) hcrash
    · rw [if_neg hnl] at hcrash
      have hfr : isRed st ((st.heap s).right) = true := by
        rcases hneph with h | h
        · exact absurd h hnl
        · exact h
      obtain ⟨sr, hsrx, -⟩ := isRed_some_red st _ hfr
      exact deleteCase6_safe st d p s sr hp hds (Or.inl ⟨h1, h2, hsrx⟩) hcrash
  · have hnld : ¬ (st.heap p).left = some d :=
      fun hh => not_both_children st f l p d hwf hpmem ⟨hh, h1⟩
    rw [if_neg hnld, if_pos h1] at hcrash
    simp only [hsib] at hcrash
    rw [if_pos hsredf] at hcrash
    by_cases hnr : isRed st ((st.heap s).right) = true
    · rw [if_pos hnr] at hcrash
      by_cases hfar : isRed st ((st.heap s).left) = false
      · rw [if_pos hfar] at hcrash
        obtain ⟨sr, hsrx, hsrred⟩ := isRed_some_red st ((st.heap s).right) hnr
        have hsrmem : sr ∈ l := child_mem st f l s sr hwf hsmem (Or.inr hsrx)
        simp only [setRed_heap_right, hsrx] at hcrash
        obtain ⟨st2, hrot⟩ := rotateLeft_ok (setRed (setRed st s true) sr false) s sr
          (by rw [setRed_heap_right, setRed_heap_right]; exact hsrx)
        simp only [hrot] at hcrash
        have hwfST : Wf (setRed (setRed st s true) sr false) f l :=
          setRed_Wf _ sr false f l (setRed_Wf st s true f l hwf)
        have hSTr : ((setRed (setRed st s true) sr false).heap s).right = some sr := by
          rw [setRed_heap_right, setRed_heap_right]
          exact hsrx
        obtain ⟨hnsr, hpnS, hlrS⟩ :=
          rot_hyps (setRed (setRed st s true) sr false) f l s sr hwfST hsmem (Or.inr hSTr)
        obtain ⟨S1, S2, S3, S4, S5, S6⟩ :=
          rotateLeft_spec (setRed (setRed st s true) sr false) st2 s sr hSTr hrot hnsr hpnS
            (fun rl0 h => hlrS rl0 (Or.inl h))
        have hspST : ((setRed (setRed st s true) sr false).heap s).parent = some p := by
          rw [setRed_heap_parent, setRed_heap_parent]
          exact hsp
        have hpls : ((setRed (setRed st s true) sr false).heap p).left = some s := by
          rw [setRed_heap_left, setRed_heap_left]
          exact h2
        have h5 := (S5 p hspST).1 hpls
        have hpr2 : (st2.heap p).right = some d := by
          rw [h5.2.1, setRed_heap_right, setRed_heap_right]
          exact h1
        have hdsr : d ≠ sr := by
          intro hh
          have hpsr : (st.heap sr).parent = some s := by
            have h0 := (hwf.childParent s hsmem).2
            rw [hsrx] at h0
            exact h0
          rw [← hh, hp] at hpsr
          exact hps (Option.some.inj hpsr)
        have hsrld : ¬ ((setRed (setRed st s true) sr false).heap sr).left = some d := by
          rw [setRed_heap_left, setRed_heap_left]
          intro hh
          have hpd : (st.heap d).parent = some sr := by
            have h0 := (hwf.childParent sr hsrmem).1
            rw [hh] at h0
            exact h0
          rw [hp] at hpd
          have hpsr2 : p = sr := Option.some.inj hpd
          obtain ⟨g0, ls0, hg0, hres0, hsub0⟩ := reachL_sub f st st.root l s hwf.reach hsmem
          have hsrin : sr ∈ ls0 := reachL_child_mem g0 st s ls0 hres0 sr (Or.inr hsrx)
          exact parent_notin_subtree st f l p s hwf hsmem (Or.inl h2) g0 ls0 hres0
            (hpsr2 ▸ hsrin)
        have hspd : ¬ ((setRed (setRed st s true) sr false).heap s).parent = some d := by
          rw [hspST]
          intro hh
          exact hdp (Option.some.inj hh).symm
        have hp2 : (st2.heap d).parent = some p := by
          rw [S6 d hds hdsr hsrld hspd, setRed_heap_parent, setRed_heap_parent]
          exact hp
        exact deleteCase6_safe st2 d p sr s hp2 hdsr (Or.inr ⟨hpr2, h5.1, S3.1⟩) hcrash
      · rw [if_neg hfar] at hcrash
        have hfl : isRed st ((st.heap s).left) = true := by
          cases hff : isRed st ((st.heap s).left)
          · exact absurd hff hfar
          · rfl
        obtain ⟨sl, hslx, -⟩ := isRed_some_red st _ hfl
        exact deleteCase6_safe st d p s sl hp hds (Or.inr ⟨h1, h2, hslx⟩) hcrash
    · rw [if_neg hnr] at hcrash
      have hfl : isRed st ((st.heap s).left) = true := by
        rcases hneph with h | h
        · exact h
        · exact absurd h hnr
      obtain ⟨sl, hslx, -⟩ := isRed_some_red st _ hfl
      exact deleteCase6_safe st d p s sl hp hds (Or.inr ⟨h1, h2, hslx⟩) hcrash


theorem deleteCase4_safe {α : Type} (st : RedBlackTree α) (f : Nat) (l : List Nat)
    (d p s : Nat) (hwf : Wf st f l) (hd : d ∈ l)
    (hp : (st.heap d).parent = some p)
    (hside : ((st.heap p).left = some d ∧ (st.heap p).right = some s) ∨
             ((st.heap p).right = some d ∧ (st.heap p).left = some s))
    (hsblack : (st.heap s).red = false)
    (hneph : isRed st ((st.heap d).parent) = false →
      (isRed st ((st.heap s).left) = true ∨ isRed st ((st.heap s).right) = true)) :
    deleteCase4 st d ≠ Res.crash := by
  obtain ⟨hpmem, hsmem, hds, hdp, hps, hsp, hsib⟩ := sib_facts st f l d p s hwf hd hp hside
  have hsredf : isRed st (some s) = false := hsblack
  intro hcrash
  unfold deleteCase4 at hcrash
  by_cases hpr : isRed st ((st.heap d).parent) = true
  · rw [if_pos hpr] at hcrash
    simp only [hsib] at hcrash
    rw [if_pos hsredf] at hcrash
    by_cases hnl : isRed st ((st.heap s).left) = false
    · rw [if_pos hnl] at hcrash
      by_cases hnr : isRed st ((st.heap s).right) = false
      · rw [if_pos hnr] at hcrash
        simp only [setRed_heap_parent, hp] at hcrash
        cases hcrash
      · rw [if_neg hnr] at hcrash
        have hfr : isRed st ((st.heap s).right) = true := by
          cases hff : isRed st ((st.heap s).right)
          · exact absurd hff hnr
          · rfl
        exact deleteCase5_safe st f l d p s hwf hd hp hside hsblack (Or.inr hfr) hcrash
    · rw [if_neg hnl] at hcrash
      have hfl : isRed st ((st.heap s).left) = true := by
        cases hff : isRed st ((st.heap s).left)
        · exact absurd hff hnl
        · rfl
      exact deleteCase5_safe st f l d p s hwf hd hp hside hsblack (Or.inl hfl) hcrash
  · rw [if_neg hpr] at hcrash
    have hprf : isRed st ((st.heap d).parent) = false := by
      cases hff : isRed st ((st.heap d).parent)
      · rfl
      · exact absurd hff hpr
    exact deleteCase5_safe st f l d p s hwf hd hp hside hsblack (hneph hprf) hcrash



theorem NoRedRedX_setRed_red {α : Type} (st : RedBlackTree α) (f : Nat) (l : List Nat)
    (s e1 e2 : Nat) (hwf : Wf st f l)
    (hnrr : ∀ i ∈ l, i ≠ e1 → i ≠ e2 → (st.heap i).red = true →
      isRed st ((st.heap i).left) = false ∧ isRed st ((st.heap i).right) = false)
    (hs : s ∈ l)
    (hcl : isRed st ((st.heap s).left) = false)
    (hcr : isRed st ((st.heap s).right) = false)
    (hpar : ∀ q, (st.heap s).parent = some q → (st.heap q).red = false) :
    ∀ i ∈ l, i ≠ e1 → i ≠ e2 → ((setRed st s true).heap i).red = true →
      isRed (setRed st s true) (((setRed st s true).heap i).left) = false ∧
      isRed (setRed st s true) (((setRed st s true).heap i).right) = false := by
  intro i hi hie1 hie2 hired
  obtain ⟨gs, ls, hgs, hres, hsubs⟩ := reachL_sub f st st.root l s hwf.reach hs
  have hnds : ls.Nodup := hsubs.nodup hwf.nodup
  have hself := no_child_up gs st s ls hres hnds s (reachL_self_mem gs st s ls hres)
  by_cases his : i = s
  · subst his
    constructor
    · rw [setRed_heap_left]
      cases hc : (st.heap i).left with
      | none => rfl
      | some c =>
        have hcs : c ≠ i := by
          intro hh
          rw [hh] at hc
          exact hself.1 hc
        show ((setRed st i true).heap c).red = false
        rw [setRed_red_eq, if_neg hcs]
        rw [hc] at hcl
        exact hcl
    · rw [setRed_heap_right]
      cases hc : (st.heap i).right with
      | none => rfl
      | some c =>
        have hcs : c ≠ i := by
          intro hh
          rw [hh] at hc
          exact hself.2 hc
        show ((setRed st i true).heap c).red = false
        rw [setRed_red_eq, if_neg hcs]
        rw [hc] at hcr
        exact hcr
  · have hired0 : (st.heap i).red = true := by
      rw [setRed_red_eq, if_neg his] at hired
      exact hired
    obtain ⟨h1, h2⟩ := hnrr i hi hie1 hie2 hired0
    constructor
    · rw [setRed_heap_left]
      cases hc : (st.heap i).left with
      | none => rfl
      | some c =>
        have hcs : c ≠ s := by
          intro hh
          rw [hh] at hc
          have hps : (st.heap s).parent = some i := by
            have h0 := (hwf.childParent i hi).1
            rw [hc] at h0
            exact h0
          have h0 := hpar i hps
          rw [h0] at hired0
          cases hired0
        show ((setRed st s true).heap c).red = false
        rw [setRed_red_eq, if_neg hcs]
        rw [hc] at h1
        exact h1
    · rw [setRed_heap_right]
      cases hc : (st.heap i).right with
      | none => rfl
      | some c =>
        have hcs : c ≠ s := by
          intro hh
          rw [hh] at hc
          have hps : (st.heap s).parent = some i := by
            have h0 := (hwf.childParent i hi).2
            rw [hc] at h0
            exact h0
          have h0 := hpar i hps
          rw [h0] at hired0
          cases hired0
        show ((setRed st s true).heap c).red = false
        rw [setRed_red_eq, if_neg hcs]
        rw [hc] at h2
        exact h2

theorem deleteCase1_safe {α : Type} :
    ∀ (fuel : Nat) (st : RedBlackTree α) (f : Nat) (l : List Nat) (d : Nat) (c : Nat)
      (e1 e2 : Nat),
      Wf st f l →
      (∀ i ∈ l, i ≠ e1 → i ≠ e2 → (st.heap i).red = true →
        isRed st ((st.heap i).left) = false ∧ isRed st ((st.heap i).right) = false) →
      d ∈ l → chainOK c st d →
      ((∃ ge le, reachL ge st (some d) = some le ∧ e1 ∈ le) ∨
        (st.heap d).parent = some e1) →
      ((∃ ge le, reachL ge st (some d) = some le ∧ e2 ∈ le) ∨
        (st.heap d).parent = some e2) →
      deleteCase1 fuel st (some d) ≠ Res.crash := by
  intro fuel
  induction fuel with
  | zero =>
    intro st f l d c e1 e2 hwf hnrr hd hchain he1 he2 hcrash
    simp [deleteCase1] at hcrash
  | succ fu ih =>
    intro st f l d c e1 e2 hwf hnrr hd hchain he1 he2 hcrash
    unfold deleteCase1 at hcrash
    cases hpd : (st.heap d).parent with
    | none =>
      simp only [hpd] at hcrash
      cases hcrash
    | some p =>
      simp only [hpd] at hcrash
      cases c with
      | zero =>
        have hF : False := hchain
        exact hF.elim
      | succ c2 =>
        obtain ⟨hsibOK, hchainP⟩ := chainOK_destruct c2 st d p hpd hchain
        obtain ⟨s, gs, hval, hsib, hbh, hh2⟩ := hsibOK
        obtain ⟨hpmem, hside0⟩ := parent_mem st f l d p hwf hd hpd
        have hside : ((st.heap p).left = some d ∧ (st.heap p).right = some s) ∨
            ((st.heap p).right = some d ∧ (st.heap p).left = some s) := by
          have hsib2 := hsib
          unfold sibling at hsib2
          simp only [hpd] at hsib2
          rcases hside0 with hs0 | hs0
          · rw [if_pos hs0] at hsib2
            exact Or.inl ⟨hs0, hsib2⟩
          · have hnld : ¬ (st.heap p).left = some d :=
              fun hh => not_both_children st f l p d hwf hpmem ⟨hh, hs0⟩
            rw [if_neg hnld] at hsib2
            exact Or.inr ⟨hs0, hsib2⟩
        obtain ⟨-, hsmem, hds, hdp, hps, hsp, -⟩ := sib_facts st f l d p s hwf hd hpd hside
        obtain ⟨gss, lss, hgss, hress, hsubss⟩ := reachL_sub f st st.root l s hwf.reach hsmem
        have hndss : lss.Nodup := hsubss.nodup hwf.nodup
        have hchild : (st.heap p).left = some s ∨ (st.heap p).right = some s := by
          rcases hside with ⟨-, hx⟩ | ⟨-, hx⟩
          · exact Or.inr hx
          · exact Or.inl hx
        have hpnotin : p ∉ lss := parent_notin_subtree st f l p s hwf hsmem hchild gss lss hress
        obtain ⟨gpl, lpl, hgpl, hrep, hsubpl⟩ := reachL_sub f st st.root l p hwf.reach hpmem
        have hndlp : lpl.Nodup := hsubpl.nodup hwf.nodup
        obtain ⟨G2, Lp, Rp, hG2, hLp, hRp, hsplitp⟩ := reachL_destruct gpl st p lpl hrep
        have hndlp2 : (Lp ++ p :: Rp).Nodup := by rw [hsplitp] at hndlp; exact hndlp
        have hdisj2 : Lp.Disjoint (p :: Rp) := List.disjoint_of_nodup_append hndlp2
        have hexc : ∀ e, ((∃ ge le, reachL ge st (some d) = some le ∧ e ∈ le) ∨
            (st.heap d).parent = some e) → ∀ z, z ∈ lss → z ≠ e := by
          intro e he z hz hze
          rcases he with ⟨ge, le, hrede, hein⟩ | hpe
          · rcases hside with ⟨h1, h2⟩ | ⟨h1, h2⟩
            · rw [h1] at hLp
              rw [h2] at hRp
              have hle : le = Lp := reachL_unique ge G2 st (some d) le Lp hrede hLp
              have hlss2 : lss = Rp := reachL_unique gss G2 st (some s) lss Rp hress hRp
              rw [hle] at hein
              rw [hlss2] at hz
              exact hdisj2 hein (List.mem_cons.mpr (Or.inr (hze ▸ hz)))
            · rw [h1] at hRp
              rw [h2] at hLp
              have hle : le = Rp := reachL_unique ge G2 st (some d) le Rp hrede hRp
              have hlss2 : lss = Lp := reachL_unique gss G2 st (some s) lss Lp hress hLp
              rw [hle] at hein
              rw [hlss2] at hz
              exact hdisj2 hz (List.mem_cons.mpr (Or.inr (hze.symm ▸ hein)))
          · rw [hpd] at hpe
            have hep : e = p := (Option.some.inj hpe).symm
            exact hpnotin (hep ▸ hze ▸ hz)
        have hmeml : ∀ e, ((∃ ge le, reachL ge st (some d) = some le ∧ e ∈ le) ∨
            (st.heap d).parent = some e) → e ∈ lpl := by
          intro e he
          rcases he with ⟨ge, le, hrede, hein⟩ | hpe
          · rcases hside with ⟨h1, h2⟩ | ⟨h1, h2⟩
            · rw [h1] at hLp
              have hle : le = Lp := reachL_unique ge G2 st (some d) le Lp hrede hLp
              rw [hle] at hein
              rw [hsplitp]
              exact List.mem_append.mpr (Or.inl hein)
            · rw [h1] at hRp
              have hle : le = Rp := reachL_unique ge G2 st (some d) le Rp hrede hRp
              rw [hle] at hein
              rw [hsplitp]
              exact List.mem_append.mpr (Or.inr (List.mem_cons.mpr (Or.inr hein)))
          · rw [hpd] at hpe
            have hep : e = p := (Option.some.inj hpe).symm
            rw [hep]
            exact reachL_self_mem gpl st p lpl hrep
        have hsself : s ∈ lss := reachL_self_mem gss st s lss hress
        unfold deleteCase2k at hcrash
        by_cases hsr : isRed st (sibling st d) = true
        · rw [if_pos hsr] at hcrash
          simp only [hpd] at hcrash
          simp only [sibling_setRed, hsib] at hcrash
          have hsred : (st.heap s).red = true := by
            rw [hsib] at hsr
            exact hsr
          cases gs with
          | zero => cases hbh
          | succ gs2 =>
            obtain ⟨a, hbL, hbR, hav⟩ := bhAll_destruct gs2 st s _ hbh
            rw [hsred] at hav
            simp at hav
            have ha2 : 2 ≤ a := by omega
            obtain ⟨t, htx⟩ := bhAll_nonnil gs2 st ((st.heap s).left) a hbL ha2
            obtain ⟨u, hux⟩ := bhAll_nonnil gs2 st ((st.heap s).right) a hbR ha2
            have hsneph := hnrr s hsmem (hexc e1 he1 s hsself) (hexc e2 he2 s hsself) hsred
            have htblack : (st.heap t).red = false := by
              have h0 := hsneph.1
              rw [htx] at h0
              exact h0
            have hublack : (st.heap u).red = false := by
              have h0 := hsneph.2
              rw [hux] at h0
              exact h0
            have htin : t ∈ lss := reachL_child_mem gss st s lss hress t (Or.inl htx)
            have huin : u ∈ lss := reachL_child_mem gss st s lss hress u (Or.inr hux)
            have htp : t ≠ p := fun hh => hpnotin (hh ▸ htin)
            have hup : u ≠ p := fun hh => hpnotin (hh ▸ huin)
            have hts : t ≠ s := by
              intro hh
              rw [hh] at htx
              exact (no_child_up gss st s lss hress hndss s
                (reachL_self_mem gss st s lss hress)).1 htx
            have hus : u ≠ s := by
              intro hh
              rw [hh] at hux
              exact (no_child_up gss st s lss hress hndss s
                (reachL_self_mem gss st s lss hress)).2 hux
            have hppd : ¬ (st.heap p).parent = some d := by
              intro hh
              obtain ⟨-, hdc⟩ := parent_mem st f l p d hwf hpmem hh
              obtain ⟨g0, ld0, hg0, hred0, hsubd0⟩ := reachL_sub f st st.root l d hwf.reach hd
              have hpin : p ∈ ld0 := reachL_child_mem g0 st d ld0 hred0 p hdc
              exact parent_notin_subtree st f l p d hwf hd hside0 g0 ld0 hred0 hpin
            rcases hside with ⟨h1, h2⟩ | ⟨h1, h2⟩
            · rw [if_pos (by rw [setRed_heap_left, setRed_heap_left]; exact h1)] at hcrash
              obtain ⟨st3, hrot⟩ := rotateLeft_ok (setRed (setRed st p true) s false) p s
                (by rw [setRed_heap_right, setRed_heap_right]; exact h2)
              simp only [hrot] at hcrash
              have hwfST : Wf (setRed (setRed st p true) s false) f l :=
                setRed_Wf _ s false f l (setRed_Wf st p true f l hwf)
              have hSTr : ((setRed (setRed st p true) s false).heap p).right = some s := by
                rw [setRed_heap_right, setRed_heap_right]
                exact h2
              obtain ⟨hnps, hpnS, hlrS⟩ :=
                rot_hyps (setRed (setRed st p true) s false) f l p s hwfST hpmem (Or.inr hSTr)
              obtain ⟨S1, S2, S3, S4, S5, S6⟩ :=
                rotateLeft_spec (setRed (setRed st p true) s false) st3 p s hSTr hrot hnps hpnS
                  (fun rl h => hlrS rl (Or.inl h))
              obtain ⟨hwf3, -, -, -⟩ :=
                rotateLeft_wf (setRed (setRed st p true) s false) st3 f l p s hwfST hpmem hSTr hrot
              have hsld : ¬ ((setRed (setRed st p true) s false).heap s).left = some d := by
                rw [setRed_heap_left, setRed_heap_left]
                intro hh
                have h0 := (hwf.childParent s hsmem).1
                simp only [hh] at h0
                rw [hpd] at h0
                exact hps (Option.some.inj h0)
              have hppd2 : ¬ ((setRed (setRed st p true) s false).heap p).parent = some d := by
                rw [setRed_heap_parent, setRed_heap_parent]
                exact hppd
              have hd3 : st3.heap d = (setRed (setRed st p true) s false).heap d :=
                S6 d hdp hds hsld hppd2
              have hp3 : (st3.heap d).parent = some p := by
                rw [hd3, setRed_heap_parent, setRed_heap_parent]
                exact hpd
              have hpred3 : (st3.heap p).red = true := by
                rw [S2.2.2.2.2, setRed_red_eq, if_neg hps, setRed_red_eq, if_pos rfl]
              have hpl3 : (st3.heap p).left = some d := by
                rw [S2.1, setRed_heap_left, setRed_heap_left]
                exact h1
              have hpr3 : (st3.heap p).right = some t := by
                rw [S2.2.1, setRed_heap_left, setRed_heap_left]
                exact htx
              have hSTslt : ((setRed (setRed st p true) s false).heap s).left = some t := by
                rw [setRed_heap_left, setRed_heap_left]
                exact htx
              have htred3 : (st3.heap t).red = false := by
                rw [(S4 t hSTslt).2.2.2.2, setRed_red_eq, if_neg hts, setRed_red_eq,
                  if_neg htp]
                exact htblack
              unfold deleteCase3k at hcrash
              rw [hp3] at hcrash
              rw [if_neg (by
                intro hh
                rw [show isRed st3 (some p) = true from hpred3] at hh
                cases hh)] at hcrash
              exact deleteCase4_safe st3 (f+1) l d p t hwf3 hd hp3 (Or.inl ⟨hpl3, hpr3⟩)
                htred3
                (fun hcontra => by
                  rw [hp3, show isRed st3 (some p) = true from hpred3] at hcontra
                  cases hcontra) hcrash
            · rw [if_neg (by
                rw [setRed_heap_left, setRed_heap_left, h2]
                intro hh
                exact hds (Option.some.inj hh).symm)] at hcrash
              obtain ⟨st3, hrot⟩ := rotateRight_ok (setRed (setRed st p true) s false) p s
                (by rw [setRed_heap_left, setRed_heap_left]; exact h2)
              simp only [hrot] at hcrash
              have hwfST : Wf (setRed (setRed st p true) s false) f l :=
                setRed_Wf _ s false f l (setRed_Wf st p true f l hwf)
              have hSTl : ((setRed (setRed st p true) s false).heap p).left = some s := by
                rw [setRed_heap_left, setRed_heap_left]
                exact h2
              obtain ⟨hnps, hpnS, hlrS⟩ :=
                rot_hyps (setRed (setRed st p true) s false) f l p s hwfST hpmem (Or.inl hSTl)
              obtain ⟨S1, S2, S3, S4, S5, S6⟩ :=
                rotateRight_spec (setRed (setRed st p true) s false) st3 p s hSTl hrot hnps hpnS
                  (fun lr h => hlrS lr (Or.inr h))
              obtain ⟨hwf3, -, -, -⟩ :=
                rotateRight_wf (setRed (setRed st p true) s false) st3 f l p s hwfST hpmem hSTl hrot
              have hsrd : ¬ ((setRed (setRed st p true) s false).heap s).right = some d := by
                rw [setRed_heap_right, setRed_heap_right]
                intro hh
                have h0 := (hwf.childParent s hsmem).2
                simp only [hh] at h0
                rw [hpd] at h0
                exact hps (Option.some.inj h0)
              have hppd2 : ¬ ((setRed (setRed st p true) s false).heap p).parent = some d := by
                rw [setRed_heap_parent, setRed_heap_parent]
                exact hppd
              have hd3 : st3.heap d = (setRed (setRed st p true) s false).heap d :=
                S6 d hdp hds hsrd hppd2
              have hp3 : (st3.heap d).parent = some p := by
                rw [hd3, setRed_heap_parent, setRed_heap_parent]
                exact hpd
              have hpred3 : (st3.heap p).red = true := by
                rw [S2.2.2.2.2, setRed_red_eq, if_neg hps, setRed_red_eq, if_pos rfl]
              have hpr3 : (st3.heap p).right = some d := by
                rw [S2.1, setRed_heap_right, setRed_heap_right]
                exact h1
              have hpl3 : (st3.heap p).left = some u := by
                rw [S2.2.1, setRed_heap_right, setRed_heap_right]
                exact hux
              have hSTsru : ((setRed (setRed st p true) s false).heap s).right = some u := by
                rw [setRed_heap_right, setRed_heap_right]
                exact hux
              have hured3 : (st3.heap u).red = false := by
                rw [(S4 u hSTsru).2.2.2.2, setRed_red_eq, if_neg hus, setRed_red_eq,
                  if_neg hup]
                exact hublack
              unfold deleteCase3k at hcrash
              rw [hp3] at hcrash
              rw [if_neg (by
                intro hh
                rw [show isRed st3 (some p) = true from hpred3] at hh
                cases hh)] at hcrash
              exact deleteCase4_safe st3 (f+1) l d p u hwf3 hd hp3 (Or.inr ⟨hpr3, hpl3⟩)
                hured3
                (fun hcontra => by
                  rw [hp3, show isRed st3 (some p) = true from hpred3] at hcontra
                  cases hcontra) hcrash
        · rw [if_neg hsr] at hcrash
          have hsblack : (st.heap s).red = false := by
            cases hff : (st.heap s).red
            · rfl
            · exfalso
              apply hsr
              rw [hsib]
              exact hff
          unfold deleteCase3k at hcrash
          rw [hpd] at hcrash
          by_cases hpblack : isRed st (some p) = false
          · rw [if_pos hpblack] at hcrash
            simp only [hsib] at hcrash
            rw [if_pos (show isRed st (some s) = false from hsblack)] at hcrash
            by_cases hnl : isRed st ((st.heap s).left) = false
            · rw [if_pos hnl] at hcrash
              by_cases hnr2 : isRed st ((st.heap s).right) = false
              · rw [if_pos hnr2] at hcrash
                have hwf' : Wf (setRed st s true) f l := setRed_Wf st s true f l hwf
                have hnrr' := NoRedRedX_setRed_red st f l s e1 e2 hwf hnrr hsmem hnl hnr2
                  (fun q hq => by
                    rw [hsp] at hq
                    rw [← Option.some.inj hq]
                    exact hpblack)
                have hchain' : chainOK c2 (setRed st s true) p := by
                  refine chainOK_setRed_inside c2 st f l p s true hwf hpmem ?_ hchainP
                  exact ⟨gpl, lpl, hrep, reachL_child_mem gpl st p lpl hrep s hchild⟩
                have hrep' : reachL gpl (setRed st s true) (some p) = some lpl :=
                  reachL_frame gpl st (setRed st s true) (some p) lpl
                    (fun j _ => ⟨by simp, by simp⟩) hrep
                exact ih (setRed st s true) f l p c2 e1 e2 hwf'
                  (fun i hi hi1 hi2 hir => hnrr' i hi hi1 hi2 hir)
                  hpmem hchain'
                  (Or.inl ⟨gpl, lpl, hrep', hmeml e1 he1⟩)
                  (Or.inl ⟨gpl, lpl, hrep', hmeml e2 he2⟩) hcrash
              · rw [if_neg hnr2] at hcrash
                have hfr : isRed st ((st.heap s).right) = true := by
                  cases hff : isRed st ((st.heap s).right)
                  · exact absurd hff hnr2
                  · rfl
                exact deleteCase4_safe st f l d p s hwf hd hpd hside hsblack
                  (fun _ => Or.inr hfr) hcrash
            · rw [if_neg hnl] at hcrash
              have hfl : isRed st ((st.heap s).left) = true := by
                cases hff : isRed st ((st.heap s).left)
                · exact absurd hff hnl
                · rfl
              exact deleteCase4_safe st f l d p s hwf hd hpd hside hsblack
                (fun _ => Or.inl hfl) hcrash
          · rw [if_neg hpblack] at hcrash
            exact deleteCase4_safe st f l d p s hwf hd hpd hside hsblack
              (fun hcontra => by rw [hpd] at hcontra; exact absurd hcontra hpblack) hcrash


@[simp] theorem setElem_heap_left {α : Type} (st : RedBlackTree α) (x : Nat) (v : α) (j : Nat) :
    ((setElem st x v).heap j).left = (st.heap j).left := by
  rw [setElem_heap]
  split
  · rename_i h
    subst h
    rfl
  · rfl

@[simp] theorem setElem_heap_right {α : Type} (st : RedBlackTree α) (x : Nat) (v : α) (j : Nat) :
    ((setElem st x v).heap j).right = (st.heap j).right := by
  rw [setElem_heap]
  split
  · rename_i h
    subst h
    rfl
  · rfl

@[simp] theorem setElem_heap_parent {α : Type} (st : RedBlackTree α) (x : Nat) (v : α) (j : Nat) :
    ((setElem st x v).heap j).parent = (st.heap j).parent := by
  rw [setElem_heap]
  split
  · rename_i h
    subst h
    rfl
  · rfl

@[simp] theorem setElem_heap_red {α : Type} (st : RedBlackTree α) (x : Nat) (v : α) (j : Nat) :
    ((setElem st x v).heap j).red = (st.heap j).red := by
  rw [setElem_heap]
  split
  · rename_i h
    subst h
    rfl
  · rfl

theorem setElem_Wf {α : Type} (st : RedBlackTree α) (x : Nat) (v : α) (f : Nat)
    (l : List Nat) (hwf : Wf st f l) : Wf (setElem st x v) f l := by
  refine ⟨?_, hwf.nodup, ?_, ?_, ?_⟩
  · have h0 : (setElem st x v).root = st.root := rfl
    rw [h0]
    exact reachL_frame f st (setElem st x v) st.root l (fun j _ => ⟨by simp, by simp⟩) hwf.reach
  · intro i hi
    have h0 := hwf.childParent i hi
    simp only [setElem_heap_left, setElem_heap_right, setElem_heap_parent]
    exact h0
  · intro i hi
    have h0 := hwf.parentChild i hi
    simp only [setElem_heap_left, setElem_heap_right, setElem_heap_parent]
    exact h0
  · have h0 := hwf.rootParent
    have hr : (setElem st x v).root = st.root := rfl
    rw [hr]
    simp only [setElem_heap_parent]
    exact h0

theorem NoRedRed_setElem {α : Type} (st : RedBlackTree α) (x : Nat) (v : α) (l : List Nat)
    (hnrr : NoRedRed st l) : NoRedRed (setElem st x v) l := by
  intro i hi hred
  rw [setElem_heap_red] at hred
  obtain ⟨h1, h2⟩ := hnrr i hi hred
  constructor
  · rw [setElem_heap_left]
    cases hc : (st.heap i).left with
    | none => rfl
    | some c =>
      show ((setElem st x v).heap c).red = false
      rw [setElem_heap_red]
      rw [hc] at h1
      exact h1
  · rw [setElem_heap_right]
    cases hc : (st.heap i).right with
    | none => rfl
    | some c =>
      show ((setElem st x v).heap c).red = false
      rw [setElem_heap_red]
      rw [hc] at h2
      exact h2

theorem getLoop_mem {α : Type} :
    ∀ (g : Nat) (st : RedBlackTree α) (f : Nat) (l : List Nat) (x : Option Nat) (E : α)
      (d : Nat), Wf st f l → (∀ i, x = some i → i ∈ l) →
      getLoop g st E x = some (some d) → d ∈ l := by
  intro g
  induction g with
  | zero =>
    intro st f l x E d hwf hx h
    cases h
  | succ g2 ih =>
    intro st f l x E d hwf hx h
    cases x with
    | none =>
      simp [getLoop] at h
    | some i =>
      have hi : i ∈ l := hx i rfl
      simp only [getLoop] at h
      by_cases h1 : st.less E ((st.heap i).elem)
      · rw [if_pos h1] at h
        exact ih st f l ((st.heap i).left) E d hwf
          (fun j hj => child_mem st f l i j hwf hi (Or.inl hj)) h
      · rw [if_neg h1] at h
        by_cases h2 : st.less ((st.heap i).elem) E
        · rw [if_pos h2] at h
          exact ih st f l ((st.heap i).right) E d hwf
            (fun j hj => child_mem st f l i j hwf hi (Or.inr hj)) h
        · rw [if_neg h2] at h
          have : some i = some d := Option.some.inj h
          rw [← Option.some.inj this]
          exact hi

theorem findMax_mem {α : Type} :
    ∀ (g : Nat) (st : RedBlackTree α) (f : Nat) (l : List Nat) (i m : Nat),
      Wf st f l → i ∈ l → findMaxF g st i = some m → m ∈ l := by
  intro g
  induction g with
  | zero =>
    intro st f l i m hwf hi h
    cases h
  | succ g2 ih =>
    intro st f l i m hwf hi h
    unfold findMaxF at h
    cases hr : (st.heap i).right with
    | none =>
      rw [hr] at h
      rw [← Option.some.inj h]
      exact hi
    | some r =>
      rw [hr] at h
      exact ih st f l r m hwf (child_mem st f l i r hwf hi (Or.inr hr)) h


theorem NoRedRedX_of_setRed_d {α : Type} (st : RedBlackTree α) (f : Nat) (l : List Nat)
    (d e2 : Nat) (b : Bool) (hwf : Wf st f l) (hnrr : NoRedRed st l)
    (howner : ∀ i ∈ l, ((st.heap i).left = some d ∨ (st.heap i).right = some d) → i = e2) :
    ∀ i ∈ l, i ≠ d → i ≠ e2 → ((setRed st d b).heap i).red = true →
      isRed (setRed st d b) (((setRed st d b).heap i).left) = false ∧
      isRed (setRed st d b) (((setRed st d b).heap i).right) = false := by
  intro i hi hid hie2 hired
  have hired0 : (st.heap i).red = true := by
    rw [setRed_red_eq, if_neg hid] at hired
    exact hired
  obtain ⟨h1, h2⟩ := hnrr i hi hired0
  constructor
  · rw [setRed_heap_left]
    cases hc : (st.heap i).left with
    | none => rfl
    | some c =>
      have hcd : c ≠ d := by
        intro hh
        rw [hh] at hc
        exact hie2 (howner i hi (Or.inl hc))
      show ((setRed st d b).heap c).red = false
      rw [setRed_red_eq, if_neg hcd]
      rw [hc] at h1
      exact h1
  · rw [setRed_heap_right]
    cases hc : (st.heap i).right with
    | none => rfl
    | some c =>
      have hcd : c ≠ d := by
        intro hh
        rw [hh] at hc
        exact hie2 (howner i hi (Or.inr hc))
      show ((setRed st d b).heap c).red = false
      rw [setRed_red_eq, if_neg hcd]
      rw [hc] at h2
      exact h2

theorem deleteRest_safe {α : Type} (fuel : Nat) (st : RedBlackTree α) (f : Nat)
    (l : List Nat) (d : Nat) (G H : Nat) (hwf : Wf st f l) (hnrr : NoRedRed st l)
    (hbal : bhAll G st st.root = some H) (hd : d ∈ l) :
    deleteRest fuel st d ≠ Res.crash := by
  intro hcrash
  unfold deleteRest at hcrash
  simp only [] at hcrash
  by_cases hdb : isRed st (some d) = false
  · rw [if_pos hdb] at hcrash
    set b := isRed st (match (st.heap d).right with
      | none => (st.heap d).left
      | some _ => (st.heap d).right) with hB
    cases hfix : deleteCase1 fuel (setRed st d b) (some d) with
    | ok st2 =>
      simp only [hfix] at hcrash
      cases hcrash
    | out =>
      simp only [hfix] at hcrash
      cases hcrash
    | crash =>
      have hwe : Wf (setRed st d b) f l := setRed_Wf st d b f l hwf
      have hbal2 : ∀ i ∈ l, ∃ g2 v2, bhAll g2 st (some i) = some v2 :=
        bhAll_all G st f st.root l H hwf.reach hbal
      obtain ⟨gdd, vdd, hbdd⟩ := hbal2 d hd
      have hvdd2 : 2 ≤ vdd := bhAll_ge_two gdd st d vdd hbdd (Or.inl hdb)
      obtain ⟨gd0, ld0, hg0, hred0, hsubd0⟩ := reachL_sub f st st.root l d hwf.reach hd
      have hchain0 : chainOK (l.length + 1) st d :=
        chainOK_entry (l.length + 1) st f l d hwf hnrr hbal2 hd ⟨gdd, vdd, hvdd2, hbdd⟩
          gd0 ld0 hred0 (by omega)
      have hdin : d ∈ ld0 := reachL_self_mem gd0 st d ld0 hred0
      have hchain : chainOK (l.length + 1) (setRed st d b) d :=
        chainOK_setRed_inside (l.length + 1) st f l d d b hwf hd ⟨gd0, ld0, hred0, hdin⟩
          hchain0
      have hred0' : reachL gd0 (setRed st d b) (some d) = some ld0 :=
        reachL_frame gd0 st (setRed st d b) (some d) ld0 (fun j _ => ⟨by simp, by simp⟩) hred0
      cases hpar0 : (st.heap d).parent with
      | none =>
        refine deleteCase1_safe fuel (setRed st d b) f l d (l.length + 1) d d hwe
          (NoRedRedX_of_setRed_d st f l d d b hwf hnrr ?_) hd hchain
          (Or.inl ⟨gd0, ld0, hred0', hdin⟩) (Or.inl ⟨gd0, ld0, hred0', hdin⟩) hfix
        intro i hi hch
        exfalso
        have h0 : (st.heap d).parent = some i := by
          rcases hch with hc | hc
          · have h1 := (hwf.childParent i hi).1
            rw [hc] at h1
            exact h1
          · have h1 := (hwf.childParent i hi).2
            rw [hc] at h1
            exact h1
        rw [hpar0] at h0
        cases h0
      | some p =>
        refine deleteCase1_safe fuel (setRed st d b) f l d (l.length + 1) d p hwe
          (NoRedRedX_of_setRed_d st f l d p b hwf hnrr ?_) hd hchain
          (Or.inl ⟨gd0, ld0, hred0', hdin⟩)
          (Or.inr (by rw [setRed_heap_parent]; exact hpar0)) hfix
        intro i hi hch
        have h0 : (st.heap d).parent = some i := by
          rcases hch with hc | hc
          · have h1 := (hwf.childParent i hi).1
            rw [hc] at h1
            exact h1
          · have h1 := (hwf.childParent i hi).2
            rw [hc] at h1
            exact h1
        rw [hpar0] at h0
        exact (Option.some.inj h0).symm
  · rw [if_neg hdb] at hcrash
    cases hcrash


theorem deleteF_safe {α : Type} (fuel : Nat) (st : RedBlackTree α) (f : Nat) (l : List Nat)
    (G H : Nat) (E : α) (hwf : Wf st f l) (hnrr : NoRedRed st l)
    (hbal : bhAll G st st.root = some H) :
    deleteF fuel st E ≠ Res.crash := by
  intro hcrash
  unfold deleteF at hcrash
  cases hget : getF fuel st E with
  | none =>
    simp only [hget] at hcrash
    cases hcrash
  | some dq =>
    simp only [hget] at hcrash
    split at hcrash
    · cases hcrash
    · rename_i hcond
      split at hcrash
      · cases hcrash
      · rename_i d
        have hdmem : d ∈ l := by
          refine getLoop_mem fuel st f l st.root E d hwf ?_ hget
          intro i hi
          have hre := hwf.reach
          rw [hi] at hre
          exact reachL_self_mem f st i l hre
        by_cases htwo : (st.heap d).left ≠ none ∧ (st.heap d).right ≠ none
        · rw [if_pos htwo] at hcrash
          cases hdl : (st.heap d).left with
          | none => exact htwo.1 hdl
          | some l0 =>
            simp only [hdl] at hcrash
            cases hfm : findMaxF fuel st l0 with
            | none =>
              simp only [hfm] at hcrash
              cases hcrash
            | some pred =>
              simp only [hfm] at hcrash
              have hl0mem : l0 ∈ l := child_mem st f l d l0 hwf hdmem (Or.inl hdl)
              have hpredmem : pred ∈ l := findMax_mem fuel st f l l0 pred hwf hl0mem hfm
              have hwfE : Wf (setElem st d ((st.heap pred).elem)) f l :=
                setElem_Wf st d _ f l hwf
              have hnrrE : NoRedRed (setElem st d ((st.heap pred).elem)) l :=
                NoRedRed_setElem st d _ l hnrr
              have hbalE : bhAll G (setElem st d ((st.heap pred).elem))
                  (setElem st d ((st.heap pred).elem)).root = some H := by
                have hroot : (setElem st d ((st.heap pred).elem)).root = st.root := rfl
                rw [hroot]
                rw [bhAll_frame G st (setElem st d ((st.heap pred).elem)) f st.root l
                  hwf.reach (fun j hj => ⟨by simp, by simp, by simp⟩)]
                exact hbal
              exact deleteRest_safe fuel (setElem st d ((st.heap pred).elem)) f l pred G H
                hwfE hnrrE hbalE hpredmem hcrash
        · rw [if_neg htwo] at hcrash
          exact deleteRest_safe fuel st f l d G H hwf hnrr hbal hdmem hcrash

theorem RemoveF_safe {α : Type} (st : RedBlackTree α) (f : Nat) (l : List Nat)
    (G H : Nat) (hwf : Wf st f l) (hnrr : NoRedRed st l)
    (hbal : bhAll G st st.root = some H) (fuel : Nat) (E : α) :
    RemoveF fuel st E ≠ Res.crash := by
  intro hcrash
  unfold RemoveF at hcrash
  cases hdel : deleteF fuel st E with
  | ok st1 =>
    simp only [hdel] at hcrash
    cases hcrash
  | out =>
    simp only [hdel] at hcrash
    cases hcrash
  | crash => exact deleteF_safe fuel st f l G H E hwf hnrr hbal hdel

/-- C10: on a structurally well-formed tree satisfying the red-black
invariants (no red node with a red child, equal black count on every
root-to-leaf path), every reachable black node with a parent has a
non-absent sibling, and a `Remove` call never crashes: in particular the
unguarded `sibling().left` and `sibling().right` reads of delete-fixup
cases 3 through 6 — every nil dereference of the embedding is the `crash`
result — never dereference an absent node, for any fixup fuel and any key. -/
theorem c10_remove_fixup_sibling_safe {α : Type} (st : RedBlackTree α) (f G H : Nat)
    (l : List Nat) (hwf : Wf st f l) (hnrr : NoRedRed st l)
    (hbal : bhAll G st st.root = some H) :
    (∀ d p, d ∈ l → (st.heap d).parent = some p → (st.heap d).red = false →
      ∃ s, sibling st d = some s) ∧
    (∀ (fuel : Nat) (E : α), RemoveF fuel st E ≠ Res.crash) := by
  constructor
  · intro d p hd hp hdb
    have hbal2 := bhAll_all G st f st.root l H hwf.reach hbal
    obtain ⟨gdd, vdd, hbdd⟩ := hbal2 d hd
    have hv2 : 2 ≤ vdd := bhAll_ge_two gdd st d vdd hbdd (Or.inl hdb)
    obtain ⟨gd0, ld0, hg0, hred0, hsub0⟩ := reachL_sub f st st.root l d hwf.reach hd
    have hchain := chainOK_entry (l.length + 1) st f l d hwf hnrr hbal2 hd
      ⟨gdd, vdd, hv2, hbdd⟩ gd0 ld0 hred0 (by omega)
    obtain ⟨hsibOK, -⟩ := chainOK_destruct l.length st d p hp hchain
    obtain ⟨s, g2, h2, hsib, hbh, hge⟩ := hsibOK
    exact ⟨s, hsib⟩
  · intro fuel E
    exact RemoveF_safe st f l G H hwf hnrr hbal fuel E

/-- Witness for C10: on the concrete balanced tree `w7T` (black 10 at the
root with black children 5 and 15 and a red 3 under 5), the black non-root
node 5 has a sibling, and removing 5 — which exercises the delete fixup —
does not crash. -/
theorem c10_remove_fixup_sibling_safe_witness :
    (∃ s, sibling w7T 1 = some s) ∧ RemoveF 8 w7T 5 ≠ Res.crash := by
  have hwf : Wf w7T 3 [3, 1, 0, 2] := by
    refine ⟨by decide, by decide, ?_, ?_, rfl⟩
    · intro i hi
      fin_cases hi
      · exact ⟨trivial, trivial⟩
      · exact ⟨rfl, trivial⟩
      · exact ⟨rfl, rfl⟩
      · exact ⟨trivial, trivial⟩
    · intro i hi
      fin_cases hi
      · exact Or.inl rfl
      · exact Or.inl rfl
      · trivial
      · exact Or.inr rfl
  obtain ⟨hA, hB⟩ := c10_remove_fixup_sibling_safe w7T 3 4 3 [3, 1, 0, 2] hwf
    (by unfold NoRedRed; decide) (by decide)
  exact ⟨hA 1 0 (by decide) rfl rfl, hB 8 5⟩

end Goods
